import Mathlib

/-!
# API gateway request pipeline

A shallow embedding of the gateway of `control-system-microservices`
(`api-gateway/internal/middleware/middleware.go` and
`api-gateway/internal/routers/router.go`): the gin handler chain, the JWT
middleware, the rate limiter middleware and the reverse proxy Director.

Third-party libraries (gin, golang-jwt, ulule/limiter, net/http, fmt) are not
part of the repository.  Where the gateway's behaviour depends on them they are
either taken as parameters (`JwtLib`, `Limiter`, the upstream transport) or
transcribed from their documented behaviour (`CanonicalMIMEHeaderKey`,
`TrimSpace`, `Split`, `Join`, the `%v` verb of `fmt`).
-/

set_option autoImplicit false

namespace ApiGateway

/-! ## Go strings -/

/-- Go `strings.HasPrefix`. -/
def HasPrefix (s p : String) : Bool := p.data.isPrefixOf s.data

/-- Go `strings.TrimPrefix`. -/
def TrimPrefix (s p : String) : String :=
  if HasPrefix s p then ⟨s.data.drop p.data.length⟩ else s

/-- Go `unicode.IsSpace`. -/
def IsSpace (c : Char) : Bool :=
  let n := c.toNat
  (9 ≤ n && n ≤ 13) || n = 0x20 || n = 0x85 || n = 0xA0 || n = 0x1680 ||
  (0x2000 ≤ n && n ≤ 0x200a) || n = 0x2028 || n = 0x2029 || n = 0x202f ||
  n = 0x205f || n = 0x3000

/-- Go `strings.TrimSpace`: leading and trailing white space removed. -/
def TrimSpace (s : String) : String :=
  ⟨((s.data.dropWhile IsSpace).reverse.dropWhile IsSpace).reverse⟩

/-- One pass of `strings.Split` over the characters, for a one-character separator. -/
def splitChars (sep : Char) : List Char → List (List Char)
  | [] => [[]]
  | c :: cs =>
    if c = sep then [] :: splitChars sep cs
    else match splitChars sep cs with
      | [] => [[c]]
      | w :: ws => (c :: w) :: ws

/-- Go `strings.Split(s, ",")`. -/
def SplitComma (s : String) : List String :=
  (splitChars ',' s.data).map String.mk

/-- Go `strings.Join(elems, sep)`. -/
def Join (elems : List String) (sep : String) : String :=
  sep.intercalate elems

/-! ## Go maps with string keys -/

/-- The map index `m[key]` of a Go map kept as an association list: the first entry
of the key. -/
def mapGet {β : Type} (key : String) : List (String × β) → Option β
  | [] => none
  | (k, v) :: rest => if k = key then some v else mapGet key rest

/-- The map assignment `m[key] = v`. -/
def mapPut {β : Type} (key : String) (v : β) : List (String × β) → List (String × β)
  | [] => [(key, v)]
  | (k, w) :: rest => if k = key then (key, v) :: rest else (k, w) :: mapPut key v rest

/-! ## Go values held in an `interface{}` -/

/-- A finite `float64` as `strconv` sees it after the shortest-digits conversion
(`decimalSlice`): the significant decimal digits `d` (no trailing zeros, empty
for zero), the position `dp` of the decimal point and the sign. -/
structure Float64 where
  neg : Bool
  d : List Char
  dp : Int
deriving DecidableEq, Repr

/-- The `float64` of a natural number below `2^53` (every such number is exactly
representable, and its shortest digits are its decimal digits without the
trailing zeros).  This is what `encoding/json` yields for an integer literal
decoded into an `interface{}`. -/
def float64OfNat (n : Nat) : Float64 :=
  if n = 0 then ⟨false, [], 0⟩
  else
    let ds := Nat.toDigits 10 n
    ⟨false, (ds.reverse.dropWhile (· = '0')).reverse, ds.length⟩

/-- The digit character of a number below ten. -/
def digitByte (n : Nat) : Char := Nat.digitChar (n % 10)

/-- The function `fmtE` of `strconv`: `d.ddddde±dd`. -/
def fmtE (f : Float64) (prec : Int) : List Char :=
  let sign := if f.neg then ['-'] else []
  let first := match f.d with
    | [] => '0'
    | c :: _ => c
  let p := prec.toNat
  let more :=
    if 0 < prec then
      let m := min f.d.length (p + 1)
      let taken := (f.d.take m).drop 1
      '.' :: (taken ++ List.replicate (p - taken.length) '0')
    else []
  let exp : Int := if f.d.length = 0 then 0 else f.dp - 1
  let esign := if exp < 0 then '-' else '+'
  let e := exp.natAbs
  let edigits :=
    if e < 10 then ['0', digitByte e]
    else if e < 100 then [digitByte (e / 10), digitByte e]
    else [digitByte (e / 100), digitByte (e / 10), digitByte e]
  sign ++ [first] ++ more ++ ['e', esign] ++ edigits

/-- The function `fmtF` of `strconv`: `ddddd.ddd`. -/
def fmtF (f : Float64) (prec : Int) : List Char :=
  let sign := if f.neg then ['-'] else []
  let int :=
    if 0 < f.dp then
      let m := min f.d.length f.dp.toNat
      f.d.take m ++ List.replicate (f.dp.toNat - m) '0'
    else ['0']
  let frac :=
    if 0 < prec then
      '.' :: (List.range prec.toNat).map fun i =>
        let j := f.dp + i
        if 0 ≤ j ∧ j < f.d.length then f.d.getD j.toNat '0' else '0'
    else []
  sign ++ int ++ frac

/-- The call `strconv.FormatFloat(v, 'g', -1, 64)`, which is what the `%v` verb of
`fmt` prints for a `float64`: the shortest digits, in exponent form when the
decimal exponent is below `-4` or at least `6`. -/
def FormatFloatG (f : Float64) : String :=
  let prec : Int := f.d.length
  let eprec : Int := 6
  let exp := f.dp - 1
  if exp < -4 ∨ exp ≥ eprec then
    ⟨fmtE f (prec - 1)⟩
  else
    let prec := if prec > f.dp then (f.d.length : Int) else prec
    ⟨fmtF f (max (prec - f.dp) 0)⟩

/-- A Go value held in an `interface{}`: what `encoding/json` decodes into
(`nil`, `bool`, `float64`, `string`, `[]interface{}`, `map[string]interface{}`)
and, as the type switch of `JWTAuth` also lists it, `[]string`. -/
inductive GoVal where
  | null
  | bool (b : Bool)
  | num (f : Float64)
  | str (s : String)
  | arr (xs : List GoVal)
  | strs (xs : List String)
  | obj (kvs : List (String × GoVal))

mutual
/-- The verb `%v` of `fmt` on a value held in an `interface{}`. -/
def fmtV : GoVal → String
  | .null => "<nil>"
  | .bool b => if b then "true" else "false"
  | .num f => FormatFloatG f
  | .str s => s
  | .arr xs => "[" ++ " ".intercalate (fmtVs xs) ++ "]"
  | .strs xs => "[" ++ " ".intercalate xs ++ "]"
  | .obj kvs =>
    "map[" ++ " ".intercalate
      (((fmtKVs kvs).insertionSort fun a b => a.1 ≤ b.1).map fun p => p.1 ++ ":" ++ p.2) ++ "]"
/-- The verb `%v` on every element of a slice. -/
def fmtVs : List GoVal → List String
  | [] => []
  | x :: xs => fmtV x :: fmtVs xs
/-- The verb `%v` on every value of a map. -/
def fmtKVs : List (String × GoVal) → List (String × String)
  | [] => []
  | (k, v) :: kvs => (k, fmtV v) :: fmtKVs kvs
end

/-! ## net/http: headers, URLs, requests -/

/-- The function `validHeaderFieldByte` of `net/textproto`: the token characters of RFC 7230. -/
def validHeaderFieldByte (c : Char) : Bool :=
  c.isAlphanum || "!#$%&*+-.^_|~".data.contains c || c = Char.ofNat 39 || c = Char.ofNat 96

/-- The loop of `canonicalMIMEHeaderKey`: upper case for the first letter and for
each letter after a dash, lower case for the others. -/
def canonLoop : Bool → List Char → List Char
  | _, [] => []
  | upper, c :: cs =>
    let c1 := if upper && c.isLower then c.toUpper
              else if !upper && c.isUpper then c.toLower else c
    c1 :: canonLoop (c1 == '-') cs

/-- Go `textproto.CanonicalMIMEHeaderKey` (`http.CanonicalHeaderKey`): a key holding a
byte that is not a token character is returned unchanged. -/
def CanonicalMIMEHeaderKey (s : String) : String :=
  if s.data.all validHeaderFieldByte then ⟨canonLoop true s.data⟩ else s

/-- Go `http.Header`, a `map[string][]string`, as an association list read by the
first entry of a key. -/
structure Header where
  entries : List (String × List String)
deriving DecidableEq, Repr

/-- The map index `h[key]`, without canonicalisation. -/
def Header.index (h : Header) (key : String) : Option (List String) :=
  mapGet key h.entries

/-- Go `Header.Get`: the first value of the canonical key, or the empty string. -/
def Header.Get (h : Header) (key : String) : String :=
  match h.index (CanonicalMIMEHeaderKey key) with
  | some (v :: _) => v
  | _ => ""

/-- Go `Header.Set`: the canonical key is bound to the single value. -/
def Header.Set (h : Header) (key value : String) : Header :=
  ⟨mapPut (CanonicalMIMEHeaderKey key) [value] h.entries⟩

/-- Go `Header.Add`: the value is appended to the values of the canonical key. -/
def Header.Add (h : Header) (key value : String) : Header :=
  let k := CanonicalMIMEHeaderKey key
  ⟨mapPut k ((h.index k).getD [] ++ [value]) h.entries⟩

/-- Go `Header.Del`: the canonical key is unbound. -/
def Header.Del (h : Header) (key : String) : Header :=
  ⟨h.entries.filter fun kv => decide (kv.1 ≠ CanonicalMIMEHeaderKey key)⟩

/-- The parts of `url.URL` the gateway reads and writes. -/
structure URL where
  Scheme : String
  Host : String
  Path : String
  RawQuery : String
deriving DecidableEq, Repr

/-- The parts of `http.Request` the gateway reads and writes. -/
structure Request where
  Method : String
  URL : URL
  Host : String
  Header : Header
  Body : String
  RemoteAddr : String
deriving DecidableEq, Repr

/-- The answer of an upstream service. -/
structure UpstreamResponse where
  StatusCode : Nat
  Header : List (String × String)
  Body : String
deriving DecidableEq, Repr

/-! ## net/http/httputil: what `ReverseProxy.ServeHTTP` does around the Director

The functions of the Go library (as of Go 1.20) that `proxy.ServeHTTP` runs on the
request after the Director and on the answer of the upstream. -/

/-- The function `isASCIISpace` of `net/textproto`. -/
def isASCIISpace (c : Char) : Bool :=
  c = ' ' || c = Char.ofNat 9 || c = Char.ofNat 10 || c = Char.ofNat 13

/-- Go `textproto.TrimString`: leading and trailing ASCII space removed. -/
def TrimString (s : String) : String :=
  ⟨((s.data.dropWhile isASCIISpace).reverse.dropWhile isASCIISpace).reverse⟩

/-- The optional white space of `httpguts.trimOWS`: space and tab. -/
def isOWS (c : Char) : Bool :=
  c = ' ' || c = Char.ofNat 9

/-- The function `trimOWS` of `httpguts`. -/
def trimOWS (s : String) : String :=
  ⟨((s.data.dropWhile isOWS).reverse.dropWhile isOWS).reverse⟩

/-- The function `tokenEqual` of `httpguts`: `t1` is ASCII and equal to `t2` up to the
case of ASCII letters. -/
def tokenEqual (t1 t2 : String) : Bool :=
  t1.data.all (fun c => c.toNat < 0x80) && t1.data.map Char.toLower == t2.data.map Char.toLower

/-- The function `headerValueContainsToken` of `httpguts`: one of the comma-separated
elements of `v` is the token. -/
def headerValueContainsToken (v token : String) : Bool :=
  (SplitComma v).any fun part => tokenEqual (trimOWS part) token

/-- Go `httpguts.HeaderValuesContainsToken`. -/
def HeaderValuesContainsToken (values : List String) (token : String) : Bool :=
  values.any fun v => headerValueContainsToken v token

/-- The function `upgradeType` of `httputil`. -/
def upgradeType (h : Header) : String :=
  if !HeaderValuesContainsToken ((h.index "Connection").getD []) "Upgrade" then ""
  else h.Get "Upgrade"

/-- The function `ascii.IsPrint` of `net/http/internal/ascii`: every byte is printable
ASCII (a character outside ASCII is encoded in bytes above `~`). -/
def IsPrint (s : String) : Bool :=
  s.data.all fun c => 0x20 ≤ c.toNat && c.toNat ≤ 0x7e

/-- The variable `hopHeaders` of `httputil`. -/
def hopHeaders : List String :=
  ["Connection", "Proxy-Connection", "Keep-Alive", "Proxy-Authenticate",
   "Proxy-Authorization", "Te", "Trailer", "Transfer-Encoding", "Upgrade"]

/-- The header names the values of `Connection` list: every element of
`strings.Split(f, ",")`, trimmed by `textproto.TrimString`, that is not empty. -/
def connectionOptions (h : Header) : List String :=
  (((h.index "Connection").getD []).flatMap fun f =>
    (SplitComma f).map TrimString).filter fun sf => decide (sf ≠ "")

/-- The `Connection` header of `h` lists a header name whose canonical form is `key`. -/
def connectionLists (h : Header) (key : String) : Bool :=
  (connectionOptions h).any fun sf => decide (CanonicalMIMEHeaderKey sf = key)

/-- The function `removeHopByHopHeaders` of `httputil`: the headers listed in
`Connection` are deleted, then the hop-by-hop headers themselves. -/
def removeHopByHopHeaders (h : Header) : Header :=
  hopHeaders.foldl Header.Del ((connectionOptions h).foldl Header.Del h)

/-- The position of the first `c` in the characters (`strings.IndexByte`). -/
def indexByte (c : Char) : List Char → Option Nat
  | [] => none
  | d :: ds => if d = c then some 0 else (indexByte c ds).map (· + 1)

/-- The position of the last `c` in the characters (`strings.LastIndexByte`). -/
def lastIndexByte (c : Char) : List Char → Option Nat
  | [] => none
  | d :: ds =>
    match lastIndexByte c ds with
    | some i => some (i + 1)
    | none => if d = c then some 0 else none

/-- Go `net.SplitHostPort`, the host of `host:port` or `[host]:port`; `none` is an
error. -/
def SplitHostPort (hostport : String) : Option String :=
  let s := hostport.data
  match lastIndexByte ':' s with
  | none => none
  | some i =>
    if s.head? = some '[' then
      match indexByte ']' s with
      | none => none
      | some e =>
        if e + 1 = i then
          if (s.drop 1).contains '[' then none
          else if (s.drop (e + 1)).contains ']' then none
          else some ⟨(s.take e).drop 1⟩
        else none
    else if (s.take i).contains ':' then none
    else if s.contains '[' then none
    else if s.contains ']' then none
    else some ⟨s.take i⟩

/-- The block of `ReverseProxy.ServeHTTP` that writes `X-Forwarded-For` when
`net.SplitHostPort(req.RemoteAddr)` gives the peer: the peer is appended to the values
the header has, joined by a comma and a space (an entry without values stands for
Go's nil entry, which omits the header). -/
def addForwardedFor (remoteAddr : String) (h : Header) : Header :=
  match SplitHostPort remoteAddr with
  | some clientIP =>
    match h.index "X-Forwarded-For" with
    | some [] => h
    | some prior => h.Set "X-Forwarded-For" (Join prior ", " ++ ", " ++ clientIP)
    | none => h.Set "X-Forwarded-For" clientIP
  | none => h

/-- The header of the outbound request as `ReverseProxy.ServeHTTP` leaves it after the
Director has produced `h`: the hop-by-hop headers are removed, `Te: trailers` and the
upgrade headers are put back, the peer is appended to `X-Forwarded-For`, and an absent
`User-Agent` is set to the empty string.  The header `inbound` is the one of the
request the proxy received. -/
def outboundHeader (remoteAddr : String) (inbound h : Header) : Header :=
  let reqUpType := upgradeType h
  let h := removeHopByHopHeaders h
  let h := if HeaderValuesContainsToken ((inbound.index "Te").getD []) "trailers"
    then h.Set "Te" "trailers" else h
  let h := if reqUpType ≠ "" then (h.Set "Connection" "Upgrade").Set "Upgrade" reqUpType else h
  let h := addForwardedFor remoteAddr h
  if (h.index "User-Agent").isNone then h.Set "User-Agent" "" else h

/-- The header map `http.ReadResponse` builds from the header lines of an answer. -/
def responseHeader (lines : List (String × String)) : Header :=
  lines.foldl (fun h kv => h.Add kv.1 kv.2) ⟨[]⟩

/-- The function `copyHeader` of `httputil`: every value of `src` is added to `dst`. -/
def copyHeader (dst src : Header) : Header :=
  src.entries.foldl (fun h kv => kv.2.foldl (fun h v => h.Add kv.1 v) h) dst

/-! ## golang-jwt -/

/-- Go `jwt.MapClaims`, a `map[string]interface{}`. -/
abbrev MapClaims := List (String × GoVal)

/-- A decoded token: its `alg` header, whether `token.Method` is a
`*jwt.SigningMethodHMAC`, and its claims. -/
structure Token where
  alg : String
  isHMAC : Bool
  Claims : MapClaims

/-- The parts of `jwt.Parse` that belong to the library: decoding the three segments
(`ParseUnverified`), verifying the signature of the token string with a key, and
validating the registered claims at a time (an expired `exp` is invalid). -/
structure JwtLib where
  decode : String → Option Token
  verify : String → String → Bool
  claimsValid : MapClaims → Int → Bool

/-- Go `jwt.Parse(tokenStr, keyFunc)`: decode, ask `keyFunc` for the key, verify the
signature, validate the claims; the first failure is the error. -/
def jwtParse (lib : JwtLib) (now : Int) (tokenStr : String)
    (keyFunc : Token → Except String String) : Except String Token :=
  match lib.decode tokenStr with
  | none => .error "token is malformed"
  | some token =>
    match keyFunc token with
    | .error e => .error ("token is unverifiable: " ++ e)
    | .ok key =>
      if !lib.verify tokenStr key then .error "token signature is invalid"
      else if !lib.claimsValid token.Claims now then .error "token has invalid claims"
      else .ok token

/-! ## ulule/limiter, memory store -/

/-- A counter of the memory store. -/
structure Counter where
  value : Int
  expiration : Int
deriving DecidableEq, Repr

/-- The cache of a memory store: counters by cache key. -/
abbrev Store := List (String × Counter)

/-- Go `limiter.Rate`. -/
structure Rate where
  Period : Int
  Limit : Int
deriving DecidableEq, Repr

/-- Go `limiter.Context`, the result of `Limiter.Get`. -/
structure LimiterContext where
  Limit : Int
  Remaining : Int
  Reset : Int
  Reached : Bool
deriving DecidableEq, Repr

/-- The method `Cache.Increment` of the memory store at time `now` (nanoseconds): a
missing or expired counter (`Counter.Expired`: no expiration, or `now` at or past it)
restarts at `value` with a new expiration, a live one is incremented and keeps its
expiration. -/
def Increment (store : Store) (now : Int) (key : String) (value duration : Int) :
    Counter × Store :=
  let fresh : Counter := ⟨value, now + duration⟩
  match mapGet key store with
  | none => (fresh, mapPut key fresh store)
  | some counter =>
    if counter.expiration = 0 ∨ now ≥ counter.expiration then
      (fresh, mapPut key fresh store)
    else
      let next : Counter := ⟨counter.value + value, counter.expiration⟩
      (next, mapPut key next store)

/-- The function `common.GetContextFromState` of the limiter library. -/
def GetContextFromState (rate : Rate) (expiration count : Int) : LimiterContext :=
  if count ≤ rate.Limit then ⟨rate.Limit, rate.Limit - count, expiration / 1000000000, false⟩
  else ⟨rate.Limit, 0, expiration / 1000000000, true⟩

/-- What `Limiter.Get(ctx, key)` is to the middleware: from the store and the time, a
limiter context and the new store, or an error. -/
structure Limiter where
  Get : Store → Int → String → Except String (LimiterContext × Store)

/-- The limiter `limiter.New(memory.NewStore(), rate, ...)`: `Store.Get` of the memory
store increments the counter of `limiter:key` by one and never fails. -/
def memoryLimiter (rate : Rate) : Limiter where
  Get store now key :=
    let r := Increment store now ("limiter" ++ ":" ++ key) 1 rate.Period
    .ok (GetContextFromState rate r.1.expiration r.1.value, r.2)

/-! ## gin: the context and the handler chain -/

/-- A response body: nothing, a JSON document (`c.JSON`), or raw bytes. -/
inductive Body where
  | empty
  | json (v : GoVal)
  | text (s : String)

/-- The two records the gateway writes to its zap logger: `"Authenticated request"`
of `JWTAuth` and `"Request"` of `Logging` (the duration field is left out). -/
inductive LogRecord where
  | authenticated (user_id : String) (roles : List String) (path : String)
  | request (method path : String) (status : Nat) (req_id : String)
deriving DecidableEq, Repr

/-- The routes `Setup` registers with a proxy. -/
inductive Route where
  | login
  | admin
  | orders
deriving DecidableEq, Repr

/-- The state of the gateway process: the memory store of each `RateLimiterManual()`
call of `Setup` (one call per route), the log, the requests that reached a reverse
proxy, each as the Director of the proxy left it (`forwarded`), and the requests the
reverse proxies handed to the upstream transport (`sent`). -/
structure Gateway where
  stores : Route → Store
  log : List LogRecord
  forwarded : List Request
  sent : List Request

/-- Go `gin.Context` with its response writer, and the process state it can reach. -/
structure Context where
  Request : Request
  Keys : List (String × String)
  status : Nat
  body : Body
  respHeader : Header
  aborted : Bool
  gw : Gateway

/-- A gin handler, with the rest of the chain (`c.Next()`) as its first argument. -/
abbrev HandlerFunc := (Context → Context) → Context → Context

/-- The context gin creates for a request: status 200, nothing written. -/
def newContext (gw : Gateway) (req : Request) : Context :=
  ⟨req, [], 200, .empty, ⟨[]⟩, false, gw⟩

/-- Go `c.Abort()`. -/
def Context.Abort (c : Context) : Context := { c with aborted := true }

/-- Go `c.JSON(code, obj)` (the Content-Type header is left out). -/
def Context.JSON (c : Context) (code : Nat) (obj : GoVal) : Context :=
  { c with status := code, body := .json obj }

/-- Go `c.AbortWithStatusJSON(code, obj)`. -/
def Context.AbortWithStatusJSON (c : Context) (code : Nat) (obj : GoVal) : Context :=
  c.Abort.JSON code obj

/-- Go `c.AbortWithStatus(code)`. -/
def Context.AbortWithStatus (c : Context) (code : Nat) : Context :=
  { c with status := code, aborted := true }

/-- Go `c.GetHeader(key)`. -/
def Context.GetHeader (c : Context) (key : String) : String := c.Request.Header.Get key

/-- The statement `c.Request.Header.Set(key, value)`. -/
def Context.setRequestHeader (c : Context) (key value : String) : Context :=
  { c with Request := { c.Request with Header := c.Request.Header.Set key value } }

/-- The statement `c.Writer.Header().Set(key, value)`. -/
def Context.setWriterHeader (c : Context) (key value : String) : Context :=
  { c with respHeader := c.respHeader.Set key value }

/-- Go `c.Header(key, value)`: an empty value deletes the response header. -/
def Context.Header (c : Context) (key value : String) : Context :=
  if value = "" then
    { c with respHeader :=
        ⟨c.respHeader.entries.filter fun e => e.1 ≠ CanonicalMIMEHeaderKey key⟩ }
  else c.setWriterHeader key value

/-- Go `c.Set(key, value)`. -/
def Context.Set (c : Context) (key value : String) : Context :=
  { c with Keys := (key, value) :: c.Keys }

/-- Go `c.GetString(key)`. -/
def Context.GetString (c : Context) (key : String) : String :=
  (mapGet key c.Keys).getD ""

/-- The call `logger.Info(...)`. -/
def Context.logInfo (c : Context) (r : LogRecord) : Context :=
  { c with gw := { c.gw with log := c.gw.log ++ [r] } }

/-- The handlers of a route run in order; `c.Next()` inside a handler runs the rest
of the chain unless the context is aborted.  (Every handler of the gateway either
aborts, calls `c.Next()` last or around, or is the last of its chain.) -/
def runChain : List HandlerFunc → Context → Context
  | [], c => c
  | h :: hs, c => h (fun c1 => if c1.aborted then c1 else runChain hs c1) c

/-! ## The gateway: configuration and environment -/

/-- Go `config.Config` of the gateway. -/
structure Config where
  Addr : String
  UsersServiceURL : String
  OrdersServiceURL : String
  JWTSecret : String

/-- What a request meets outside the repository: the configuration, the JWT library,
the limiter constructor `limiter.New(memory.NewStore(), rate, ...)`, the clock
(`now` in nanoseconds, `timeFormat` the layout `20060102150405` of a second), the
answer of gin's `c.ClientIP()` for the request (gin reads it from the peer address and
the forwarding headers, none of which the gateway writes), `url.Parse`, and the
transport of the reverse proxy. -/
structure Env where
  cfg : Config
  jwt : JwtLib
  limiterNew : Rate → Limiter
  now : Int
  timeFormat : Int → String
  ClientIP : String
  urlParse : String → URL
  transport : Request → Except String UpstreamResponse

/-- One minute, in nanoseconds (`time.Minute`). -/
def Minute : Int := 60 * 1000000000

/-- The envelope `gin.H{"success": false, "error": gin.H{"code": ..., "message": ...}}`. -/
def errorEnvelope (code message : String) : GoVal :=
  .obj [("success", .bool false), ("error", .obj [("code", .str code), ("message", .str message)])]

/-! ## middleware.go -/

/-- The key function `JWTAuth` hands to `jwt.Parse`: only HMAC methods get the secret. -/
def keyFunc (cfg : Config) (token : Token) : Except String String :=
  if !token.isHMAC then .error ("unexpected signing method: " ++ token.alg)
  else .ok cfg.JWTSecret

/-- The body of the loop of `JWTAuth` over a `[]interface{}`: a non-empty string is
appended. -/
def appendRole (roles : List String) (r : GoVal) : List String :=
  match r with
  | .str s => if s ≠ "" then roles ++ [s] else roles
  | _ => roles

/-- The body of the loop of `JWTAuth` over the items of a split string: an item that is
not empty once trimmed is appended, trimmed. -/
def appendTrimmed (roles : List String) (s : String) : List String :=
  let s := TrimSpace s
  if s ≠ "" then roles ++ [s] else roles

/-- The type switch of `JWTAuth` on `claims["roles"]`. -/
def rolesOf (claims : MapClaims) : List String :=
  match mapGet "roles" claims with
  | some (.arr raw) => raw.foldl appendRole []
  | some (.strs raw) => raw
  | some (.str raw) => (SplitComma raw).foldl appendTrimmed []
  | _ => []

/-- The string `userIDStr` of `JWTAuth`: the `id` claim under the verb `%v`, or the
empty string when there is none. -/
def userIDOf (claims : MapClaims) : String :=
  match mapGet "id" claims with
  | some idv => fmtV idv
  | none => ""

/-- The block of `JWTAuth` that runs once the token is parsed (lines 54 to 92): the
identity headers are set on the request from the claims and the request is logged. -/
def withClaims (c : Context) (claims : MapClaims) : Context :=
  let userIDStr := userIDOf claims
  let roles := rolesOf claims
  let c := if userIDStr ≠ "" then c.setRequestHeader "X-User-ID" userIDStr else c
  let c := if roles.length > 0 then c.setRequestHeader "X-User-Roles" (Join roles ",") else c
  c.logInfo (.authenticated userIDStr roles c.Request.URL.Path)

/-- The middleware `JWTAuth`. -/
def JWTAuth (env : Env) : HandlerFunc := fun next c =>
  let authHeader := c.GetHeader "Authorization"
  if authHeader = "" ∨ !HasPrefix authHeader "Bearer " then
    (c.JSON 401 (errorEnvelope "unauthorized" "Missing or invalid Bearer token")).Abort
  else
    let tokenStr := TrimPrefix authHeader "Bearer "
    match jwtParse env.jwt env.now tokenStr (keyFunc env.cfg) with
    | .error _ => (c.JSON 401 (errorEnvelope "unauthorized" "Invalid token")).Abort
    | .ok token => next (withClaims c token.Claims)

/-- The middleware `RequestID`. -/
def RequestID (env : Env) : HandlerFunc := fun next c =>
  let reqID := c.GetHeader "X-Request-ID"
  let reqID := if reqID = "" then "req-" ++ env.timeFormat (env.now / 1000000000) else reqID
  let c := c.Set "X-Request-ID" reqID
  let c := c.Header "X-Request-ID" reqID
  next c

/-- The middleware `RateLimiterManual`; `inst` names the call of `RateLimiterManual()`
whose closure owns the store. -/
def RateLimiterManual (env : Env) (inst : Route) : HandlerFunc := fun next c =>
  let rate : Rate := ⟨Minute, 100⟩
  let lim := env.limiterNew rate
  let key := env.ClientIP
  match lim.Get (c.gw.stores inst) env.now key with
  | .error _ => c.AbortWithStatusJSON 500 (.obj [("error", .str "internal server error")])
  | .ok (result, store) =>
    let c := { c with gw := { c.gw with stores := Function.update c.gw.stores inst store } }
    if result.Reached then
      c.AbortWithStatusJSON 429 (errorEnvelope "rate_limit_exceeded" "Too many requests")
    else next c

/-- The middleware `Logging`. -/
def Logging : HandlerFunc := fun next c =>
  let c := next c
  c.logInfo (.request c.Request.Method c.Request.URL.Path c.status (c.GetString "X-Request-ID"))

/-- The middleware `CORS`. -/
def CORS : HandlerFunc := fun next c =>
  let c := c.setWriterHeader "Access-Control-Allow-Origin" "*"
  let c := c.setWriterHeader "Access-Control-Allow-Methods" "GET, POST, PUT, DELETE"
  let c := c.setWriterHeader "Access-Control-Allow-Headers" "Authorization, X-Request-ID"
  if c.Request.Method = "OPTIONS" then c.AbortWithStatus 204 else next c

/-- The context `RequestID` hands to the rest of the chain. -/
def Context.withRequestID (c : Context) (env : Env) : Context :=
  let reqID := c.GetHeader "X-Request-ID"
  let reqID := if reqID = "" then "req-" ++ env.timeFormat (env.now / 1000000000) else reqID
  (c.Set "X-Request-ID" reqID).Header "X-Request-ID" reqID

/-- The context after the three `c.Writer.Header().Set` calls of `CORS`. -/
def Context.withCORS (c : Context) : Context :=
  ((c.setWriterHeader "Access-Control-Allow-Origin" "*").setWriterHeader
    "Access-Control-Allow-Methods" "GET, POST, PUT, DELETE").setWriterHeader
    "Access-Control-Allow-Headers" "Authorization, X-Request-ID"

/-- The context after `RateLimiterManual` has put the new store back. -/
def Context.withStore (c : Context) (inst : Route) (store : Store) : Context :=
  { c with gw := { c.gw with stores := Function.update c.gw.stores inst store } }

/-! ## router.go -/

/-- The `proxy.Director` closure of `setupProxy`, for the parsed target `url`. -/
def Director (url : URL) (req : Request) : Request :=
  let originalPath := req.URL.Path
  let req := { req with
    URL := { req.URL with Scheme := url.Scheme, Host := url.Host, Path := url.Path ++ originalPath }
    Host := url.Host }
  let req := { req with Header := req.Header.Set "X-Request-ID" (req.Header.Get "X-Request-ID") }
  if (req.Header.index "User-Agent").isNone then
    { req with Header := req.Header.Set "User-Agent" "" }
  else req

/-- The `proxy.ErrorHandler` closure of `setupProxy`. -/
def ErrorHandler (c : Context) (_err : String) : Context :=
  { c with status := 502, body := .text "Service unavailable" }

/-- The request `ReverseProxy.ServeHTTP` hands to the transport for the inbound request
`req`: the output of the Director with the header the proxy makes of it. -/
def outboundRequest (url : URL) (req : Request) : Request :=
  let outreq := Director url req
  { outreq with Header := outboundHeader req.RemoteAddr req.Header outreq.Header }

/-- The handler `setupProxy(target)` returns, `proxy.ServeHTTP` of the
`httputil.ReverseProxy` with the Director and the ErrorHandler of `setupProxy`: the
Director rewrites a copy of the request; a request that asks for an upgrade to a
protocol whose name is not printable goes to the ErrorHandler; otherwise the proxy
removes the hop-by-hop headers, adds `X-Forwarded-For` and hands the request to the
transport; an error of the transport goes to the ErrorHandler; of an answer, the
hop-by-hop headers are removed and the rest is copied to the client.  (For an answer
`101 Switching Protocols` the real proxy takes over the connection; the model keeps
only its status line, headers and body.  The error value of the first case, which
the ErrorHandler only prints, is given without the protocol name.) -/
def setupProxy (env : Env) (target : String) : HandlerFunc := fun _ c =>
  let url := env.urlParse target
  let outreq := Director url c.Request
  let c := { c with gw := { c.gw with forwarded := c.gw.forwarded ++ [outreq] } }
  if !IsPrint (upgradeType outreq.Header) then
    ErrorHandler c "client tried to switch to invalid protocol"
  else
    let outreq := outboundRequest url c.Request
    let c := { c with gw := { c.gw with sent := c.gw.sent ++ [outreq] } }
    match env.transport outreq with
    | .ok res =>
      { c with
        status := res.StatusCode
        body := .text res.Body
        respHeader := copyHeader c.respHeader (removeHopByHopHeaders (responseHeader res.Header)) }
    | .error err => ErrorHandler c err

/-- The handler chains `Setup` registers for the three proxied routes. -/
def Setup (env : Env) : Route → List HandlerFunc
  | .login =>
    [RequestID env, Logging, CORS, RateLimiterManual env .login,
      setupProxy env env.cfg.UsersServiceURL]
  | .admin =>
    [JWTAuth env, RequestID env, Logging, CORS, RateLimiterManual env .admin,
      setupProxy env env.cfg.UsersServiceURL]
  | .orders =>
    [JWTAuth env, RequestID env, Logging, CORS, RateLimiterManual env .orders,
      setupProxy env env.cfg.OrdersServiceURL]

/-- The gateway serves one request matched to a route. -/
def ServeHTTP (env : Env) (route : Route) (gw : Gateway) (req : Request) : Context :=
  runChain (Setup env route) (newContext gw req)

/-- The gateway serves requests one after the other, each in its own environment. -/
def serveAll : Gateway → List (Env × Route × Request) → List Context
  | _, [] => []
  | gw, (env, route, req) :: rest =>
    let c := ServeHTTP env route gw req
    c :: serveAll c.gw rest

/-- The correlation identifier `RequestID` assigns to a request: the client's
`X-Request-ID` when it is not empty, otherwise `req-` and the time of arrival in the
layout `20060102150405`. -/
def requestIDFor (env : Env) (req : Request) : String :=
  let reqID := req.Header.Get "X-Request-ID"
  if reqID = "" then "req-" ++ env.timeFormat (env.now / 1000000000) else reqID

/-! ## The route table of `Setup` -/

/-- The middleware and handlers `Setup` names, as data. -/
inductive Stage where
  | JWTAuth
  | RequestID
  | Logging
  | CORS
  | RateLimiterManual (inst : Route)
  | proxy (target : String)
deriving DecidableEq, Repr

/-- The handler a stage stands for. -/
def Stage.handler (env : Env) : Stage → HandlerFunc
  | .JWTAuth => ApiGateway.JWTAuth env
  | .RequestID => ApiGateway.RequestID env
  | .Logging => ApiGateway.Logging
  | .CORS => ApiGateway.CORS
  | .RateLimiterManual inst => ApiGateway.RateLimiterManual env inst
  | .proxy target => setupProxy env target

/-- The argument lists of the three proxied registrations of `Setup` (lines 17 to 22),
with `usersProxy := setupProxy(cfg.UsersServiceURL)` and
`ordersProxy := setupProxy(cfg.OrdersServiceURL)`. -/
def stagesOf (cfg : Config) : Route → List Stage
  | .login =>
    [.RequestID, .Logging, .CORS, .RateLimiterManual .login, .proxy cfg.UsersServiceURL]
  | .admin =>
    [.JWTAuth, .RequestID, .Logging, .CORS, .RateLimiterManual .admin,
      .proxy cfg.UsersServiceURL]
  | .orders =>
    [.JWTAuth, .RequestID, .Logging, .CORS, .RateLimiterManual .orders,
      .proxy cfg.OrdersServiceURL]

/-- A gin route pattern: a static path, or a prefix ending in `/` followed by a
catch-all parameter (`/api/v1/admin/*path` is `catchAll "/api/v1/admin/"`). -/
inductive Pattern where
  | static (path : String)
  | catchAll (pre : String)
deriving DecidableEq, Repr

/-- What a registration of `Setup` leads to: one of the three proxied chains, the
health handler, the merged swagger document, or the swagger UI. -/
inductive Endpoint where
  | pipeline (route : Route)
  | health
  | swaggerDoc
  | swaggerUI
deriving DecidableEq, Repr

/-- The methods `r.Any` of gin registers. -/
def anyMethods : List String :=
  ["GET", "POST", "PUT", "PATCH", "HEAD", "OPTIONS", "DELETE", "CONNECT", "TRACE"]

/-- The registrations of `Setup`, in order: methods, pattern, endpoint. -/
def routeTable : List (List String × Pattern × Endpoint) :=
  [ (["POST"], .static "/api/v1/auth/login", .pipeline .login),
    (anyMethods, .catchAll "/api/v1/admin/", .pipeline .admin),
    (anyMethods, .catchAll "/api/v1/orders/", .pipeline .orders),
    (["GET"], .static "/health", .health),
    (["GET"], .static "/swagger-docs/doc.json", .swaggerDoc),
    (["GET"], .catchAll "/swagger/", .swaggerUI) ]

/-- A path matches a static pattern when it is equal to it and a catch-all pattern
when it starts with its prefix. -/
def Pattern.matches : Pattern → String → Bool
  | .static p, path => path = p
  | .catchAll pre, path => HasPrefix path pre

/-- The first registration, if any, that a method and a path match (the patterns of
`Setup` do not overlap, so this is the one gin's tree finds). -/
def findRoute (method path : String) :
    List (List String × Pattern × Endpoint) → Option Endpoint
  | [] => none
  | (methods, pattern, endpoint) :: rest =>
    if method ∈ methods ∧ pattern.matches path = true then some endpoint
    else findRoute method path rest

/-- The endpoint of a request in the route table of `Setup`. -/
def routeOf (method path : String) : Option Endpoint :=
  findRoute method path routeTable

/-! ## swagger.go -/

/-- Go `strings.Contains(s, sub)` on the characters: `sub` starts at some position. -/
def containsChars (sub : List Char) : List Char → Bool
  | [] => sub.isPrefixOf []
  | c :: cs => sub.isPrefixOf (c :: cs) || containsChars sub cs

/-- Go `strings.Contains`. -/
def Contains (s sub : String) : Bool := containsChars sub.data s.data

/-- The scan of `strings.Replace(s, old, new, -1)` for a non-empty `old`: from the
left, each occurrence of `old` that does not overlap the one before is replaced by
`new`; `skip` counts the characters of an occurrence still to pass over. -/
def replaceChars (old new : List Char) : Nat → List Char → List Char
  | _, [] => []
  | skip + 1, _ :: cs => replaceChars old new skip cs
  | 0, c :: cs =>
    if old.isPrefixOf (c :: cs) then new ++ replaceChars old new (old.length - 1) cs
    else c :: replaceChars old new 0 cs

/-- Go `strings.Replace(s, old, new, -1)`, for a non-empty `old`. -/
def Replace (s old new : String) : String := ⟨replaceChars old.data new.data 0 s.data⟩

/-- A Go `map[string]interface{}`. -/
abbrev GoMap := List (String × GoVal)

/-- The statement `v[key] = strings.Replace(str, ...)` of `updateRefs`, which runs when
the value of the key `$ref` is a string. -/
def rewriteRef (val : GoVal) : GoVal :=
  match val with
  | .str str => .str (Replace str "#/definitions/" "#/components/schemas/")
  | v => v

mutual
/-- The function `updateRefs`, returning the tree it leaves: the entries of a map and
the items of a slice are visited in place, every other value is left alone. -/
def updateRefs : GoVal → GoVal
  | .obj v => .obj (updateRefsEntries v)
  | .arr v => .arr (updateRefsItems v)
  | v => v
/-- The loop of `updateRefs` over the entries of a map. -/
def updateRefsEntries : List (String × GoVal) → List (String × GoVal)
  | [] => []
  | (key, val) :: rest =>
    (key, if key = "$ref" then rewriteRef val else updateRefs val) ::
      updateRefsEntries rest
/-- The loop of `updateRefs` over the items of a slice. -/
def updateRefsItems : List GoVal → List GoVal
  | [] => []
  | item :: rest => updateRefs item :: updateRefsItems rest
end

/-- The loops `for k, v := range m { merged[k] = v }` of `mergePaths` and
`mergeSchemas`. -/
def putAll (merged : GoMap) (m : GoMap) : GoMap :=
  m.foldl (fun merged kv => mapPut kv.1 kv.2 merged) merged

/-- The function `mergePaths`. -/
def mergePaths (a b : GoVal) : GoMap :=
  let merged : GoMap := []
  let merged := match a with
    | .obj am => putAll merged am
    | _ => merged
  let merged := match b with
    | .obj bm => putAll merged bm
    | _ => merged
  merged

/-- The function `mergeSchemas`. -/
def mergeSchemas (a b : GoVal) : GoMap :=
  let merged : GoMap := []
  let merged := match a with
    | .obj am => putAll merged am
    | _ => merged
  let merged := match b with
    | .obj bm => putAll merged bm
    | _ => merged
  merged

/-- Go `delete(m, key)`. -/
def mapDelete (key : String) (m : GoMap) : GoMap := m.filter fun kv => kv.1 ≠ key

/-- The body of the inner loop of `removeLocalSecurity`: an operation that is a map
loses its `security` key. -/
def stripDetails (details : GoVal) : GoVal :=
  match details with
  | .obj d => .obj (mapDelete "security" d)
  | v => v

/-- The body of the outer loop of `removeLocalSecurity`: the operations of a path
item that is a map are stripped in place. -/
def stripOps (ops : GoVal) : GoVal :=
  match ops with
  | .obj methods => .obj (methods.map fun md => (md.1, stripDetails md.2))
  | v => v

/-- The function `removeLocalSecurity`, returning the map it leaves; the nil map it
returns for an argument that is not a map is the empty map. -/
def removeLocalSecurity (paths : GoVal) : GoMap :=
  match paths with
  | .obj pm => pm.map fun po => (po.1, stripOps po.2)
  | _ => []

/-- The string a value is, if it is one. -/
def stringOf (val : GoVal) : List String :=
  match val with
  | .str s => [s]
  | _ => []

mutual
/-- Every string stored under a key `$ref`, at any depth of a tree, in the order of
the entries. -/
def refStrings : GoVal → List String
  | .obj v => refStringsEntries v
  | .arr v => refStringsItems v
  | _ => []
/-- The strings under `$ref` keys in and below the entries of a map. -/
def refStringsEntries : List (String × GoVal) → List String
  | [] => []
  | (key, val) :: rest =>
    (if key = "$ref" then stringOf val else []) ++ refStrings val ++ refStringsEntries rest
/-- The strings under `$ref` keys in and below the items of a slice. -/
def refStringsItems : List GoVal → List String
  | [] => []
  | item :: rest => refStrings item ++ refStringsItems rest
end

mutual
/-- Every string stored under a key `$ref` that does not lie inside the value of
another `$ref` key. -/
def outerRefStrings : GoVal → List String
  | .obj v => outerRefStringsEntries v
  | .arr v => outerRefStringsItems v
  | _ => []
/-- The outer reference strings of the entries of a map. -/
def outerRefStringsEntries : List (String × GoVal) → List String
  | [] => []
  | (key, val) :: rest =>
    (if key = "$ref" then stringOf val else outerRefStrings val) ++
      outerRefStringsEntries rest
/-- The outer reference strings of the items of a slice. -/
def outerRefStringsItems : List GoVal → List String
  | [] => []
  | item :: rest => outerRefStrings item ++ outerRefStringsItems rest
end

/-- A value stored under a `$ref` key, without the contents of a string. -/
def blankRef (val : GoVal) : GoVal :=
  match val with
  | .str _ => .str ""
  | v => v

mutual
/-- The tree without the contents of its reference fields: every string stored under
a key `$ref`, at any depth, is replaced by the empty string, everything else is
kept. -/
def blankRefs : GoVal → GoVal
  | .obj v => .obj (blankRefsEntries v)
  | .arr v => .arr (blankRefsItems v)
  | v => v
/-- The entries of a map without the contents of their reference fields. -/
def blankRefsEntries : List (String × GoVal) → List (String × GoVal)
  | [] => []
  | (key, val) :: rest =>
    (key, if key = "$ref" then blankRef (blankRefs val) else blankRefs val) ::
      blankRefsEntries rest
/-- The items of a slice without the contents of their reference fields. -/
def blankRefsItems : List GoVal → List GoVal
  | [] => []
  | item :: rest => blankRefs item :: blankRefsItems rest
end

/-- The entries of a value read as a map: those of a `map[string]interface{}`, none
for any other value. -/
def entriesOf : GoVal → GoMap
  | .obj m => m
  | _ => []

/-- The keys of a map, in the order of its entries. -/
def keysOf (m : GoMap) : List String := m.map Prod.fst

/-- A Go map holds each key once. -/
def IsMap (m : GoMap) : Prop := (keysOf m).Nodup

instance (m : GoMap) : Decidable (IsMap m) := by
  unfold IsMap
  infer_instance

/-! ## swagger.go: the handler -/

/-- The answer of `http.Get` that `fetchSwagger` reads. -/
structure HttpResponse where
  StatusCode : Nat
  Body : String

/-- The network as `fetchSwagger` sees it: `http.Get`, which fails with the text of
its error, and the JSON decoder on a response body into a `map[string]interface{}`. -/
structure HttpClient where
  Get : String → Except String HttpResponse
  Decode : String → Except String GoMap

/-- The function `fetchSwagger`; an error is the text of `err.Error()`. -/
def fetchSwagger (net : HttpClient) (url : String) : Except String GoMap :=
  match net.Get url with
  | .error err => .error err
  | .ok resp =>
    if resp.StatusCode ≠ 200 then
      .error ("status: " ++ String.mk (Nat.toDigits 10 resp.StatusCode))
    else
      match net.Decode resp.Body with
      | .error err => .error err
      | .ok swagger => .ok swagger

/-- The function `safeGetSchemas`; a missing result is Go `nil`. -/
def safeGetSchemas (swagger : GoMap) : GoVal :=
  let fromDefinitions : GoVal :=
    match mapGet "definitions" swagger with
    | some definitions => definitions
    | none => .null
  match mapGet "components" swagger with
  | some (.obj comp) =>
    (match mapGet "schemas" comp with
      | some schemas => schemas
      | none => fromDefinitions)
  | _ => fromDefinitions

/-- The map index `swagger["paths"]`: Go `nil` for a missing key. -/
def pathsOf (swagger : GoMap) : GoVal := (mapGet "paths" swagger).getD .null

/-- The value `mergedPaths` of `SwaggerHandler` after `updateRefs(mergedPaths)`. -/
def mergedPathsOf (usersSwagger ordersSwagger : GoMap) : GoVal :=
  updateRefs (.obj (mergePaths (.obj (removeLocalSecurity (pathsOf usersSwagger)))
    (.obj (removeLocalSecurity (pathsOf ordersSwagger)))))

/-- The value `mergedSchemas` of `SwaggerHandler` after `updateRefs(mergedSchemas)`. -/
def mergedSchemasOf (usersSwagger ordersSwagger : GoMap) : GoVal :=
  updateRefs (.obj (mergeSchemas (safeGetSchemas usersSwagger) (safeGetSchemas ordersSwagger)))

/-- The document `mergedSwagger` that `SwaggerHandler` builds from the two fetched
documents (lines 27 to 63). -/
def mergedSwagger (usersSwagger ordersSwagger : GoMap) : GoMap :=
  [("openapi", .str "3.0.0"),
   ("info", .obj [("title", .str "Control System API"), ("version", .str "1.0")]),
   ("servers", .arr [.obj [("url", .str "/api/v1"), ("description", .str "API Gateway")]]),
   ("paths", mergedPathsOf usersSwagger ordersSwagger),
   ("components", .obj [
     ("schemas", mergedSchemasOf usersSwagger ordersSwagger),
     ("securitySchemes", .obj [("BearerAuth", .obj [("type", .str "http"),
       ("scheme", .str "bearer"), ("bearerFormat", .str "JWT")])])]),
   ("security", .arr [.obj [("BearerAuth", .strs [])]])]

/-- The handler `SwaggerHandler`; it is the last of its chain and never calls
`c.Next()`. -/
def SwaggerHandler (cfg : Config) (net : HttpClient) : HandlerFunc := fun _ c =>
  match fetchSwagger net (cfg.UsersServiceURL ++ "/swagger/doc.json") with
  | .error err =>
    c.JSON 500 (.obj [("error", .str ("Failed to fetch users swagger: " ++ err))])
  | .ok usersSwagger =>
    match fetchSwagger net (cfg.OrdersServiceURL ++ "/swagger/doc.json") with
    | .error err =>
      c.JSON 500 (.obj [("error", .str ("Failed to fetch orders swagger: " ++ err))])
    | .ok ordersSwagger => c.JSON 200 (.obj (mergedSwagger usersSwagger ordersSwagger))

/-! ## shared: role names and the role middleware of the backends -/

/-- The constants of package `shared/userroles`.  The package is not among the
sources at hand, so the five role names are parameters. -/
structure Userroles where
  RoleEngineer : String
  RoleManager : String
  RoleObserver : String
  RoleAdmin : String
  RoleSuperadmin : String

/-- Go `gin.Context` in a backend service: the request, the keys (which may hold any
value) and the response written so far. -/
structure ServiceContext where
  Request : Request
  Keys : List (String × GoVal)
  status : Nat
  body : Body
  aborted : Bool

/-- A gin handler of a backend, with `c.Next()` as its first argument. -/
abbrev ServiceHandler := (ServiceContext → ServiceContext) → ServiceContext → ServiceContext

/-- Go `c.JSON(code, obj)` in a backend. -/
def ServiceContext.JSON (c : ServiceContext) (code : Nat) (obj : GoVal) : ServiceContext :=
  { c with status := code, body := .json obj }

/-- Go `c.Abort()` in a backend. -/
def ServiceContext.Abort (c : ServiceContext) : ServiceContext := { c with aborted := true }

/-- Lines 15 to 19 of `RoleMiddleware`: the roles kept in the context under the key
`roles`, joined, when they are a non-empty `[]string`; otherwise the empty string. -/
def rolesFromKeys (c : ServiceContext) : String :=
  match mapGet "roles" c.Keys with
  | some (.strs rs) => if rs.length > 0 then Join rs "," else ""
  | _ => ""

/-- Lines 31 to 37 of `RoleMiddleware`: the header split on commas, each item
trimmed, the empty ones dropped. -/
def headerRoles (rolesHeader : String) : List String :=
  (SplitComma rolesHeader).foldl appendTrimmed []

/-- The middleware `RoleMiddleware(allowedRoles...)`. -/
def RoleMiddleware (ur : Userroles) (allowedRoles : List String) : ServiceHandler :=
  fun next c =>
    let rolesHeader := c.Request.Header.Get "X-User-Roles"
    let rolesHeader := if rolesHeader = "" then rolesFromKeys c else rolesHeader
    if rolesHeader = "" then
      (c.JSON 401 (errorEnvelope "unauthorized" "Missing roles header")).Abort
    else
      let roles := headerRoles rolesHeader
      if roles.any (fun r => r = ur.RoleAdmin ∨ r = ur.RoleSuperadmin) then next c
      else if roles.any (fun userRole => allowedRoles.any (fun allowed => userRole = allowed))
      then next c
      else (c.JSON 403 (errorEnvelope "forbidden" "forbidden")).Abort

/-! ## service-orders: models and the order service -/

/-- The fields of `models.OrderItem` the service reads. -/
structure OrderItem where
  ID : Nat
  Name : String
  Quantity : Int
deriving DecidableEq, Repr

/-- The fields of `models.Order` the service reads; `Status` is an `OrderStatus`, an
`int`. -/
structure Order where
  ID : Nat
  UserId : Nat
  Status : Int
  Cost : Int
  Items : List OrderItem
deriving DecidableEq, Repr

/-- The status `StatusCreated`. -/
def StatusCreated : Int := 0
/-- The status `StatusAccepted`. -/
def StatusAccepted : Int := 1
/-- The status `StatusProcessed`. -/
def StatusProcessed : Int := 2
/-- The status `StatusClosed`. -/
def StatusClosed : Int := 3
/-- The status `StatusCanceled`. -/
def StatusCanceled : Int := 4

/-- The method `Order.NextStatus`: the order it leaves, or its error. -/
def Order.NextStatus (o : Order) : Except String Order :=
  if o.Status ≥ StatusClosed then .error "Order is already closed"
  else .ok { o with Status := o.Status + 1 }

/-- The method `Order.Cancel`: the order it leaves, or its error. -/
def Order.Cancel (o : Order) : Except String Order :=
  if o.Status = StatusClosed ∨ o.Status = StatusCanceled then
    .error "order cannot be canceled"
  else .ok { o with Status := StatusCanceled }

/-- Go `OrderItemResponse`. -/
structure OrderItemResponse where
  ID : Nat
  Name : String
  Quantity : Int
deriving DecidableEq, Repr

/-- Go `OrderResponse`. -/
structure OrderResponse where
  ID : Nat
  UserID : Nat
  Status : Int
  Cost : Int
  OrderItems : List OrderItemResponse
deriving DecidableEq, Repr

/-- The function `toOrderResponse`. -/
def toOrderResponse (order : Order) : OrderResponse :=
  { ID := order.ID, UserID := order.UserId, Status := order.Status, Cost := order.Cost,
    OrderItems := order.Items.map fun item => ⟨item.ID, item.Name, item.Quantity⟩ }

/-- The methods of `OrderRepositoryInterface` the services below call, over a state
`σ` of the repository: each call answers with an error text or a value, and leaves a
state.  An order is handed over by value: `UpdateOrder` does not change the fields
the service reads afterwards. -/
structure OrderRepositoryInterface (σ : Type) where
  GetOrderByID : σ → Nat → Except String Order × σ
  UpdateOrder : σ → Order → Except String Unit × σ
  GetOrders : σ → Int → Int → Nat → String → Except String (List Order × Int) × σ

/-- The method `OrderService.UpdateOrder`. -/
def OrderService.UpdateOrder {σ : Type} (repo : OrderRepositoryInterface σ) (s : σ)
    (id : Nat) : Except String OrderResponse × σ :=
  match repo.GetOrderByID s id with
  | (.error err, s1) => (.error err, s1)
  | (.ok order, s1) =>
    if order.Status = StatusClosed ∨ order.Status = StatusCanceled then
      (.error "order is already closed", s1)
    else
      match order.NextStatus with
      | .error err => (.error err, s1)
      | .ok order =>
        match repo.UpdateOrder s1 order with
        | (.error err, s2) => (.error err, s2)
        | (.ok _, s2) =>
          match repo.GetOrderByID s2 id with
          | (.error err, s3) => (.error err, s3)
          | (.ok updated, s3) => (.ok (toOrderResponse updated), s3)

/-- Lines 168 to 171 of `CancelOrder`: the items of the roles string, trimmed. -/
def cancelRoles (rolesStr : String) : List String := (SplitComma rolesStr).map TrimSpace

/-- The method `OrderService.CancelOrder`. -/
def OrderService.CancelOrder {σ : Type} (ur : Userroles) (repo : OrderRepositoryInterface σ)
    (s : σ) (id userID : Nat) (rolesStr : String) : Except String OrderResponse × σ :=
  match repo.GetOrderByID s id with
  | (.error err, s1) => (.error err, s1)
  | (.ok order, s1) =>
    let roles := cancelRoles rolesStr
    let isEngineer : Bool := roles.any fun role => role = ur.RoleEngineer
    if isEngineer = true ∧ order.UserId ≠ userID then (.error "access forbidden", s1)
    else
      match order.Cancel with
      | .error err => (.error err, s1)
      | .ok order =>
        match repo.UpdateOrder s1 order with
        | (.error err, s2) => (.error err, s2)
        | (.ok _, s2) => (.ok (toOrderResponse order), s2)

/-- Go `int64` arithmetic: a result outside the range wraps around. -/
def wrapInt64 (x : Int) : Int := (x + 2 ^ 63) % 2 ^ 64 - 2 ^ 63

/-- The expression `int((total + int64(limit) - 1) / int64(limit))` of `GetOrders` and
`GetUsers`, for a non-zero limit, with `int` of 64 bits: the sums wrap around and the
division truncates toward zero. -/
def totalPagesOf (total limit : Int) : Int :=
  Int.tdiv (wrapInt64 (wrapInt64 (total + limit) - 1)) limit

/-- Go `OrderListInput`. -/
structure OrderListInput where
  Page : Int
  Limit : Int
  UserID : Nat
  Status : String
deriving DecidableEq, Repr

/-- Go `OrderListResponse`. -/
structure OrderListResponse where
  Orders : List OrderResponse
  Total : Int
  Page : Int
  Limit : Int
  TotalPages : Int
deriving DecidableEq, Repr

/-- The method `OrderService.GetOrders`. -/
def OrderService.GetOrders {σ : Type} (repo : OrderRepositoryInterface σ) (s : σ)
    (input : OrderListInput) : Except String OrderListResponse × σ :=
  if input.Page < 1 then (.error "invalid page number", s)
  else if input.Limit < 1 then (.error "invalid limit value", s)
  else
    match repo.GetOrders s input.Page input.Limit input.UserID input.Status with
    | (.error err, s1) => (.error err, s1)
    | (.ok (orders, total), s1) =>
      let response : List OrderResponse := orders.map fun order =>
        { ID := order.ID, UserID := order.UserId, Status := order.Status, Cost := order.Cost,
          OrderItems := order.Items.map fun item => ⟨item.ID, item.Name, item.Quantity⟩ }
      (.ok { Orders := response, Total := total, Page := input.Page, Limit := input.Limit,
             TotalPages := totalPagesOf total input.Limit }, s1)

/-! ## service-users: the user service and its handlers -/

/-- The bytes of a character in UTF-8. -/
def utf8Bytes (c : Char) : List Nat :=
  let v := c.toNat
  if v < 0x80 then [v]
  else if v < 0x800 then [0xC0 + v / 64, 0x80 + v % 64]
  else if v < 0x10000 then [0xE0 + v / 4096, 0x80 + v / 64 % 64, 0x80 + v % 64]
  else [0xF0 + v / 262144, 0x80 + v / 4096 % 64, 0x80 + v / 64 % 64, 0x80 + v % 64]

/-- The bytes of a Go string. -/
def bytesOf (s : String) : List Nat := (s.data.map utf8Bytes).flatten

/-- Go `len(s)` of a string: its number of bytes. -/
def len (s : String) : Nat := (bytesOf s).length

/-- The slice expression `s[:n]` of a Go string: its first `n` bytes, and a run-time
panic (no value) when `n` exceeds `len(s)`. -/
def sliceTo (s : String) (n : Nat) : Option (List Nat) :=
  if n ≤ len s then some ((bytesOf s).take n) else none

/-- Go `strings.ToLower` on ASCII text: the letters `A` to `Z` are lowered.  (Bytes
outside ASCII are left as they are here; no email accepted by `isValidEmail` has
any.) -/
def ToLower (s : String) : String := ⟨s.data.map Char.toLower⟩

/-- The class `[a-zA-Z]`. -/
def isLetter (c : Char) : Bool :=
  ('a'.toNat ≤ c.toNat && c.toNat ≤ 'z'.toNat) || ('A'.toNat ≤ c.toNat && c.toNat ≤ 'Z'.toNat)

/-- The class `[a-zA-Z0-9.-]`. -/
def isDomainChar (c : Char) : Bool :=
  isLetter c || ('0'.toNat ≤ c.toNat && c.toNat ≤ '9'.toNat) || c = '.' || c = '-'

/-- The class `[a-zA-Z0-9._%+-]`. -/
def isLocalChar (c : Char) : Bool :=
  isDomainChar c || c = '_' || c = '%' || c = '+'

/-- The function `isValidEmail`: whether the whole text matches
`^[a-zA-Z0-9._%+-]+@[a-zA-Z0-9.-]+\.[a-zA-Z]{2,}$`.  The local part is the run of
local characters up to the `@`; the top-level part is the run of letters at the end,
which the last dot precedes; the domain in between is not empty. -/
def isValidEmail (email : String) : Bool :=
  let loc := email.data.takeWhile isLocalChar
  match email.data.dropWhile isLocalChar with
  | '@' :: rest =>
    let tld := rest.reverse.takeWhile isLetter
    (match rest.reverse.dropWhile isLetter with
      | '.' :: dom =>
        !loc.isEmpty && !dom.isEmpty && dom.all isDomainChar && decide (2 ≤ tld.length)
      | _ => false)
  | _ => false

/-- The function `isValidRole`. -/
def isValidRole (ur : Userroles) (role : String) : Bool :=
  [ur.RoleEngineer, ur.RoleManager, ur.RoleObserver, ur.RoleAdmin, ur.RoleSuperadmin].any
    fun validRole => role = validRole

/-- The fields of `models.User` the service reads. -/
structure User where
  ID : Nat
  Email : String
  Password : String
  Name : String
  Roles : List String
deriving DecidableEq, Repr

/-- The method `User.HashPassword`, over bcrypt's `GenerateFromPassword`. -/
def User.HashPassword (bcrypt : String → Except String String) (user : User) :
    Except String User :=
  let user := { user with Password := TrimSpace user.Password }
  match bcrypt user.Password with
  | .error err => .error ("failed to hash password: " ++ err)
  | .ok hashedPassword => .ok { user with Password := hashedPassword }

/-- Go `RegisterUserInput`. -/
structure RegisterUserInput where
  Email : String
  Password : String
  Name : String
  Roles : List String
deriving DecidableEq, Repr

/-- Go `EditUserInput`: a nil pointer is `none`. -/
structure EditUserInput where
  Name : Option String
  Roles : Option (List String)
deriving DecidableEq, Repr

/-- Go `UserListInput`. -/
structure UserListInput where
  Page : Int
  Limit : Int
  EmailFilter : String
  RoleFilter : String
deriving DecidableEq, Repr

/-- Go `UserResponse`. -/
structure UserResponse where
  ID : Nat
  Email : String
  Name : String
  Roles : List String
deriving DecidableEq, Repr

/-- Go `UserListResult`. -/
structure UserListResult where
  Users : List UserResponse
  Total : Int
  Page : Int
  Limit : Int
  TotalPages : Int
deriving DecidableEq, Repr

/-- The methods of `UserRepositoryInterface`, over a state `σ` of the repository.
`CreateUser` and `UpdateUser` take a pointer: on success they answer with the user as
they leave it (gorm fills in the identifier and the updated fields). -/
structure UserRepositoryInterface (σ : Type) where
  GetUserByEmail : σ → String → Except String User × σ
  GetUserByID : σ → Nat → Except String User × σ
  CreateUser : σ → User → Except String User × σ
  UpdateUser : σ → User → GoMap → Except String User × σ
  GetUsers : σ → Int → Int → String → String → Except String (List User × Int) × σ

/-- The response built from a user. -/
def userResponse (user : User) : UserResponse :=
  { ID := user.ID, Email := user.Email, Name := user.Name, Roles := user.Roles }

/-- The method `UserService.RegisterUser`. -/
def UserService.RegisterUser {σ : Type} (ur : Userroles)
    (bcrypt : String → Except String String) (repo : UserRepositoryInterface σ) (s : σ)
    (input : RegisterUserInput) : Except String UserResponse × σ :=
  if input.Email = "" ∨ input.Password = "" ∨ input.Name = "" then
    (.error "email, password, and name are required", s)
  else if !isValidEmail input.Email then (.error "invalid email format", s)
  else if len input.Password < 8 then (.error "password must be at least 8 characters", s)
  else
    let roles := if input.Roles.length = 0 then [ur.RoleEngineer] else input.Roles
    match roles.find? (fun role => !isValidRole ur role) with
    | some role => (.error ("invalid role: " ++ role), s)
    | none =>
      match repo.GetUserByEmail s input.Email with
      | (.ok _, s1) => (.error "email already exists", s1)
      | (.error _, s1) =>
        let user : User :=
          { ID := 0, Email := ToLower input.Email, Password := input.Password,
            Name := input.Name, Roles := roles }
        match user.HashPassword bcrypt with
        | .error err => (.error ("failed to hash password: " ++ err), s1)
        | .ok user =>
          match repo.CreateUser s1 user with
          | (.error err, s2) => (.error ("failed to create user: " ++ err), s2)
          | (.ok user, s2) => (.ok (userResponse user), s2)

/-- The map `updates` of `UpdateUser`. -/
def updatesOf (input : EditUserInput) : GoMap :=
  let updates : GoMap := []
  let updates := match input.Name with
    | some name => if name ≠ "" then mapPut "name" (.str name) updates else updates
    | none => updates
  match input.Roles with
  | some roles => mapPut "roles" (.strs roles) updates
  | none => updates

/-- The method `UserService.UpdateUser`. -/
def UserService.UpdateUser {σ : Type} (ur : Userroles) (repo : UserRepositoryInterface σ)
    (s : σ) (id : Nat) (input : EditUserInput) : Except String UserResponse × σ :=
  match repo.GetUserByID s id with
  | (.error _, s1) => (.error "user not found", s1)
  | (.ok user, s1) =>
    match (input.Roles.getD []).find? (fun role => !isValidRole ur role) with
    | some role => (.error ("invalid role: " ++ role), s1)
    | none =>
      if (updatesOf input).length = 0 then (.ok (userResponse user), s1)
      else
        match repo.UpdateUser s1 user (updatesOf input) with
        | (.error err, s2) => (.error ("failed to update user: " ++ err), s2)
        | (.ok user, s2) => (.ok (userResponse user), s2)

/-- The method `UserService.GetUsers`. -/
def UserService.GetUsers {σ : Type} (repo : UserRepositoryInterface σ) (s : σ)
    (input : UserListInput) : Except String UserListResult × σ :=
  if input.Page < 1 then (.error "invalid page number", s)
  else if input.Limit < 1 then (.error "invalid limit value", s)
  else
    match repo.GetUsers s input.Page input.Limit input.EmailFilter input.RoleFilter with
    | (.error err, s1) => (.error err, s1)
    | (.ok (users, total), s1) =>
      (.ok { Users := users.map userResponse, Total := total, Page := input.Page,
             Limit := input.Limit, TotalPages := totalPagesOf total input.Limit }, s1)

/-- The status the handler `UserHandler.RegisterUser` chooses for an error of the
service (lines 57 to 63); no value when the slice expression `err.Error()[:12]`
panics. -/
def registerErrorStatus (msg : String) : Option Nat :=
  if msg = "email already exists" ∨ msg = "invalid email format" ∨
      msg = "password must be at least 8 characters" ∨
      msg = "email, password, and name are required" then some 400
  else
    match sliceTo msg 12 with
    | none => none
    | some head => if head = bytesOf "invalid role" then some 400 else some 500

/-- The status the handler `UserHandler.UpdateUser` chooses for an error of the
service (lines 153 to 158); no value when the slice expression panics. -/
def updateErrorStatus (msg : String) : Option Nat :=
  if msg = "user not found" then some 404
  else
    match sliceTo msg 12 with
    | none => none
    | some head => if head = bytesOf "invalid role" then some 400 else some 500

/-! ## Vocabulary of the specification -/

/-- The uniform envelope of the specification: a JSON object with `success` false and
an `error` object holding a string `code` and a string `message`. -/
def isErrorEnvelope : Body → Bool
  | .json (.obj kvs) =>
    (match mapGet "success" kvs with
      | some (.bool false) => true
      | _ => false) &&
    (match mapGet "error" kvs with
      | some (.obj e) =>
        (match mapGet "code" e with
          | some (.str _) => true
          | _ => false) &&
        (match mapGet "message" e with
          | some (.str _) => true
          | _ => false)
      | _ => false)
  | _ => false

/-- The proxy target `Setup` gives each route. -/
def targetOf (cfg : Config) : Route → String
  | .login => cfg.UsersServiceURL
  | .admin => cfg.UsersServiceURL
  | .orders => cfg.OrdersServiceURL

/-- The state of the gateway after it has served the requests of a list in order. -/
def gatewayAfter (gw : Gateway) (xs : List (Env × Route × Request)) : Gateway :=
  xs.foldl (fun g x => (ServeHTTP x.1 x.2.1 g x.2.2).gw) gw

/-- The request gets as far as the rate limiter of its route: it is not a preflight,
and on the admin and orders routes its bearer token parses. -/
def Admitted (env : Env) (route : Route) (req : Request) : Prop :=
  req.Method ≠ "OPTIONS" ∧
  (route = .login ∨
    ∃ token, req.Header.Get "Authorization" ≠ "" ∧
      HasPrefix (req.Header.Get "Authorization") "Bearer " = true ∧
      jwtParse env.jwt env.now (TrimPrefix (req.Header.Get "Authorization") "Bearer ")
        (keyFunc env.cfg) = .ok token)

/-- The counter of a client key in the store of a route. -/
def bucket (gw : Gateway) (route : Route) (key : String) : Option Counter :=
  mapGet ("limiter" ++ ":" ++ key) (gw.stores route)

/-- In the window that starts at `t0`, the client has been counted `n` times on the
route: before the first time its bucket is missing or expired by `t0`; afterwards the
bucket holds `n` and does not expire inside the window. -/
def BucketCount (gw : Gateway) (route : Route) (key : String) (t0 : Int) (n : Nat) : Prop :=
  (n = 0 ∧ (bucket gw route key = none ∨
    ∃ c, bucket gw route key = some c ∧ (c.expiration = 0 ∨ c.expiration ≤ t0))) ∨
  (0 < n ∧ ∃ e, bucket gw route key = some ⟨(n : Int), e⟩ ∧ t0 + Minute ≤ e)

/-- A reference names a schema of a schema map: it is `pre` followed by one of the
keys of the map. -/
def refNames (pre : String) (schemas : GoVal) (ref : String) : Bool :=
  HasPrefix ref pre && decide (TrimPrefix ref pre ∈ keysOf (entriesOf schemas))

/-- The map `components.schemas` of a document, Go `nil` when there is none. -/
def componentsSchemas (doc : GoMap) : GoVal :=
  match mapGet "components" doc with
  | some (.obj comp) => (mapGet "schemas" comp).getD .null
  | _ => .null

/-- A reference names a schema defined in the document: `#/definitions/K` with `K` a
key of its `definitions`, or `#/components/schemas/K` with `K` a key of its
`components.schemas`. -/
def definedIn (doc : GoMap) (ref : String) : Bool :=
  refNames "#/definitions/" ((mapGet "definitions" doc).getD .null) ref ||
    refNames "#/components/schemas/" (componentsSchemas doc) ref

/-- A reference of either style names a schema of the schema map, by a name that
does not itself contain `#/definitions/`. -/
def namesCleanSchema (schemas : GoVal) (ref : String) : Bool :=
  (refNames "#/definitions/" schemas ref &&
      !Contains (TrimPrefix ref "#/definitions/") "#/definitions/") ||
    (refNames "#/components/schemas/" schemas ref &&
      !Contains (TrimPrefix ref "#/components/schemas/") "#/definitions/")

/-- The references the aggregation reaches in a document: the reference strings of
its paths and of the schema map `safeGetSchemas` reads, outside the value of another
`$ref` key. -/
def reachedRefs (doc : GoMap) : List String :=
  outerRefStrings (pathsOf doc) ++ outerRefStrings (safeGetSchemas doc)

/-- Every reference the aggregation reaches in the document names, in either style,
a schema of the schema map `safeGetSchemas` reads, by a name free of the legacy
prefix. -/
def wellReferenced (doc : GoMap) : Bool :=
  (reachedRefs doc).all (namesCleanSchema (safeGetSchemas doc))

/-- The ceiling of `total / limit`, for a positive `limit`. -/
def ceilDiv (total limit : Int) : Int := -((-total) / limit)

/-- The form `local@domain.tld`: a non-empty local part of letters, digits and the
characters `._%+-`, an `@`, a non-empty domain of letters, digits, dots and hyphens,
a dot, and a top-level part of at least two letters. -/
def EmailForm (email : String) : Prop :=
  ∃ loc dom tld : List Char, email.data = loc ++ '@' :: (dom ++ '.' :: tld) ∧
    loc ≠ [] ∧ (∀ c ∈ loc, isLocalChar c = true) ∧
    dom ≠ [] ∧ (∀ c ∈ dom, isDomainChar c = true) ∧
    2 ≤ tld.length ∧ ∀ c ∈ tld, isLetter c = true

/-- The roles `RegisterUser` stores: the given ones, or the engineer role when none
is given. -/
def rolesOrDefault (ur : Userroles) (roles : List String) : List String :=
  if roles.length = 0 then [ur.RoleEngineer] else roles

/-! ## Sample inputs -/

/-- A gateway configuration (the defaults of `config.Load` with a secret). -/
def demoConfig : Config :=
  ⟨":8080", "http://service-users:8082", "http://service-orders:8081", "secret"⟩

/-- A JWT library for the samples: the token strings it decodes, each signed with
the key `secret`; a token with an `exp` claim is expired from the instant `1000` on. -/
def demoJwt : JwtLib where
  decode s :=
    if s = "t-admin" then
      some ⟨"HS256", true, [("id", .num (float64OfNat 42)), ("roles", .arr [.str "admin"])]⟩
    else if s = "t-million" then
      some ⟨"HS256", true, [("id", .num (float64OfNat 1000000)), ("roles", .arr [.str "engineer"])]⟩
    else if s = "t-blank" then
      some ⟨"HS256", true, [("id", .num (float64OfNat 7)), ("roles", .arr [.str "", .str "admin"])]⟩
    else if s = "t-noroles" then
      some ⟨"HS256", true, [("id", .num (float64OfNat 7)), ("roles", .arr [])]⟩
    else if s = "t-csv" then
      some ⟨"HS256", true, [("id", .str "u7"), ("roles", .str " manager, ,engineer ")]⟩
    else if s = "t-rs256" then
      some ⟨"RS256", false, [("id", .num (float64OfNat 42)), ("roles", .arr [.str "admin"])]⟩
    else if s = "t-old" then
      some ⟨"HS256", true, [("id", .num (float64OfNat 42)), ("exp", .num (float64OfNat 1000))]⟩
    else none
  verify _ key := key = "secret"
  claimsValid claims now := (mapGet "exp" claims).isNone || now < 1000

/-- A sample environment at the instant `now`: the memory limiter, the client key
`10.0.0.1`, every upstream answering 200. -/
def demoEnv (now : Int) : Env where
  cfg := demoConfig
  jwt := demoJwt
  limiterNew := memoryLimiter
  now := now
  timeFormat t := toString t
  ClientIP := "10.0.0.1"
  urlParse s := ⟨"http", TrimPrefix s "http://", "", ""⟩
  transport _ := .ok ⟨200, [], "ok"⟩

/-- The sample environment with the upstreams down. -/
def demoEnvDown (now : Int) : Env :=
  { demoEnv now with transport := fun _ => .error "connection refused" }

/-- The sample environment with a limiter whose store fails. -/
def demoEnvBroken (now : Int) : Env :=
  { demoEnv now with limiterNew := fun _ => ⟨fun _ _ _ => .error "store unavailable"⟩ }

/-- A gateway that has served nothing yet. -/
def demoGateway : Gateway := ⟨fun _ => [], [], [], []⟩

/-- A sample request from the peer `10.0.0.1`. -/
def demoRequest (method path : String) (headers : List (String × List String)) : Request :=
  ⟨method, ⟨"", "", path, ""⟩, "gateway:8080", ⟨headers⟩, "", "10.0.0.1:41000"⟩

/-- A sample request on the orders route with the bearer token `tokenStr` and further
headers. -/
def ordersRequest (tokenStr : String) (headers : List (String × List String)) : Request :=
  demoRequest "GET" "/api/v1/orders/5" (("Authorization", ["Bearer " ++ tokenStr]) :: headers)

/-- A sample login request. -/
def loginRequest : Request := demoRequest "POST" "/api/v1/auth/login" []

/-- The client `10.0.0.1` sends `n` login requests at the instant `0`. -/
def loginBurst (n : Nat) : List (Env × Route × Request) :=
  List.replicate n (demoEnv 0, Route.login, loginRequest)

/-- The users target of the sample configuration, parsed. -/
def demoTarget : URL := ⟨"http", "service-users:8082", "", ""⟩

/-- A request that carries the header `X-Request-ID` twice. -/
def twoRequestIDs : Request :=
  demoRequest "GET" "/api/v1/admin/users"
    [("X-Request-Id", ["a", "b"]), ("User-Agent", ["curl"]), ("Accept", ["*/*", "text/html"])]

/-- A schema map in the legacy style: references under `$ref` keys, in a slice, and
the legacy prefix in a description. -/
def demoSchemas : GoVal :=
  .obj [("Order", .obj [("type", .str "object"),
      ("description", .str "listed under #/definitions/Order"),
      ("properties", .obj [("owner", .obj [("$ref", .str "#/definitions/User")]),
        ("items", .obj [("type", .str "array"),
          ("items", .obj [("$ref", .str "#/definitions/Item")])])]),
      ("allOf", .arr [.obj [("$ref", .str "#/definitions/Base")], .str "#/definitions/"])])]

/-- A schema with a property named `$ref`, whose own schema holds a reference. -/
def nestedRefDoc : GoVal :=
  .obj [("Link", .obj [("type", .str "object"),
      ("properties", .obj [("$ref", .obj [("type", .str "object"),
        ("properties", .obj [("target", .obj [("$ref", .str "#/definitions/Order")])])])])])]

/-- A paths map of the users service: operations with and without a `security`
declaration, and a path item that is not a map. -/
def usersPaths : GoVal :=
  .obj [("/v1/users/me", .obj [
      ("get", .obj [("summary", .str "Profile"),
        ("security", .arr [.obj [("BearerAuth", .arr [])]]),
        ("responses", .obj [("200", .obj [("description", .str "OK")])])]),
      ("put", .obj [("summary", .str "Update profile")]),
      ("parameters", .arr [])]),
    ("/health", .obj [("get", .obj [("summary", .str "Users health")])]),
    ("x-note", .str "users")]

/-- A paths map of the orders service, sharing the key `/health`. -/
def ordersPaths : GoVal :=
  .obj [("/v1/orders", .obj [("post", .obj [("summary", .str "Create order"),
        ("security", .arr [.obj [("BearerAuth", .arr [])]])])]),
    ("/health", .obj [("get", .obj [("summary", .str "Orders health")])])]

/-- A network on which the users service refuses the connection: `http.Get` fails
with the error text of the transport, which holds the address it dialled. -/
def demoNetRefused : HttpClient where
  Get := fun url =>
    .error ("Get \"" ++ url ++ "\": dial tcp 172.18.0.5:8082: connect: connection refused")
  Decode := fun _ => .ok []

/-- A network on which every fetch times out. -/
def demoNetTimeout : HttpClient where
  Get := fun url =>
    .error ("Get \"" ++ url ++ "\": context deadline exceeded")
  Decode := fun _ => .ok []

/-- A network on which every service answers 503. -/
def demoNetUnavailable : HttpClient where
  Get := fun _ => .ok ⟨503, ""⟩
  Decode := fun _ => .ok []

/-- A users document in the legacy style: a path that refers to a definition, and
definitions that refer to each other. -/
def demoUsersDoc : GoMap :=
  [("swagger", .str "2.0"),
   ("paths", .obj [("/v1/users/me", .obj [("get", .obj [
      ("security", .arr [.obj [("BearerAuth", .arr [])]]),
      ("responses", .obj [("200", .obj [
        ("schema", .obj [("$ref", .str "#/definitions/User")])])])])])]),
   ("definitions", .obj [
      ("User", .obj [("type", .str "object"),
        ("properties", .obj [("roles", .obj [("type", .str "array"),
          ("items", .obj [("$ref", .str "#/definitions/Role")])])])]),
      ("Role", .obj [("type", .str "string")])])]

/-- An orders document in the unified style. -/
def demoOrdersDoc : GoMap :=
  [("openapi", .str "3.0.0"),
   ("paths", .obj [("/v1/orders", .obj [("post", .obj [
      ("requestBody", .obj [("$ref", .str "#/components/schemas/Order")])])])]),
   ("components", .obj [("schemas", .obj [
      ("Order", .obj [("type", .str "object")])])])]

/-- A document whose schema `Link` has a property named `$ref`, with a reference in
the schema of that property. -/
def nestedRefSwagger : GoMap :=
  [("paths", .obj []),
   ("definitions", .obj [
      ("Order", .obj [("type", .str "object")]),
      ("Link", .obj [("type", .str "object"),
        ("properties", .obj [("$ref", .obj [("type", .str "object"),
          ("properties", .obj [("target", .obj [("$ref", .str "#/definitions/Order")])])])])])])]

/-- A document with both `components.schemas` and `definitions`, and a path that
refers to a definition. -/
def twoStyleSwagger : GoMap :=
  [("paths", .obj [("/v1/items", .obj [("get", .obj [
      ("schema", .obj [("$ref", .str "#/definitions/Item")])])])]),
   ("components", .obj [("schemas", .obj [("Order", .obj [("type", .str "object")])])]),
   ("definitions", .obj [("Item", .obj [("type", .str "object")])])]

/-- A document with a schema whose name contains the legacy prefix. -/
def oddNameSwagger : GoMap :=
  [("paths", .obj []),
   ("definitions", .obj [
      ("a#/definitions/b", .obj [("type", .str "object")]),
      ("User", .obj [("$ref", .str "#/definitions/a#/definitions/b")])])]

/-- The role names the claims use. -/
def demoRoles : Userroles := ⟨"engineer", "manager", "observer", "admin", "superadmin"⟩

/-- A backend context for a request with the given `X-User-Roles` values. -/
def serviceContext (roles : List String) : ServiceContext :=
  ⟨demoRequest "PATCH" "/v1/orders/cancel/1" (roles.map fun r => ("X-User-Roles", [r])),
    [], 200, .empty, false⟩

/-- The state of a repository kept in memory: its orders, and the calls made so
far. -/
structure OrderDb where
  orders : List Order
  calls : List String
deriving DecidableEq, Repr

/-- A repository of orders kept in memory, answering as `orederrepository.go` does on
its table and recording each call. -/
def memoryOrders : OrderRepositoryInterface OrderDb where
  GetOrderByID := fun db id =>
    (match db.orders.find? (fun o => o.ID = id) with
      | some o => .ok o
      | none => .error "order not found",
     { db with calls := db.calls ++ ["GetOrderByID"] })
  UpdateOrder := fun db order =>
    (.ok (), { orders := db.orders.map (fun o => if o.ID = order.ID then order else o),
               calls := db.calls ++ ["UpdateOrder"] })
  GetOrders := fun db page limit userID _ =>
    let rows := db.orders.filter fun o => userID = 0 ∨ o.UserId = userID
    (.ok ((rows.drop ((page - 1) * limit).toNat).take limit.toNat, rows.length),
     { db with calls := db.calls ++ ["GetOrders"] })

/-- Five orders of the user 100, one in each status, and no call made. -/
def demoOrders : OrderDb :=
  ⟨[⟨1, 100, StatusCreated, 2000, [⟨1, "Laptop", 2⟩]⟩, ⟨2, 100, StatusAccepted, 10, []⟩,
    ⟨3, 100, StatusProcessed, 20, []⟩, ⟨4, 100, StatusClosed, 30, []⟩,
    ⟨5, 100, StatusCanceled, 40, []⟩], []⟩

/-- The state of a users repository kept in memory. -/
structure UserDb where
  users : List User
  calls : List String
deriving DecidableEq, Repr

/-- A repository of users kept in memory, answering as `userrepository.go` does on
its table and recording each call. -/
def memoryUsers : UserRepositoryInterface UserDb where
  GetUserByEmail := fun db email =>
    (match db.users.find? (fun u => u.Email = ToLower email) with
      | some u => .ok u
      | none => .error "record not found",
     { db with calls := db.calls ++ ["GetUserByEmail"] })
  GetUserByID := fun db id =>
    (match db.users.find? (fun u => u.ID = id) with
      | some u => .ok u
      | none => .error "record not found",
     { db with calls := db.calls ++ ["GetUserByID"] })
  CreateUser := fun db user =>
    let user := { user with ID := db.users.length + 1 }
    (.ok user, { users := db.users ++ [user], calls := db.calls ++ ["CreateUser"] })
  UpdateUser := fun db user updates =>
    let user := match mapGet "name" updates with
      | some (.str name) => { user with Name := name }
      | _ => user
    let user := match mapGet "roles" updates with
      | some (.strs roles) => { user with Roles := roles }
      | _ => user
    (.ok user, { users := db.users.map (fun u => if u.ID = user.ID then user else u),
                 calls := db.calls ++ ["UpdateUser"] })
  GetUsers := fun db page limit _ _ =>
    (.ok ((db.users.drop ((page - 1) * limit).toNat).take limit.toNat, db.users.length),
     { db with calls := db.calls ++ ["GetUsers"] })

/-- Two stored users and no call made. -/
def demoUsers : UserDb :=
  ⟨[⟨1, "a@example.com", "$2a$hash", "A", ["engineer"]⟩,
    ⟨2, "b@example.com", "$2a$hash", "B", ["manager"]⟩], []⟩

/-- A stand-in for bcrypt that never fails. -/
def demoBcrypt (password : String) : Except String String := .ok ("$2a$" ++ password)

/-- A JWT library whose token `t-odd` carries a role with a comma and a role with
leading white space. -/
def oddJwt : JwtLib where
  decode s :=
    if s = "t-odd" then
      some ⟨"HS256", true,
        [("id", .num (float64OfNat 7)), ("roles", .arr [.str "ops,admin", .str " manager"])]⟩
    else none
  verify _ key := key = "secret"
  claimsValid _ _ := true

/-- The sample environment with the library `oddJwt`. -/
def oddEnv : Env := { demoEnv 0 with jwt := oddJwt }

/-- A JWT library whose token `t-anon` carries a role and no `id` claim. -/
def anonJwt : JwtLib where
  decode s :=
    if s = "t-anon" then some ⟨"HS256", true, [("roles", .arr [.str "engineer"])]⟩
    else none
  verify _ key := key = "secret"
  claimsValid _ _ := true

/-- The sample environment with the library `anonJwt`. -/
def anonEnv : Env := { demoEnv 0 with jwt := anonJwt }

/-! # Theorems -/







/-! ## Fields of a context after a gin call -/

@[simp] theorem Abort_Request (c : Context)  :
    (c.Abort).Request = c.Request := rfl

@[simp] theorem Abort_Keys (c : Context)  :
    (c.Abort).Keys = c.Keys := rfl

@[simp] theorem Abort_status (c : Context)  :
    (c.Abort).status = c.status := rfl

@[simp] theorem Abort_body (c : Context)  :
    (c.Abort).body = c.body := rfl

@[simp] theorem Abort_respHeader (c : Context)  :
    (c.Abort).respHeader = c.respHeader := rfl

@[simp] theorem Abort_aborted (c : Context)  :
    (c.Abort).aborted = true := rfl

@[simp] theorem Abort_gw (c : Context)  :
    (c.Abort).gw = c.gw := rfl

@[simp] theorem JSON_Request (c : Context) (code : Nat) (obj : GoVal) :
    (c.JSON code obj).Request = c.Request := rfl

@[simp] theorem JSON_Keys (c : Context) (code : Nat) (obj : GoVal) :
    (c.JSON code obj).Keys = c.Keys := rfl

@[simp] theorem JSON_status (c : Context) (code : Nat) (obj : GoVal) :
    (c.JSON code obj).status = code := rfl

@[simp] theorem JSON_body (c : Context) (code : Nat) (obj : GoVal) :
    (c.JSON code obj).body = .json obj := rfl

@[simp] theorem JSON_respHeader (c : Context) (code : Nat) (obj : GoVal) :
    (c.JSON code obj).respHeader = c.respHeader := rfl

@[simp] theorem JSON_aborted (c : Context) (code : Nat) (obj : GoVal) :
    (c.JSON code obj).aborted = c.aborted := rfl

@[simp] theorem JSON_gw (c : Context) (code : Nat) (obj : GoVal) :
    (c.JSON code obj).gw = c.gw := rfl

@[simp] theorem AbortWithStatusJSON_Request (c : Context) (code : Nat) (obj : GoVal) :
    (c.AbortWithStatusJSON code obj).Request = c.Request := rfl

@[simp] theorem AbortWithStatusJSON_Keys (c : Context) (code : Nat) (obj : GoVal) :
    (c.AbortWithStatusJSON code obj).Keys = c.Keys := rfl

@[simp] theorem AbortWithStatusJSON_status (c : Context) (code : Nat) (obj : GoVal) :
    (c.AbortWithStatusJSON code obj).status = code := rfl

@[simp] theorem AbortWithStatusJSON_body (c : Context) (code : Nat) (obj : GoVal) :
    (c.AbortWithStatusJSON code obj).body = .json obj := rfl

@[simp] theorem AbortWithStatusJSON_respHeader (c : Context) (code : Nat) (obj : GoVal) :
    (c.AbortWithStatusJSON code obj).respHeader = c.respHeader := rfl

@[simp] theorem AbortWithStatusJSON_aborted (c : Context) (code : Nat) (obj : GoVal) :
    (c.AbortWithStatusJSON code obj).aborted = true := rfl

@[simp] theorem AbortWithStatusJSON_gw (c : Context) (code : Nat) (obj : GoVal) :
    (c.AbortWithStatusJSON code obj).gw = c.gw := rfl

@[simp] theorem AbortWithStatus_Request (c : Context) (code : Nat) :
    (c.AbortWithStatus code).Request = c.Request := rfl

@[simp] theorem AbortWithStatus_Keys (c : Context) (code : Nat) :
    (c.AbortWithStatus code).Keys = c.Keys := rfl

@[simp] theorem AbortWithStatus_status (c : Context) (code : Nat) :
    (c.AbortWithStatus code).status = code := rfl

@[simp] theorem AbortWithStatus_body (c : Context) (code : Nat) :
    (c.AbortWithStatus code).body = c.body := rfl

@[simp] theorem AbortWithStatus_respHeader (c : Context) (code : Nat) :
    (c.AbortWithStatus code).respHeader = c.respHeader := rfl

@[simp] theorem AbortWithStatus_aborted (c : Context) (code : Nat) :
    (c.AbortWithStatus code).aborted = true := rfl

@[simp] theorem AbortWithStatus_gw (c : Context) (code : Nat) :
    (c.AbortWithStatus code).gw = c.gw := rfl

@[simp] theorem setRequestHeader_Keys (c : Context) (key value : String) :
    (c.setRequestHeader key value).Keys = c.Keys := rfl

@[simp] theorem setRequestHeader_status (c : Context) (key value : String) :
    (c.setRequestHeader key value).status = c.status := rfl

@[simp] theorem setRequestHeader_body (c : Context) (key value : String) :
    (c.setRequestHeader key value).body = c.body := rfl

@[simp] theorem setRequestHeader_respHeader (c : Context) (key value : String) :
    (c.setRequestHeader key value).respHeader = c.respHeader := rfl

@[simp] theorem setRequestHeader_aborted (c : Context) (key value : String) :
    (c.setRequestHeader key value).aborted = c.aborted := rfl

@[simp] theorem setRequestHeader_gw (c : Context) (key value : String) :
    (c.setRequestHeader key value).gw = c.gw := rfl

@[simp] theorem setWriterHeader_Request (c : Context) (key value : String) :
    (c.setWriterHeader key value).Request = c.Request := rfl

@[simp] theorem setWriterHeader_Keys (c : Context) (key value : String) :
    (c.setWriterHeader key value).Keys = c.Keys := rfl

@[simp] theorem setWriterHeader_status (c : Context) (key value : String) :
    (c.setWriterHeader key value).status = c.status := rfl

@[simp] theorem setWriterHeader_body (c : Context) (key value : String) :
    (c.setWriterHeader key value).body = c.body := rfl

@[simp] theorem setWriterHeader_respHeader (c : Context) (key value : String) :
    (c.setWriterHeader key value).respHeader = c.respHeader.Set key value := rfl

@[simp] theorem setWriterHeader_aborted (c : Context) (key value : String) :
    (c.setWriterHeader key value).aborted = c.aborted := rfl

@[simp] theorem setWriterHeader_gw (c : Context) (key value : String) :
    (c.setWriterHeader key value).gw = c.gw := rfl

@[simp] theorem Header_Request (c : Context) (key value : String) :
    (c.Header key value).Request = c.Request := by unfold Context.Header; split <;> rfl

@[simp] theorem Header_Keys (c : Context) (key value : String) :
    (c.Header key value).Keys = c.Keys := by unfold Context.Header; split <;> rfl

@[simp] theorem Header_status (c : Context) (key value : String) :
    (c.Header key value).status = c.status := by unfold Context.Header; split <;> rfl

@[simp] theorem Header_body (c : Context) (key value : String) :
    (c.Header key value).body = c.body := by unfold Context.Header; split <;> rfl

@[simp] theorem Header_aborted (c : Context) (key value : String) :
    (c.Header key value).aborted = c.aborted := by unfold Context.Header; split <;> rfl

@[simp] theorem Header_gw (c : Context) (key value : String) :
    (c.Header key value).gw = c.gw := by unfold Context.Header; split <;> rfl

@[simp] theorem Set_Request (c : Context) (key value : String) :
    (c.Set key value).Request = c.Request := rfl

@[simp] theorem Set_Keys (c : Context) (key value : String) :
    (c.Set key value).Keys = (key, value) :: c.Keys := rfl

@[simp] theorem Set_status (c : Context) (key value : String) :
    (c.Set key value).status = c.status := rfl

@[simp] theorem Set_body (c : Context) (key value : String) :
    (c.Set key value).body = c.body := rfl

@[simp] theorem Set_respHeader (c : Context) (key value : String) :
    (c.Set key value).respHeader = c.respHeader := rfl

@[simp] theorem Set_aborted (c : Context) (key value : String) :
    (c.Set key value).aborted = c.aborted := rfl

@[simp] theorem Set_gw (c : Context) (key value : String) :
    (c.Set key value).gw = c.gw := rfl

@[simp] theorem logInfo_Request (c : Context) (r : LogRecord) :
    (c.logInfo r).Request = c.Request := rfl

@[simp] theorem logInfo_Keys (c : Context) (r : LogRecord) :
    (c.logInfo r).Keys = c.Keys := rfl

@[simp] theorem logInfo_status (c : Context) (r : LogRecord) :
    (c.logInfo r).status = c.status := rfl

@[simp] theorem logInfo_body (c : Context) (r : LogRecord) :
    (c.logInfo r).body = c.body := rfl

@[simp] theorem logInfo_respHeader (c : Context) (r : LogRecord) :
    (c.logInfo r).respHeader = c.respHeader := rfl

@[simp] theorem logInfo_aborted (c : Context) (r : LogRecord) :
    (c.logInfo r).aborted = c.aborted := rfl

@[simp] theorem setRequestHeader_Request_Header (c : Context) (key value : String) :
    (c.setRequestHeader key value).Request.Header = c.Request.Header.Set key value := rfl

@[simp] theorem setRequestHeader_Request_URL (c : Context) (key value : String) :
    (c.setRequestHeader key value).Request.URL = c.Request.URL := rfl

@[simp] theorem setRequestHeader_Request_Method (c : Context) (key value : String) :
    (c.setRequestHeader key value).Request.Method = c.Request.Method := rfl

@[simp] theorem logInfo_gw_log (c : Context) (r : LogRecord) :
    (c.logInfo r).gw.log = c.gw.log ++ [r] := rfl

@[simp] theorem logInfo_gw_stores (c : Context) (r : LogRecord) :
    (c.logInfo r).gw.stores = c.gw.stores := rfl

@[simp] theorem logInfo_gw_forwarded (c : Context) (r : LogRecord) :
    (c.logInfo r).gw.forwarded = c.gw.forwarded := rfl

@[simp] theorem withRequestID_Request (c : Context) (env : Env) :
    (c.withRequestID env).Request = c.Request := by simp [Context.withRequestID]
@[simp] theorem withRequestID_aborted (c : Context) (env : Env) :
    (c.withRequestID env).aborted = c.aborted := by simp [Context.withRequestID]
@[simp] theorem withRequestID_gw (c : Context) (env : Env) :
    (c.withRequestID env).gw = c.gw := by simp [Context.withRequestID]
@[simp] theorem withRequestID_status (c : Context) (env : Env) :
    (c.withRequestID env).status = c.status := by simp [Context.withRequestID]
@[simp] theorem withRequestID_body (c : Context) (env : Env) :
    (c.withRequestID env).body = c.body := by simp [Context.withRequestID]
@[simp] theorem withCORS_Request (c : Context) : c.withCORS.Request = c.Request := rfl
@[simp] theorem withCORS_aborted (c : Context) : c.withCORS.aborted = c.aborted := rfl
@[simp] theorem withCORS_gw (c : Context) : c.withCORS.gw = c.gw := rfl
@[simp] theorem withCORS_status (c : Context) : c.withCORS.status = c.status := rfl
@[simp] theorem withCORS_body (c : Context) : c.withCORS.body = c.body := rfl
@[simp] theorem withCORS_Keys (c : Context) : c.withCORS.Keys = c.Keys := rfl
@[simp] theorem withStore_Request (c : Context) (inst : Route) (store : Store) :
    (c.withStore inst store).Request = c.Request := rfl
@[simp] theorem withStore_aborted (c : Context) (inst : Route) (store : Store) :
    (c.withStore inst store).aborted = c.aborted := rfl
@[simp] theorem withStore_status (c : Context) (inst : Route) (store : Store) :
    (c.withStore inst store).status = c.status := rfl
@[simp] theorem withStore_body (c : Context) (inst : Route) (store : Store) :
    (c.withStore inst store).body = c.body := rfl
@[simp] theorem withStore_Keys (c : Context) (inst : Route) (store : Store) :
    (c.withStore inst store).Keys = c.Keys := rfl
@[simp] theorem withStore_gw_forwarded (c : Context) (inst : Route) (store : Store) :
    (c.withStore inst store).gw.forwarded = c.gw.forwarded := rfl
@[simp] theorem withStore_gw_log (c : Context) (inst : Route) (store : Store) :
    (c.withStore inst store).gw.log = c.gw.log := rfl
@[simp] theorem withStore_gw_stores (c : Context) (inst : Route) (store : Store) :
    (c.withStore inst store).gw.stores = Function.update c.gw.stores inst store := rfl

/-- The middleware `RequestID` always runs the rest of the chain. -/
theorem RequestID_eq (env : Env) (next : Context → Context) (c : Context) :
    RequestID env next c = next (c.withRequestID env) := rfl

/-- The middleware `Logging` writes its record after the rest of the chain. -/
theorem Logging_eq (next : Context → Context) (c : Context) :
    Logging next c = (next c).logInfo (.request (next c).Request.Method (next c).Request.URL.Path
      (next c).status ((next c).GetString "X-Request-ID")) := rfl

/-- The middleware `CORS` answers an OPTIONS request itself. -/
theorem CORS_eq (next : Context → Context) (c : Context) :
    CORS next c =
      if c.Request.Method = "OPTIONS" then c.withCORS.AbortWithStatus 204 else next c.withCORS := rfl

/-- The middleware `RateLimiterManual`, by the answer of the limiter. -/
theorem RateLimiterManual_eq (env : Env) (inst : Route) (next : Context → Context) (c : Context) :
    RateLimiterManual env inst next c =
      match (env.limiterNew ⟨Minute, 100⟩).Get (c.gw.stores inst) env.now env.ClientIP with
      | .error _ => c.AbortWithStatusJSON 500 (.obj [("error", .str "internal server error")])
      | .ok (result, store) =>
        if result.Reached then
          (c.withStore inst store).AbortWithStatusJSON 429
            (errorEnvelope "rate_limit_exceeded" "Too many requests")
        else next (c.withStore inst store) := rfl

/-- The proxy handler, by the answer of the transport. -/
theorem setupProxy_forwarded (env : Env) (target : String) (next : Context → Context) (c : Context) :
    (setupProxy env target next c).gw.forwarded =
      c.gw.forwarded ++ [Director (env.urlParse target) c.Request] := by
  unfold setupProxy
  simp only
  split
  · rfl
  · split <;> rfl

/-- The proxy hands one request to the transport, the output of the Director with the
header the proxy makes of it, unless the request asks for an upgrade to a protocol
whose name is not printable. -/
theorem setupProxy_sent (env : Env) (target : String) (next : Context → Context) (c : Context) :
    (setupProxy env target next c).gw.sent =
      c.gw.sent ++
        (if IsPrint (upgradeType (Director (env.urlParse target) c.Request).Header) then
          [outboundRequest (env.urlParse target) c.Request] else []) := by
  unfold setupProxy
  simp only
  split
  · next h =>
    rw [if_neg (fun e => by rw [e] at h; exact absurd h (by decide)), List.append_nil]
    rfl
  · next h =>
    rw [if_pos (by simpa using h)]
    split <;> rfl


/-! ## Header maps -/

/-- Reading a map after an assignment. -/
theorem mapGet_mapPut {β : Type} (key k : String) (v : β) (l : List (String × β)) :
    mapGet k (mapPut key v l) = if k = key then some v else mapGet k l := by
  induction l with
  | nil =>
    by_cases h : k = key
    · simp [mapPut, mapGet, h]
    · have h' : ¬ key = k := fun e => h e.symm
      simp [mapPut, mapGet, h, h']
  | cons e rest ih =>
    obtain ⟨k1, v1⟩ := e
    by_cases h1 : k1 = key
    · subst h1
      by_cases h : k = k1
      · simp [mapPut, mapGet, h]
      · have h' : ¬ k1 = k := fun e => h e.symm
        simp [mapPut, mapGet, h, h']
    · by_cases h : k1 = k
      · subst h
        simp [mapPut, mapGet, h1]
      · simp [mapPut, mapGet, h1, h, ih]

/-- Reading a header map by index after `Set`. -/
theorem index_Set (h : Header) (key value k : String) :
    (h.Set key value).index k =
      if k = CanonicalMIMEHeaderKey key then some [value] else h.index k := by
  simp [Header.Set, Header.index, mapGet_mapPut]

/-- Go `Header.Get` after `Set` of the same key. -/
theorem Get_Set_same (h : Header) (key value : String) :
    (h.Set key value).Get key = value := by
  simp [Header.Get, index_Set]

/-- Go `Header.Get` after `Set` of another key. -/
theorem Get_Set_other (h : Header) (key value k : String)
    (hk : CanonicalMIMEHeaderKey k ≠ CanonicalMIMEHeaderKey key) :
    (h.Set key value).Get k = h.Get k := by
  simp [Header.Get, index_Set, hk]

/-! ## The Token Verifier -/

/-- With the key function of `JWTAuth`, `jwt.Parse` answers a token exactly when the
string decodes to it, its method is HMAC, its signature verifies under the secret and
its claims are valid now. -/
theorem jwtParse_ok_iff (env : Env) (tokenStr : String) (token : Token) :
    jwtParse env.jwt env.now tokenStr (keyFunc env.cfg) = .ok token ↔
      (env.jwt.decode tokenStr = some token ∧ token.isHMAC = true ∧
        env.jwt.verify tokenStr env.cfg.JWTSecret = true ∧
        env.jwt.claimsValid token.Claims env.now = true) := by
  unfold jwtParse keyFunc
  constructor
  · intro h
    cases hd : env.jwt.decode tokenStr with
    | none => simp [hd] at h
    | some t =>
      rw [hd] at h
      cases hm : t.isHMAC <;> cases hv : env.jwt.verify tokenStr env.cfg.JWTSecret <;>
        cases hc : env.jwt.claimsValid t.Claims env.now <;> simp_all
  · rintro ⟨hd, hm, hv, hc⟩
    simp [hd, hm, hv, hc]

/-- When the token of the header verifies, `JWTAuth` runs the rest of the chain. -/
theorem JWTAuth_of_ok (env : Env) (next : Context → Context) (c : Context) (token : Token)
    (h1 : c.Request.Header.Get "Authorization" ≠ "")
    (h2 : HasPrefix (c.Request.Header.Get "Authorization") "Bearer " = true)
    (h3 : jwtParse env.jwt env.now (TrimPrefix (c.Request.Header.Get "Authorization") "Bearer ")
      (keyFunc env.cfg) = .ok token) :
    JWTAuth env next c = next (withClaims c token.Claims) := by
  simp [JWTAuth, Context.GetHeader, h1, h2, h3]

/-- When the header is missing, has no bearer prefix or its token does not parse,
`JWTAuth` answers 401 and leaves the rest of the chain alone. -/
theorem JWTAuth_of_fail (env : Env) (c : Context)
    (h : c.Request.Header.Get "Authorization" = "" ∨
      HasPrefix (c.Request.Header.Get "Authorization") "Bearer " = false ∨
      ∃ e, jwtParse env.jwt env.now (TrimPrefix (c.Request.Header.Get "Authorization") "Bearer ")
        (keyFunc env.cfg) = .error e) :
    ∃ message, ∀ next, JWTAuth env next c =
      { c with status := 401, body := .json (errorEnvelope "unauthorized" message),
               aborted := true } := by
  by_cases h0 : c.Request.Header.Get "Authorization" = "" ∨
      (!HasPrefix (c.Request.Header.Get "Authorization") "Bearer ") = true
  · refine ⟨"Missing or invalid Bearer token", fun next => ?_⟩
    simp only [JWTAuth, Context.GetHeader, h0, if_true, Context.JSON, Context.Abort]
  · have h3 : ∃ e, jwtParse env.jwt env.now
        (TrimPrefix (c.Request.Header.Get "Authorization") "Bearer ") (keyFunc env.cfg) = .error e := by
      rcases h with h | h | h
      · exact absurd (Or.inl h) h0
      · exact absurd (Or.inr (by simp [h])) h0
      · exact h
    obtain ⟨e, he⟩ := h3
    refine ⟨"Invalid token", fun next => ?_⟩
    simp only [JWTAuth, Context.GetHeader, h0, if_false, he, Context.JSON, Context.Abort]

/-- C1. `JWTAuth`, for every request: if the Authorization header is empty, does not
start with `Bearer `, or the token after the prefix fails verification (it does not
decode, its signing method is not HMAC, its signature is invalid, or its claims are
invalid, as when it is expired), the response is 401 with the envelope
`{success: false, error: {code: "unauthorized", ...}}`, the chain is aborted and the
rest of the chain is not run, so that on the admin and orders routes nothing reaches
the proxy or changes the gateway state; in every other case the next handler is
invoked, on the request with the identity headers of the claims. -/
theorem JWTAuth_unauthorized_or_next (env : Env) (c : Context) :
    ((c.Request.Header.Get "Authorization" = "" ∨
      HasPrefix (c.Request.Header.Get "Authorization") "Bearer " = false ∨
      env.jwt.decode (TrimPrefix (c.Request.Header.Get "Authorization") "Bearer ") = none ∨
      ∃ token,
        env.jwt.decode (TrimPrefix (c.Request.Header.Get "Authorization") "Bearer ") = some token ∧
        (token.isHMAC = false ∨
         env.jwt.verify (TrimPrefix (c.Request.Header.Get "Authorization") "Bearer ")
           env.cfg.JWTSecret = false ∨
         env.jwt.claimsValid token.Claims env.now = false)) →
      (∃ message, ∀ next, JWTAuth env next c =
        { c with status := 401, body := .json (errorEnvelope "unauthorized" message),
                 aborted := true }) ∧
      ∀ route gw, route ≠ Route.login → c = newContext gw c.Request →
        (ServeHTTP env route gw c.Request).status = 401 ∧
        (ServeHTTP env route gw c.Request).aborted = true ∧
        (ServeHTTP env route gw c.Request).gw.forwarded = gw.forwarded ∧
        (ServeHTTP env route gw c.Request).gw.log = gw.log ∧
        (ServeHTTP env route gw c.Request).gw.stores = gw.stores) ∧
    (∀ token,
      c.Request.Header.Get "Authorization" ≠ "" →
      HasPrefix (c.Request.Header.Get "Authorization") "Bearer " = true →
      env.jwt.decode (TrimPrefix (c.Request.Header.Get "Authorization") "Bearer ") = some token →
      token.isHMAC = true →
      env.jwt.verify (TrimPrefix (c.Request.Header.Get "Authorization") "Bearer ")
        env.cfg.JWTSecret = true →
      env.jwt.claimsValid token.Claims env.now = true →
      ∀ next, JWTAuth env next c = next (withClaims c token.Claims)) := by
  constructor
  · intro h
    have hfail : c.Request.Header.Get "Authorization" = "" ∨
        HasPrefix (c.Request.Header.Get "Authorization") "Bearer " = false ∨
        ∃ e, jwtParse env.jwt env.now
          (TrimPrefix (c.Request.Header.Get "Authorization") "Bearer ") (keyFunc env.cfg) =
            .error e := by
      rcases h with h | h | h | ⟨token, hd, h⟩
      · exact Or.inl h
      · exact Or.inr (Or.inl h)
      · exact Or.inr (Or.inr ⟨"token is malformed", by simp [jwtParse, h]⟩)
      · refine Or.inr (Or.inr ?_)
        cases hp : jwtParse env.jwt env.now
          (TrimPrefix (c.Request.Header.Get "Authorization") "Bearer ") (keyFunc env.cfg) with
        | error e => exact ⟨e, rfl⟩
        | ok t =>
          obtain ⟨hd', hm, hv, hc⟩ := (jwtParse_ok_iff env _ t).1 hp
          rw [hd] at hd'
          cases hd'
          rcases h with h | h | h
          · rw [hm] at h; cases h
          · rw [hv] at h; cases h
          · rw [hc] at h; cases h
    have hmsg := JWTAuth_of_fail env c hfail
    refine ⟨hmsg, ?_⟩
    intro route gw hr hc
    obtain ⟨m, hm⟩ := hmsg
    have hrun : ServeHTTP env route gw c.Request =
        { c with status := 401, body := .json (errorEnvelope "unauthorized" m),
                 aborted := true } := by
      cases route with
      | login => exact absurd rfl hr
      | admin => simp only [ServeHTTP, Setup, runChain]; rw [← hc]; exact hm _
      | orders => simp only [ServeHTTP, Setup, runChain]; rw [← hc]; exact hm _
    rw [hrun]
    refine ⟨rfl, rfl, ?_, ?_, ?_⟩ <;> rw [hc] <;> rfl
  · intro token h1 h2 hd hm hv hc next
    exact JWTAuth_of_ok env next c token h1 h2 ((jwtParse_ok_iff env _ token).2 ⟨hd, hm, hv, hc⟩)

/-! ## The Director -/

/-- The canonical form of the key `X-Request-ID`. -/
theorem canon_request_id : CanonicalMIMEHeaderKey "X-Request-ID" = "X-Request-Id" := by decide

/-- The key `User-Agent` is canonical. -/
theorem canon_user_agent : CanonicalMIMEHeaderKey "User-Agent" = "User-Agent" := by decide

/-- The canonical form of the key `X-User-ID`. -/
theorem canon_user_id : CanonicalMIMEHeaderKey "X-User-ID" = "X-User-Id" := by decide

/-- The key `X-User-Roles` is canonical. -/
theorem canon_user_roles : CanonicalMIMEHeaderKey "X-User-Roles" = "X-User-Roles" := by decide

/-- The header map the Director leaves, read by index. -/
theorem Director_index (url : URL) (req : Request) (k : String) :
    (Director url req).Header.index k =
      if k = "X-Request-Id" then some [req.Header.Get "X-Request-ID"]
      else if k = "User-Agent" then
        (match req.Header.index "User-Agent" with
          | some vs => some vs
          | none => some [""])
      else req.Header.index k := by
  have hua : (req.Header.Set "X-Request-ID" (req.Header.Get "X-Request-ID")).index "User-Agent" =
      req.Header.index "User-Agent" := by
    rw [index_Set, canon_request_id]; simp
  unfold Director
  simp only [hua]
  cases h : req.Header.index "User-Agent" with
  | none =>
    simp only [Option.isNone_none, if_true, index_Set, canon_request_id, canon_user_agent]
    by_cases h1 : k = "X-Request-Id"
    · subst h1; simp
    · by_cases h2 : k = "User-Agent"
      · subst h2; simp
      · simp [h1, h2]
  | some vs =>
    simp only [Option.isNone_some, Bool.false_eq_true, if_false, index_Set, canon_request_id]
    by_cases h1 : k = "X-Request-Id"
    · subst h1; simp
    · by_cases h2 : k = "User-Agent"
      · subst h2; simp [h]
      · simp [h1, h2]

/-- Go `Header.Get` reads the same value before and after the Director. -/
theorem Director_Get (url : URL) (req : Request) (key : String) :
    (Director url req).Header.Get key = req.Header.Get key := by
  unfold Header.Get
  rw [Director_index]
  by_cases h1 : CanonicalMIMEHeaderKey key = "X-Request-Id"
  · simp only [h1, if_true]
    show req.Header.Get "X-Request-ID" = _
    unfold Header.Get
    rw [canon_request_id]
  · by_cases h2 : CanonicalMIMEHeaderKey key = "User-Agent"
    · simp only [h2, if_true]
      cases h : req.Header.index "User-Agent" with
      | none => simp
      | some vs => simp
    · simp only [h1, h2, if_false]

/-- C10, as the code has it. For every target URL and every inbound request, the
Director's outbound request has the target's scheme, the target's host as URL host
and as `Host`, and the path `target.path ++ original.path`; the method, the body and
the query are those of the original. Every header other than `X-Request-Id` and
`User-Agent` keeps all its values; `X-Request-Id` is bound to the single first value
of the original (the empty string when there was none); `User-Agent` keeps its values
when present and is bound to the empty string otherwise; so `Header.Get` answers for
every key what it answered on the original. -/
theorem Director_rewrites_target (url : URL) (req : Request) :
    (Director url req).URL.Scheme = url.Scheme ∧
    (Director url req).URL.Host = url.Host ∧
    (Director url req).Host = url.Host ∧
    (Director url req).URL.Path = url.Path ++ req.URL.Path ∧
    (Director url req).URL.RawQuery = req.URL.RawQuery ∧
    (Director url req).Method = req.Method ∧
    (Director url req).Body = req.Body ∧
    (∀ key, (Director url req).Header.Get key = req.Header.Get key) ∧
    (∀ k, k ≠ "X-Request-Id" → k ≠ "User-Agent" →
      (Director url req).Header.index k = req.Header.index k) ∧
    (Director url req).Header.index "X-Request-Id" = some [req.Header.Get "X-Request-ID"] ∧
    (∀ vs, req.Header.index "User-Agent" = some vs →
      (Director url req).Header.index "User-Agent" = some vs) ∧
    (req.Header.index "User-Agent" = none →
      (Director url req).Header.index "User-Agent" = some [""]) := by
  refine ⟨?_, ?_, ?_, ?_, ?_, ?_, ?_, Director_Get url req, ?_, ?_, ?_, ?_⟩
  · unfold Director; simp only; split <;> rfl
  · unfold Director; simp only; split <;> rfl
  · unfold Director; simp only; split <;> rfl
  · unfold Director; simp only; split <;> rfl
  · unfold Director; simp only; split <;> rfl
  · unfold Director; simp only; split <;> rfl
  · unfold Director; simp only; split <;> rfl
  · intro k h1 h2
    rw [Director_index]; simp [h1, h2]
  · rw [Director_index]; simp
  · intro vs h
    rw [Director_index]; simp [h]
  · intro h
    rw [Director_index]; simp [h]

/-- The Director at the sample target and the request with two `X-Request-ID` values. -/
theorem Director_rewrites_target_witness :
    "Accept" ≠ "X-Request-Id" ∧ "Accept" ≠ "User-Agent" ∧
    twoRequestIDs.Header.index "User-Agent" = some ["curl"] ∧
    (Director demoTarget twoRequestIDs).Header.index "Accept" = some ["*/*", "text/html"] ∧
    (Director demoTarget twoRequestIDs).Header.index "User-Agent" = some ["curl"] :=
  ⟨by decide, by decide, by decide,
    (Director_rewrites_target demoTarget twoRequestIDs).2.2.2.2.2.2.2.2.1 "Accept"
      (by decide) (by decide),
    (Director_rewrites_target demoTarget twoRequestIDs).2.2.2.2.2.2.2.2.2.2.1 ["curl"]
      (by decide)⟩

/-- C10, counterexample. A request with the values `a` and `b` for `X-Request-ID`
leaves the Director with the value `a` alone: not every header of the original is
preserved. -/
theorem Director_drops_request_id_value :
    twoRequestIDs.Header.index "X-Request-Id" = some ["a", "b"] ∧
    (Director demoTarget twoRequestIDs).Header.index "X-Request-Id" = some ["a"] ∧
    ¬ (∀ (url : URL) (req : Request) (k : String) (vs : List String),
        req.Header.index k = some vs → (Director url req).Header.index k = some vs) := by
  refine ⟨by decide, by decide, fun h => ?_⟩
  have := h demoTarget twoRequestIDs "X-Request-Id" ["a", "b"] (by decide)
  revert this
  decide

/-- A token signed with RS256 is answered 401 whatever follows `JWTAuth`; the token
`t-admin` goes on to the next handler. -/
theorem JWTAuth_unauthorized_or_next_witness :
    (∃ message, ∀ next, JWTAuth (demoEnv 0) next
        (newContext demoGateway (ordersRequest "t-rs256" [])) =
      { newContext demoGateway (ordersRequest "t-rs256" []) with
        status := 401, body := .json (errorEnvelope "unauthorized" message), aborted := true }) ∧
    (ServeHTTP (demoEnv 0) .orders demoGateway (ordersRequest "t-rs256" [])).gw.forwarded = [] ∧
    (∀ next, JWTAuth (demoEnv 0) next (newContext demoGateway (ordersRequest "t-admin" [])) =
      next (withClaims (newContext demoGateway (ordersRequest "t-admin" []))
        [("id", .num (float64OfNat 42)), ("roles", .arr [.str "admin"])])) :=
  ⟨((JWTAuth_unauthorized_or_next (demoEnv 0)
      (newContext demoGateway (ordersRequest "t-rs256" []))).1
      (Or.inr (Or.inr (Or.inr ⟨⟨"RS256", false,
        [("id", .num (float64OfNat 42)), ("roles", .arr [.str "admin"])]⟩, rfl, Or.inl rfl⟩)))).1,
   (((JWTAuth_unauthorized_or_next (demoEnv 0)
      (newContext demoGateway (ordersRequest "t-rs256" []))).1
      (Or.inr (Or.inr (Or.inr ⟨⟨"RS256", false,
        [("id", .num (float64OfNat 42)), ("roles", .arr [.str "admin"])]⟩, rfl, Or.inl rfl⟩)))).2
      .orders demoGateway (by decide) rfl).2.2.1,
   (JWTAuth_unauthorized_or_next (demoEnv 0)
      (newContext demoGateway (ordersRequest "t-admin" []))).2
      ⟨"HS256", true, [("id", .num (float64OfNat 42)), ("roles", .arr [.str "admin"])]⟩
      (by decide) (by decide) rfl rfl rfl rfl⟩

/-! ## The chain after the Token Verifier -/

@[simp] theorem withClaims_aborted (c : Context) (claims : MapClaims) :
    (withClaims c claims).aborted = c.aborted := by
  unfold withClaims; simp only; split <;> split <;> rfl

@[simp] theorem withClaims_status (c : Context) (claims : MapClaims) :
    (withClaims c claims).status = c.status := by
  unfold withClaims; simp only; split <;> split <;> rfl

@[simp] theorem withClaims_body (c : Context) (claims : MapClaims) :
    (withClaims c claims).body = c.body := by
  unfold withClaims; simp only; split <;> split <;> rfl

@[simp] theorem withClaims_gw_stores (c : Context) (claims : MapClaims) :
    (withClaims c claims).gw.stores = c.gw.stores := by
  unfold withClaims; simp only; split <;> split <;> rfl

@[simp] theorem withClaims_gw_forwarded (c : Context) (claims : MapClaims) :
    (withClaims c claims).gw.forwarded = c.gw.forwarded := by
  unfold withClaims; simp only; split <;> split <;> rfl

@[simp] theorem withClaims_Method (c : Context) (claims : MapClaims) :
    (withClaims c claims).Request.Method = c.Request.Method := by
  unfold withClaims; simp only; split <;> split <;> rfl

/-- The login route has no Token Verifier. -/
theorem ServeHTTP_login (env : Env) (gw : Gateway) (req : Request) :
    ServeHTTP env .login gw req =
      runChain [RequestID env, Logging, CORS, RateLimiterManual env .login,
        setupProxy env (targetOf env.cfg .login)] (newContext gw req) := rfl

/-- On the admin and orders routes a request whose token parses goes on, with its
identity headers, to the rest of the chain. -/
theorem ServeHTTP_protected (env : Env) (route : Route) (gw : Gateway) (req : Request)
    (token : Token) (hr : route ≠ .login)
    (h1 : req.Header.Get "Authorization" ≠ "")
    (h2 : HasPrefix (req.Header.Get "Authorization") "Bearer " = true)
    (h3 : jwtParse env.jwt env.now (TrimPrefix (req.Header.Get "Authorization") "Bearer ")
      (keyFunc env.cfg) = .ok token) :
    ServeHTTP env route gw req =
      runChain [RequestID env, Logging, CORS, RateLimiterManual env route,
        setupProxy env (targetOf env.cfg route)] (withClaims (newContext gw req) token.Claims) := by
  have ha : (withClaims (newContext gw req) token.Claims).aborted = false := by
    simp [newContext]
  cases route with
  | login => exact absurd rfl hr
  | admin =>
    simp only [ServeHTTP, Setup]
    rw [runChain, JWTAuth_of_ok env _ (newContext gw req) token h1 h2 h3]
    simp only [ha, Bool.false_eq_true, if_false, targetOf]
  | orders =>
    simp only [ServeHTTP, Setup]
    rw [runChain, JWTAuth_of_ok env _ (newContext gw req) token h1 h2 h3]
    simp only [ha, Bool.false_eq_true, if_false, targetOf]

/-- The limiter and the proxy: when the limiter fails, 500 and nothing else. -/
theorem limiter_proxy_error (env : Env) (inst : Route) (target : String) (c : Context)
    (e : String)
    (hl : (env.limiterNew ⟨Minute, 100⟩).Get (c.gw.stores inst) env.now env.ClientIP = .error e) :
    runChain [RateLimiterManual env inst, setupProxy env target] c =
      c.AbortWithStatusJSON 500 (.obj [("error", .str "internal server error")]) := by
  rw [runChain, RateLimiterManual_eq, hl]

/-- The limiter and the proxy: when the limit is reached, 429 and the new store. -/
theorem limiter_proxy_limited (env : Env) (inst : Route) (target : String) (c : Context)
    (result : LimiterContext) (store : Store)
    (hl : (env.limiterNew ⟨Minute, 100⟩).Get (c.gw.stores inst) env.now env.ClientIP =
      .ok (result, store))
    (hr : result.Reached = true) :
    runChain [RateLimiterManual env inst, setupProxy env target] c =
      (c.withStore inst store).AbortWithStatusJSON 429
        (errorEnvelope "rate_limit_exceeded" "Too many requests") := by
  rw [runChain, RateLimiterManual_eq, hl]
  simp only [hr, if_true]

/-- The limiter and the proxy: when the limit is not reached, the proxy runs on the
context with the new store. -/
theorem limiter_proxy_passed (env : Env) (inst : Route) (target : String) (c : Context)
    (result : LimiterContext) (store : Store) (h : c.aborted = false)
    (hl : (env.limiterNew ⟨Minute, 100⟩).Get (c.gw.stores inst) env.now env.ClientIP =
      .ok (result, store))
    (hr : result.Reached = false) :
    ∃ next, runChain [RateLimiterManual env inst, setupProxy env target] c =
      setupProxy env target next (c.withStore inst store) := by
  apply Exists.intro
  rw [runChain, RateLimiterManual_eq, hl]
  simp only [hr, Bool.false_eq_true, if_false, withStore_aborted, h]
  rw [runChain]

/-- The fields of the context the proxy handler leaves. -/
theorem setupProxy_frame (env : Env) (target : String) (next : Context → Context) (c : Context) :
    (setupProxy env target next c).aborted = c.aborted ∧
    (setupProxy env target next c).gw.stores = c.gw.stores ∧
    (setupProxy env target next c).gw.log = c.gw.log ∧
    (setupProxy env target next c).Request = c.Request := by
  unfold setupProxy
  simp only
  split
  · exact ⟨rfl, rfl, rfl, rfl⟩
  · split <;> exact ⟨rfl, rfl, rfl, rfl⟩

/-- The proxy handler leaves the keys of the context. -/
theorem setupProxy_Keys (env : Env) (target : String) (next : Context → Context) (c : Context) :
    (setupProxy env target next c).Keys = c.Keys := by
  unfold setupProxy
  simp only
  split
  · rfl
  · split <;> rfl

/-- The answer of the proxy handler when the transport fails. -/
theorem setupProxy_transport_error (env : Env) (target : String) (next : Context → Context)
    (c : Context) (err : String) (ht : ∀ r, env.transport r = .error err) :
    setupProxy env target next c =
      if !IsPrint (upgradeType (Director (env.urlParse target) c.Request).Header) then
        ErrorHandler { c with gw := { c.gw with
          forwarded := c.gw.forwarded ++ [Director (env.urlParse target) c.Request] } }
          "client tried to switch to invalid protocol"
      else
        ErrorHandler { c with gw := { c.gw with
          forwarded := c.gw.forwarded ++ [Director (env.urlParse target) c.Request],
          sent := c.gw.sent ++ [outboundRequest (env.urlParse target) c.Request] } } err := by
  unfold setupProxy
  simp only
  split
  · rfl
  · rw [ht]

/-- The chain after the Token Verifier, for a request that is not a preflight: the
limiter and the proxy run on the context with the request id and the CORS headers,
and `Logging` adds its record. -/
theorem tail_eq (env : Env) (inst : Route) (target : String) (c : Context)
    (h : c.aborted = false) (hm : c.Request.Method ≠ "OPTIONS") :
    ∃ r, runChain [RequestID env, Logging, CORS, RateLimiterManual env inst,
        setupProxy env target] c =
      (runChain [RateLimiterManual env inst, setupProxy env target]
        ((c.withRequestID env).withCORS)).logInfo r := by
  have h1 : (c.withRequestID env).aborted = false := by rw [withRequestID_aborted, h]
  have h2 : (c.withRequestID env).withCORS.aborted = false := by rw [withCORS_aborted, h1]
  have h3 : (c.withRequestID env).Request.Method ≠ "OPTIONS" := by
    rw [withRequestID_Request]; exact hm
  apply Exists.intro
  rw [runChain, RequestID_eq, if_neg (by rw [h1]; decide), runChain, Logging_eq,
    if_neg (by rw [h1]; decide), runChain, CORS_eq, if_neg h3, if_neg (by rw [h2]; decide)]

/-- An OPTIONS request is answered by `CORS`: nothing is counted, nothing forwarded. -/
theorem tail_preflight (env : Env) (inst : Route) (target : String) (c : Context)
    (h : c.aborted = false) (hm : c.Request.Method = "OPTIONS") :
    ∃ r, runChain [RequestID env, Logging, CORS, RateLimiterManual env inst,
        setupProxy env target] c =
      ((c.withRequestID env).withCORS.AbortWithStatus 204).logInfo r := by
  have h1 : (c.withRequestID env).aborted = false := by rw [withRequestID_aborted, h]
  have h3 : (c.withRequestID env).Request.Method = "OPTIONS" := by
    rw [withRequestID_Request]; exact hm
  apply Exists.intro
  rw [runChain, RequestID_eq, if_neg (by rw [h1]; decide), runChain, Logging_eq,
    if_neg (by rw [h1]; decide), runChain, CORS_eq, if_pos h3]

/-- When the limiter fails, the request is answered 500 and goes no further. -/
theorem tail_store_error (env : Env) (inst : Route) (target : String) (c : Context) (e : String)
    (h : c.aborted = false) (hm : c.Request.Method ≠ "OPTIONS")
    (hl : (env.limiterNew ⟨Minute, 100⟩).Get (c.gw.stores inst) env.now env.ClientIP = .error e) :
    (runChain [RequestID env, Logging, CORS, RateLimiterManual env inst,
      setupProxy env target] c).status = 500 ∧
    (runChain [RequestID env, Logging, CORS, RateLimiterManual env inst,
      setupProxy env target] c).body = .json (.obj [("error", .str "internal server error")]) ∧
    (runChain [RequestID env, Logging, CORS, RateLimiterManual env inst,
      setupProxy env target] c).aborted = true ∧
    (runChain [RequestID env, Logging, CORS, RateLimiterManual env inst,
      setupProxy env target] c).gw.stores = c.gw.stores ∧
    (runChain [RequestID env, Logging, CORS, RateLimiterManual env inst,
      setupProxy env target] c).gw.forwarded = c.gw.forwarded := by
  obtain ⟨r, hr⟩ := tail_eq env inst target c h hm
  have hgw : (c.withRequestID env).withCORS.gw = c.gw := by
    rw [withCORS_gw, withRequestID_gw]
  rw [hr, limiter_proxy_error env inst target _ e (by rw [hgw]; exact hl)]
  refine ⟨rfl, rfl, rfl, ?_, ?_⟩
  · rw [logInfo_gw_stores, AbortWithStatusJSON_gw, hgw]
  · rw [logInfo_gw_forwarded, AbortWithStatusJSON_gw, hgw]

/-- When the limit is reached, the request is answered 429 and goes no further. -/
theorem tail_limited (env : Env) (inst : Route) (target : String) (c : Context)
    (result : LimiterContext) (store : Store)
    (h : c.aborted = false) (hm : c.Request.Method ≠ "OPTIONS")
    (hl : (env.limiterNew ⟨Minute, 100⟩).Get (c.gw.stores inst) env.now env.ClientIP =
      .ok (result, store))
    (hreached : result.Reached = true) :
    (runChain [RequestID env, Logging, CORS, RateLimiterManual env inst,
      setupProxy env target] c).status = 429 ∧
    (runChain [RequestID env, Logging, CORS, RateLimiterManual env inst,
      setupProxy env target] c).body =
        .json (errorEnvelope "rate_limit_exceeded" "Too many requests") ∧
    (runChain [RequestID env, Logging, CORS, RateLimiterManual env inst,
      setupProxy env target] c).aborted = true ∧
    (runChain [RequestID env, Logging, CORS, RateLimiterManual env inst,
      setupProxy env target] c).gw.stores = Function.update c.gw.stores inst store ∧
    (runChain [RequestID env, Logging, CORS, RateLimiterManual env inst,
      setupProxy env target] c).gw.forwarded = c.gw.forwarded := by
  obtain ⟨r, hr⟩ := tail_eq env inst target c h hm
  have hgw : (c.withRequestID env).withCORS.gw = c.gw := by
    rw [withCORS_gw, withRequestID_gw]
  rw [hr, limiter_proxy_limited env inst target _ result store (by rw [hgw]; exact hl) hreached]
  refine ⟨rfl, rfl, rfl, ?_, ?_⟩
  · rw [logInfo_gw_stores, AbortWithStatusJSON_gw, withStore_gw_stores, hgw]
  · rw [logInfo_gw_forwarded, AbortWithStatusJSON_gw, withStore_gw_forwarded, hgw]

/-- When the limit is not reached, the request goes to the proxy. -/
theorem tail_proxied (env : Env) (inst : Route) (target : String) (c : Context)
    (result : LimiterContext) (store : Store)
    (h : c.aborted = false) (hm : c.Request.Method ≠ "OPTIONS")
    (hl : (env.limiterNew ⟨Minute, 100⟩).Get (c.gw.stores inst) env.now env.ClientIP =
      .ok (result, store))
    (hreached : result.Reached = false) :
    (runChain [RequestID env, Logging, CORS, RateLimiterManual env inst,
      setupProxy env target] c).aborted = false ∧
    (runChain [RequestID env, Logging, CORS, RateLimiterManual env inst,
      setupProxy env target] c).gw.stores = Function.update c.gw.stores inst store ∧
    (runChain [RequestID env, Logging, CORS, RateLimiterManual env inst,
      setupProxy env target] c).gw.forwarded =
        c.gw.forwarded ++ [Director (env.urlParse target) c.Request] := by
  obtain ⟨r, hr⟩ := tail_eq env inst target c h hm
  have hgw : (c.withRequestID env).withCORS.gw = c.gw := by
    rw [withCORS_gw, withRequestID_gw]
  have hab : (c.withRequestID env).withCORS.aborted = false := by
    rw [withCORS_aborted, withRequestID_aborted, h]
  have hreq : (c.withRequestID env).withCORS.Request = c.Request := by
    rw [withCORS_Request, withRequestID_Request]
  obtain ⟨next, hn⟩ := limiter_proxy_passed env inst target _ result store hab
    (by rw [hgw]; exact hl) hreached
  rw [hr, hn]
  obtain ⟨f1, f2, _, _⟩ := setupProxy_frame env target next
    (((c.withRequestID env).withCORS).withStore inst store)
  refine ⟨?_, ?_, ?_⟩
  · rw [logInfo_aborted, f1, withStore_aborted, hab]
  · rw [logInfo_gw_stores, f2, withStore_gw_stores, hgw]
  · rw [logInfo_gw_forwarded, setupProxy_forwarded, withStore_gw_forwarded, withStore_Request,
      hgw, hreq]

/-! ## The rate limiter fails closed; the bodies of rejections -/

/-- C8. The rate limiter fails closed: whenever the limiter answers a request with
an error, `RateLimiterManual` answers 500, aborts the chain and does not run the next
handler, whatever it is; on a route, nothing is forwarded to the proxy and no store
changes. -/
theorem RateLimiter_fails_closed (env : Env) (inst : Route) (c : Context) (e : String)
    (hl : (env.limiterNew ⟨Minute, 100⟩).Get (c.gw.stores inst) env.now env.ClientIP = .error e) :
    (∀ next, RateLimiterManual env inst next c =
      { c with status := 500, body := .json (.obj [("error", .str "internal server error")]),
               aborted := true }) ∧
    (∀ target, c.aborted = false → c.Request.Method ≠ "OPTIONS" →
      (runChain [RequestID env, Logging, CORS, RateLimiterManual env inst,
        setupProxy env target] c).status = 500 ∧
      (runChain [RequestID env, Logging, CORS, RateLimiterManual env inst,
        setupProxy env target] c).aborted = true ∧
      (runChain [RequestID env, Logging, CORS, RateLimiterManual env inst,
        setupProxy env target] c).gw.stores = c.gw.stores ∧
      (runChain [RequestID env, Logging, CORS, RateLimiterManual env inst,
        setupProxy env target] c).gw.forwarded = c.gw.forwarded) := by
  constructor
  · intro next
    rw [RateLimiterManual_eq, hl]
    rfl
  · intro target h hm
    obtain ⟨h1, _, h3, h4, h5⟩ := tail_store_error env inst target c e h hm hl
    exact ⟨h1, h3, h4, h5⟩

/-- The login route with a limiter whose store fails. -/
theorem RateLimiter_fails_closed_witness :
    (ServeHTTP (demoEnvBroken 0) .login demoGateway
      (demoRequest "POST" "/api/v1/auth/login" [])).status = 500 ∧
    (ServeHTTP (demoEnvBroken 0) .login demoGateway
      (demoRequest "POST" "/api/v1/auth/login" [])).gw.forwarded = [] :=
  have h := (RateLimiter_fails_closed (demoEnvBroken 0) .login
    (newContext demoGateway (demoRequest "POST" "/api/v1/auth/login" [])) "store unavailable"
    rfl).2 demoConfig.UsersServiceURL rfl (by decide)
  ⟨h.1, h.2.2.2⟩

/-- C9, counterexample. With the users service down, the login route answers 502
with the plain text `Service unavailable`, and with a failing limiter store it answers
500 with `{"error": "internal server error"}`: neither body is the envelope. -/
theorem rejection_without_envelope :
    (ServeHTTP (demoEnvDown 0) .login demoGateway
      (demoRequest "POST" "/api/v1/auth/login" [])).status = 502 ∧
    isErrorEnvelope (ServeHTTP (demoEnvDown 0) .login demoGateway
      (demoRequest "POST" "/api/v1/auth/login" [])).body = false ∧
    (ServeHTTP (demoEnvBroken 0) .login demoGateway
      (demoRequest "POST" "/api/v1/auth/login" [])).status = 500 ∧
    isErrorEnvelope (ServeHTTP (demoEnvBroken 0) .login demoGateway
      (demoRequest "POST" "/api/v1/auth/login" [])).body = false := by
  refine ⟨?_, ?_, ?_, ?_⟩ <;> decide

/-- C9, as the code has it. The 401 of `JWTAuth` and the 429 of the rate limiter
carry the envelope `{success: false, error: {code, message}}`; the 502 of the proxy
ErrorHandler carries the plain text `Service unavailable`. -/
theorem rejection_bodies (env : Env) (c : Context) :
    ((c.Request.Header.Get "Authorization" = "" ∨
      HasPrefix (c.Request.Header.Get "Authorization") "Bearer " = false ∨
      ∃ e, jwtParse env.jwt env.now (TrimPrefix (c.Request.Header.Get "Authorization") "Bearer ")
        (keyFunc env.cfg) = .error e) →
      ∀ next, (JWTAuth env next c).status = 401 ∧
        isErrorEnvelope (JWTAuth env next c).body = true) ∧
    (∀ inst result store,
      (env.limiterNew ⟨Minute, 100⟩).Get (c.gw.stores inst) env.now env.ClientIP =
        .ok (result, store) →
      result.Reached = true →
      ∀ next, (RateLimiterManual env inst next c).status = 429 ∧
        isErrorEnvelope (RateLimiterManual env inst next c).body = true) ∧
    (∀ err, (ErrorHandler c err).status = 502 ∧
      (ErrorHandler c err).body = .text "Service unavailable") := by
  refine ⟨?_, ?_, ?_⟩
  · intro h next
    obtain ⟨m, hm⟩ := JWTAuth_of_fail env c h
    rw [hm next]
    exact ⟨rfl, rfl⟩
  · intro inst result store hl hr next
    rw [RateLimiterManual_eq, hl]
    simp only [hr, if_true]
    exact ⟨rfl, rfl⟩
  · intro err
    exact ⟨rfl, rfl⟩

/-- A request without a token on the orders route, and the 101st request of a client
at the limiter. -/
theorem rejection_bodies_witness :
    (JWTAuth (demoEnv 0) id (newContext demoGateway
      (demoRequest "GET" "/api/v1/orders/5" []))).status = 401 ∧
    isErrorEnvelope (JWTAuth (demoEnv 0) id (newContext demoGateway
      (demoRequest "GET" "/api/v1/orders/5" []))).body = true ∧
    (RateLimiterManual (demoEnv 0) .login id
      (newContext ⟨fun _ => [("limiter:10.0.0.1", ⟨100, 5⟩)], [], [], []⟩
        (demoRequest "POST" "/api/v1/auth/login" []))).status = 429 :=
  ⟨((rejection_bodies (demoEnv 0) (newContext demoGateway
      (demoRequest "GET" "/api/v1/orders/5" []))).1 (Or.inl (by decide)) id).1,
   ((rejection_bodies (demoEnv 0) (newContext demoGateway
      (demoRequest "GET" "/api/v1/orders/5" []))).1 (Or.inl (by decide)) id).2,
   ((rejection_bodies (demoEnv 0) (newContext ⟨fun _ => [("limiter:10.0.0.1", ⟨100, 5⟩)], [], [], []⟩
      (demoRequest "POST" "/api/v1/auth/login" []))).2.1 .login ⟨100, 0, 0, true⟩
      [("limiter:10.0.0.1", ⟨101, 5⟩)] rfl rfl id).1⟩

/-! ## Identity headers -/

/-- The request headers `JWTAuth` hands on, read by index: the two identity headers are
bound when their value is not empty, every other entry is the client's. -/
theorem withClaims_index (c : Context) (claims : MapClaims) (k : String) :
    (withClaims c claims).Request.Header.index k =
      if k = "X-User-Roles" ∧ rolesOf claims ≠ [] then some [Join (rolesOf claims) ","]
      else if k = "X-User-Id" ∧ userIDOf claims ≠ "" then some [userIDOf claims]
      else c.Request.Header.index k := by
  unfold withClaims
  simp only [logInfo_Request]
  by_cases hr : rolesOf claims = []
  · by_cases hu : userIDOf claims = ""
    · simp [hr, hu]
    · simp [hr, hu, index_Set, canon_user_id]
  · have hlen : (rolesOf claims).length > 0 := List.length_pos.2 hr
    simp only [hlen, if_true, setRequestHeader_Request_Header, index_Set, canon_user_roles,
      ne_eq, hr, not_false_eq_true, and_true]
    by_cases hk : k = "X-User-Roles"
    · simp [hk]
    · simp only [hk, if_false]
      by_cases hu : userIDOf claims = ""
      · simp [hu]
      · simp only [hu, ne_eq, not_false_eq_true, if_true, setRequestHeader_Request_Header,
          index_Set, canon_user_id, and_true]

/-- The loop of `JWTAuth` over a `[]interface{}` of strings keeps the non-empty ones, in
order. -/
theorem foldl_roles_strings (rs : List String) (acc : List String) :
    (rs.map GoVal.str).foldl appendRole acc = acc ++ rs.filter (fun s => s ≠ "") := by
  induction rs generalizing acc with
  | nil => simp
  | cons r rest ih =>
    simp only [List.map_cons, List.foldl_cons]
    rw [ih]
    by_cases h : r = ""
    · simp [appendRole, h]
    · simp [appendRole, h]

/-- The loop of `JWTAuth` over the items of a comma-joined string keeps the trimmed
items that are not empty, in order. -/
theorem foldl_roles_split (items : List String) (acc : List String) :
    items.foldl appendTrimmed acc =
      acc ++ (items.map TrimSpace).filter (fun s => s ≠ "") := by
  induction items generalizing acc with
  | nil => simp
  | cons r rest ih =>
    simp only [List.foldl_cons, List.map_cons]
    rw [ih]
    by_cases h : TrimSpace r = ""
    · simp [appendTrimmed, h]
    · simp [appendTrimmed, h]

/-- The roles of a claim that is a list of strings. -/
theorem rolesOf_arr (claims : MapClaims) (rs : List String)
    (h : mapGet "roles" claims = some (.arr (rs.map GoVal.str))) :
    rolesOf claims = rs.filter (fun s => s ≠ "") := by
  unfold rolesOf
  rw [h]
  simp only
  rw [foldl_roles_strings]
  simp

/-- The roles of a claim that is a string. -/
theorem rolesOf_str (claims : MapClaims) (raw : String)
    (h : mapGet "roles" claims = some (.str raw)) :
    rolesOf claims = ((SplitComma raw).map TrimSpace).filter (fun s => s ≠ "") := by
  unfold rolesOf
  rw [h]
  simp only
  rw [foldl_roles_split]
  simp

/-- C3, as the code has it. For every valid token whose roles claim is a list of
strings `r1..rn`, `JWTAuth` runs the next handler on a request whose `X-User-Roles`
header is the non-empty roles among them joined by commas, each verbatim and in the
original order, and the Director leaves that header as it is; when every role is
non-empty this is `r1,...,rn`; when none is, the header is not set. -/
theorem roles_header_from_list (env : Env) (c : Context) (token : Token) (rs : List String)
    (h1 : c.Request.Header.Get "Authorization" ≠ "")
    (h2 : HasPrefix (c.Request.Header.Get "Authorization") "Bearer " = true)
    (h3 : jwtParse env.jwt env.now (TrimPrefix (c.Request.Header.Get "Authorization") "Bearer ")
      (keyFunc env.cfg) = .ok token)
    (hroles : mapGet "roles" token.Claims = some (.arr (rs.map GoVal.str))) :
    (∀ next, JWTAuth env next c = next (withClaims c token.Claims)) ∧
    (rs.filter (fun r => r ≠ "") ≠ [] →
      (withClaims c token.Claims).Request.Header.index "X-User-Roles" =
        some [Join (rs.filter (fun r => r ≠ "")) ","] ∧
      ∀ url, (Director url (withClaims c token.Claims).Request).Header.index "X-User-Roles" =
        some [Join (rs.filter (fun r => r ≠ "")) ","]) ∧
    (rs ≠ [] → (∀ r ∈ rs, r ≠ "") →
      (withClaims c token.Claims).Request.Header.index "X-User-Roles" = some [Join rs ","] ∧
      ∀ url, (Director url (withClaims c token.Claims).Request).Header.index "X-User-Roles" =
        some [Join rs ","]) ∧
    (rs.filter (fun r => r ≠ "") = [] →
      (withClaims c token.Claims).Request.Header.index "X-User-Roles" =
        c.Request.Header.index "X-User-Roles") := by
  have hr := rolesOf_arr token.Claims rs hroles
  have hset : rs.filter (fun r => r ≠ "") ≠ [] →
      (withClaims c token.Claims).Request.Header.index "X-User-Roles" =
        some [Join (rs.filter (fun r => r ≠ "")) ","] ∧
      ∀ url, (Director url (withClaims c token.Claims).Request).Header.index "X-User-Roles" =
        some [Join (rs.filter (fun r => r ≠ "")) ","] := by
    intro hne
    have hidx : (withClaims c token.Claims).Request.Header.index "X-User-Roles" =
        some [Join (rs.filter (fun r => r ≠ "")) ","] := by
      rw [withClaims_index, hr, if_pos ⟨rfl, hne⟩]
    refine ⟨hidx, fun url => ?_⟩
    rw [Director_index, ← hidx]
    simp
  refine ⟨fun next => JWTAuth_of_ok env next c token h1 h2 h3, hset, ?_, ?_⟩
  · intro hne hall
    have hf : rs.filter (fun r => r ≠ "") = rs := by
      rw [List.filter_eq_self]
      intro r hr'
      simpa using hall r hr'
    have := hset (by rw [hf]; exact hne)
    rw [hf] at this
    exact this
  · intro hnil
    rw [withClaims_index, hr, hnil]
    simp

/-- The token `t-admin`, with the one role `admin`. -/
theorem roles_header_from_list_witness :
    (withClaims (newContext demoGateway (ordersRequest "t-admin" []))
      [("id", .num (float64OfNat 42)), ("roles", .arr [.str "admin"])]).Request.Header.index
        "X-User-Roles" = some ["admin"] :=
  ((roles_header_from_list (demoEnv 0) (newContext demoGateway (ordersRequest "t-admin" []))
    ⟨"HS256", true, [("id", .num (float64OfNat 42)), ("roles", .arr [.str "admin"])]⟩ ["admin"]
    (by decide) (by decide) rfl rfl).2.1 (by decide)).1

/-- C3, counterexample. The valid token `t-blank` has the roles `["", "admin"]`, which
joined by commas are `,admin`; the orders backend receives `X-User-Roles: admin`. -/
theorem empty_role_dropped :
    demoJwt.decode "t-blank" = some ⟨"HS256", true,
      [("id", .num (float64OfNat 7)), ("roles", .arr [.str "", .str "admin"])]⟩ ∧
    Join ["", "admin"] "," = ",admin" ∧
    ((ServeHTTP (demoEnv 0) .orders demoGateway (ordersRequest "t-blank" [])).gw.forwarded.map
      fun r => r.Header.index "X-User-Roles") = [some ["admin"]] := by
  refine ⟨rfl, by decide, by decide⟩

/-- A list of digits is its trailing zeros after what is left without them. -/
theorem dropWhile_zero_split (r : List Char) :
    List.replicate (r.length - (r.dropWhile (· = '0')).length) '0' ++ r.dropWhile (· = '0') = r := by
  induction r with
  | nil => rfl
  | cons c r ih =>
    by_cases hc : c = '0'
    · subst hc
      have hle : (r.dropWhile (· = '0')).length ≤ r.length :=
        (List.dropWhile_sublist _).length_le
      have hd : ('0' :: r).dropWhile (· = '0') = r.dropWhile (· = '0') := by
        simp [List.dropWhile_cons]
      rw [hd]
      have : ('0' :: r).length - (r.dropWhile (· = '0')).length =
          (r.length - (r.dropWhile (· = '0')).length) + 1 := by
        simp only [List.length_cons]; omega
      rw [this, List.replicate_succ, List.cons_append, ih]
    · have hd : (c :: r).dropWhile (· = '0') = c :: r := by
        simp [List.dropWhile_cons, hc]
      rw [hd]
      simp

/-- The decimal digits of a number, without their trailing zeros and with as many
zeros appended again, are the decimal digits. -/
theorem strip_zeros_pad (l : List Char) :
    (l.reverse.dropWhile (· = '0')).reverse ++
      List.replicate (l.length - (l.reverse.dropWhile (· = '0')).reverse.length) '0' = l := by
  have h := dropWhile_zero_split l.reverse
  have h2 := congrArg List.reverse h
  simp only [List.reverse_append, List.reverse_replicate, List.reverse_reverse,
    List.length_reverse] at h2
  simpa using h2

/-- The decimal digits of a number are at least one. -/
theorem toDigits_length_pos (n : Nat) : 0 < (Nat.toDigits 10 n).length := by
  unfold Nat.toDigits
  rw [Nat.toDigitsCore]
  split
  · simp
  · rw [Nat.toDigitsCore_lens_eq]; omega

/-- The verb `%v` prints the `float64` of a natural number below one million as its
decimal numeral. -/
theorem fmtV_float64OfNat_small (n : Nat) (h : n < 1000000) :
    fmtV (.num (float64OfNat n)) = toString n := by
  by_cases h0 : n = 0
  · subst h0; decide
  · have hlen : (Nat.toDigits 10 n).length ≤ 6 :=
      Nat.toDigitsCore_length 10 (by decide) (n + 1) n 6 (by simpa using h) (by decide)
    have hpos := toDigits_length_pos n
    have hstrip := strip_zeros_pad (Nat.toDigits 10 n)
    have hle : ((Nat.toDigits 10 n).reverse.dropWhile (· = '0')).reverse.length ≤
        (Nat.toDigits 10 n).length := by
      rw [List.length_reverse]
      calc _ ≤ (Nat.toDigits 10 n).reverse.length := (List.dropWhile_sublist _).length_le
        _ = _ := List.length_reverse _
    show FormatFloatG (float64OfNat n) = _
    unfold float64OfNat
    rw [if_neg h0]
    have hrepr0 : toString n = String.mk (Nat.toDigits 10 n) := rfl
    rw [hrepr0]
    generalize Nat.toDigits 10 n = ds at hstrip hle hlen hpos ⊢
    simp only
    generalize (ds.reverse.dropWhile (· = '0')).reverse = d at hstrip hle ⊢
    unfold FormatFloatG
    simp only
    have hc : ¬ (((ds.length : Int) - 1 < -4) ∨ ((ds.length : Int) - 1 ≥ 6)) := by omega
    rw [if_neg hc]
    have hprec : max ((if (d.length : Int) > (ds.length : Int) then (d.length : Int)
        else (d.length : Int)) - (ds.length : Int)) 0 = 0 := by
      split <;> omega
    rw [hprec]
    unfold fmtF
    simp only [Bool.false_eq_true, if_false, lt_self_iff_false, List.append_nil, List.nil_append]
    have hdp : (0 : Int) < (ds.length : Int) := by omega
    rw [if_pos hdp]
    simp only [Int.toNat_ofNat]
    rw [Nat.min_eq_left hle, List.take_length]
    rw [hstrip]

/-- For a token whose `id` claim is the `float64` of a number from 1 to 999999 the
`X-User-Id` entry of the request `JWTAuth` hands on is the decimal numeral. -/
theorem user_id_below_million (c : Context) (claims : MapClaims) (n : Nat)
    (h : n < 1000000) (hid : mapGet "id" claims = some (.num (float64OfNat n))) :
    (withClaims c claims).Request.Header.index "X-User-Id" = some [toString n] := by
  have hu : userIDOf claims = toString n := by
    unfold userIDOf
    rw [hid]
    exact fmtV_float64OfNat_small n h
  have hne : userIDOf claims ≠ "" := by
    rw [hu]
    intro he
    have hl : (toString n).length = ("" : String).length := congrArg String.length he
    have hpos := toDigits_length_pos n
    have hlen : (toString n).length = (Nat.toDigits 10 n).length := rfl
    have hz : ("" : String).length = 0 := rfl
    rw [hlen, hz] at hl
    omega
  rw [withClaims_index, if_neg (fun h => absurd h.1 (by decide)), if_pos ⟨rfl, hne⟩, hu]

/-- C4, at the failing input. A user with the ID 1000000 gets a token whose `id` claim
is decoded as the `float64` one million; for this token the orders backend receives
`X-User-ID: 1e+06`, not the decimal numeral `1000000`, while the ID 42 arrives as `42`. -/
theorem user_id_million :
    demoJwt.decode "t-million" = some ⟨"HS256", true,
      [("id", .num (float64OfNat 1000000)), ("roles", .arr [.str "engineer"])]⟩ ∧
    ((ServeHTTP (demoEnv 0) .orders demoGateway (ordersRequest "t-million" [])).gw.forwarded.map
      fun r => r.Header.Get "X-User-ID") = ["1e+06"] ∧
    toString (1000000 : Nat) = "1000000" ∧
    ((ServeHTTP (demoEnv 0) .orders demoGateway (ordersRequest "t-admin" [])).gw.forwarded.map
      fun r => r.Header.Get "X-User-ID") = ["42"] := by
  refine ⟨rfl, by decide, by decide, by decide⟩

/-- C5. For every token that verifies, `JWTAuth` runs the next handler whatever the
shape of the roles claim. When the claim is absent, or is `null`, a boolean, a number
or an object, the `X-User-Roles` entry of the request is left as it was: `JWTAuth`
sets no such header. When the claim is a string, the roles are the items between its
commas, trimmed of white space, without the empty ones, and they are joined into the
header when there is one at least. -/
theorem roles_shape_never_rejects (env : Env) (c : Context) (token : Token)
    (h1 : c.Request.Header.Get "Authorization" ≠ "")
    (h2 : HasPrefix (c.Request.Header.Get "Authorization") "Bearer " = true)
    (h3 : jwtParse env.jwt env.now (TrimPrefix (c.Request.Header.Get "Authorization") "Bearer ")
      (keyFunc env.cfg) = .ok token) :
    (∀ next, JWTAuth env next c = next (withClaims c token.Claims)) ∧
    ((mapGet "roles" token.Claims = none ∨ mapGet "roles" token.Claims = some .null ∨
      (∃ b, mapGet "roles" token.Claims = some (.bool b)) ∨
      (∃ f, mapGet "roles" token.Claims = some (.num f)) ∨
      (∃ kvs, mapGet "roles" token.Claims = some (.obj kvs))) →
      rolesOf token.Claims = [] ∧
      (withClaims c token.Claims).Request.Header.index "X-User-Roles" =
        c.Request.Header.index "X-User-Roles") ∧
    (∀ raw, mapGet "roles" token.Claims = some (.str raw) →
      rolesOf token.Claims = ((SplitComma raw).map TrimSpace).filter (fun s => s ≠ "") ∧
      (((SplitComma raw).map TrimSpace).filter (fun s => s ≠ "") ≠ [] →
        (withClaims c token.Claims).Request.Header.index "X-User-Roles" =
          some [Join (((SplitComma raw).map TrimSpace).filter (fun s => s ≠ "")) ","])) := by
  refine ⟨fun next => JWTAuth_of_ok env next c token h1 h2 h3, ?_, ?_⟩
  · intro h
    have hr : rolesOf token.Claims = [] := by
      unfold rolesOf
      rcases h with h | h | ⟨b, h⟩ | ⟨f, h⟩ | ⟨kvs, h⟩ <;> rw [h]
    refine ⟨hr, ?_⟩
    rw [withClaims_index, hr]
    simp
  · intro raw h
    have hr := rolesOf_str token.Claims raw h
    refine ⟨hr, fun hne => ?_⟩
    rw [withClaims_index, hr, if_pos ⟨rfl, hne⟩]

/-- The token `t-old`, without a roles claim, before it expires, and the token `t-csv`,
whose roles are the string ` manager, ,engineer `. -/
theorem roles_shape_never_rejects_witness :
    (withClaims (newContext demoGateway (ordersRequest "t-old" [("X-User-Roles", ["guest"])]))
      [("id", .num (float64OfNat 42)), ("exp", .num (float64OfNat 1000))]).Request.Header.index
        "X-User-Roles" = some ["guest"] ∧
    rolesOf [("id", .str "u7"), ("roles", .str " manager, ,engineer ")] =
      ["manager", "engineer"] :=
  ⟨by
    have h := ((roles_shape_never_rejects (demoEnv 0)
      (newContext demoGateway (ordersRequest "t-old" [("X-User-Roles", ["guest"])]))
      ⟨"HS256", true, [("id", .num (float64OfNat 42)), ("exp", .num (float64OfNat 1000))]⟩
      (by decide) (by decide) rfl).2.1 (Or.inl rfl)).2
    rw [h]
    decide,
   by
    have h := ((roles_shape_never_rejects (demoEnv 0)
      (newContext demoGateway (ordersRequest "t-csv" []))
      ⟨"HS256", true, [("id", .str "u7"), ("roles", .str " manager, ,engineer ")]⟩
      (by decide) (by decide) rfl).2.2 " manager, ,engineer " rfl).1
    rw [h]
    decide⟩

/-- What the chain after the Token Verifier passes to the reverse proxy: nothing, or
the request of the context, recorded as the Director rewrites it. -/
theorem tail_new_forwarded (env : Env) (inst : Route) (target : String) (c : Context)
    (h : c.aborted = false) :
    ∃ new, (runChain [RequestID env, Logging, CORS, RateLimiterManual env inst,
        setupProxy env target] c).gw.forwarded = c.gw.forwarded ++ new ∧
      ∀ r ∈ new, r = Director (env.urlParse target) c.Request := by
  by_cases hm : c.Request.Method = "OPTIONS"
  · obtain ⟨r, hr⟩ := tail_preflight env inst target c h hm
    refine ⟨[], ?_, by simp⟩
    rw [hr, logInfo_gw_forwarded, AbortWithStatus_gw, withCORS_gw, withRequestID_gw]
    simp
  · cases hl : (env.limiterNew ⟨Minute, 100⟩).Get (c.gw.stores inst) env.now env.ClientIP with
    | error e =>
      refine ⟨[], ?_, by simp⟩
      rw [(tail_store_error env inst target c e h hm hl).2.2.2.2]
      simp
    | ok p =>
      obtain ⟨result, store⟩ := p
      cases hr : result.Reached with
      | true =>
        refine ⟨[], ?_, by simp⟩
        rw [(tail_limited env inst target c result store h hm hl hr).2.2.2.2]
        simp
      | false =>
        refine ⟨[Director (env.urlParse target) c.Request], ?_, by simp⟩
        rw [(tail_proxied env inst target c result store h hm hl hr).2.2]

@[simp] theorem logInfo_gw_sent (c : Context) (r : LogRecord) :
    (c.logInfo r).gw.sent = c.gw.sent := rfl

@[simp] theorem withStore_gw_sent (c : Context) (inst : Route) (store : Store) :
    (c.withStore inst store).gw.sent = c.gw.sent := rfl

@[simp] theorem withClaims_gw_sent (c : Context) (claims : MapClaims) :
    (withClaims c claims).gw.sent = c.gw.sent := by
  unfold withClaims
  simp only [logInfo_gw_sent]
  split_ifs <;> rfl

/-- Reading a map after the entries of a key are removed. -/
theorem mapGet_filter_ne {β : Type} (k key : String) (m : List (String × β)) :
    mapGet k (m.filter fun kv => decide (kv.1 ≠ key)) = if k = key then none else mapGet k m := by
  induction m with
  | nil => simp [mapGet]
  | cons p m ih =>
    obtain ⟨a, v⟩ := p
    by_cases ha : a = key
    · subst ha
      by_cases hk : k = a
      · subst hk; simpa [List.filter, mapGet] using ih
      · have hk2 : ¬ a = k := fun e => hk e.symm
        simpa [List.filter, mapGet, hk, hk2] using ih
    · by_cases hk : k = key
      · subst hk
        simpa [List.filter, mapGet, ha] using ih
      · by_cases hak : a = k
        · subst hak; simp [List.filter, mapGet, ha]
        · simpa [List.filter, mapGet, ha, hak, hk] using ih

/-- Reading a header map by index after `Del`. -/
theorem index_Del (h : Header) (key k : String) :
    (h.Del key).index k = if k = CanonicalMIMEHeaderKey key then none else h.index k := by
  unfold Header.Del Header.index
  exact mapGet_filter_ne k _ h.entries

/-- Reading a header map by index after a sequence of `Del`. -/
theorem index_foldl_Del (keys : List String) (h : Header) (k : String) :
    (keys.foldl Header.Del h).index k =
      if (keys.any fun a => decide (CanonicalMIMEHeaderKey a = k)) = true then none
      else h.index k := by
  induction keys generalizing h with
  | nil => simp
  | cons a keys ih =>
    rw [List.foldl_cons, ih, index_Del]
    by_cases h1 : (keys.any fun a => decide (CanonicalMIMEHeaderKey a = k)) = true
    · simp [h1]
    · by_cases h2 : CanonicalMIMEHeaderKey a = k
      · simp [h2]
      · have h3 : ¬ k = CanonicalMIMEHeaderKey a := fun e => h2 e.symm
        simp [h1, h2, h3]

/-- What `removeHopByHopHeaders` leaves of a header that is not hop-by-hop: nothing when
the `Connection` header lists it, its values otherwise. -/
theorem index_removeHopByHopHeaders (h : Header) (k : String)
    (hk : (hopHeaders.any fun a => decide (CanonicalMIMEHeaderKey a = k)) = false) :
    (removeHopByHopHeaders h).index k = if connectionLists h k = true then none else h.index k := by
  unfold removeHopByHopHeaders
  rw [index_foldl_Del, hk, if_neg (by decide), index_foldl_Del]
  rfl

/-- What the reverse proxy leaves of a header it neither removes as hop-by-hop nor
writes itself: nothing when the `Connection` header lists it, its values otherwise. -/
theorem index_outboundHeader (remoteAddr : String) (inbound h : Header) (k : String)
    (hk : (hopHeaders.any fun a => decide (CanonicalMIMEHeaderKey a = k)) = false)
    (hf : k ≠ "X-Forwarded-For") (hu : k ≠ "User-Agent") :
    (outboundHeader remoteAddr inbound h).index k =
      if connectionLists h k = true then none else h.index k := by
  have hte : k ≠ CanonicalMIMEHeaderKey "Te" := fun e => by
    rw [e] at hk; exact absurd hk (by decide)
  have hco : k ≠ CanonicalMIMEHeaderKey "Connection" := fun e => by
    rw [e] at hk; exact absurd hk (by decide)
  have hup : k ≠ CanonicalMIMEHeaderKey "Upgrade" := fun e => by
    rw [e] at hk; exact absurd hk (by decide)
  have hf1 : k ≠ CanonicalMIMEHeaderKey "X-Forwarded-For" := hf
  have hu1 : k ≠ CanonicalMIMEHeaderKey "User-Agent" := hu
  have e1 : ∀ h1 : Header,
      (if HeaderValuesContainsToken ((inbound.index "Te").getD []) "trailers" = true
        then h1.Set "Te" "trailers" else h1).index k = h1.index k := by
    intro h1
    split
    · rw [index_Set, if_neg hte]
    · rfl
  have e2 : ∀ h1 : Header,
      (if upgradeType h ≠ "" then (h1.Set "Connection" "Upgrade").Set "Upgrade" (upgradeType h)
        else h1).index k = h1.index k := by
    intro h1
    split
    · rw [index_Set, if_neg hup, index_Set, if_neg hco]
    · rfl
  have e3 : ∀ h1 : Header, (addForwardedFor remoteAddr h1).index k = h1.index k := by
    intro h1
    unfold addForwardedFor
    split
    · split
      · rfl
      · rw [index_Set, if_neg hf1]
      · rw [index_Set, if_neg hf1]
    · rfl
  have e4 : ∀ h1 : Header,
      (if (h1.index "User-Agent").isNone = true then h1.Set "User-Agent" "" else h1).index k =
        h1.index k := by
    intro h1
    split
    · rw [index_Set, if_neg hu1]
    · rfl
  unfold outboundHeader
  simp only
  rw [e4, e3, e2, e1, index_removeHopByHopHeaders h k hk]

/-- The `Connection` header is read by index only. -/
theorem connectionLists_congr (h1 h2 : Header) (k : String)
    (h : h1.index "Connection" = h2.index "Connection") :
    connectionLists h1 k = connectionLists h2 k := by
  unfold connectionLists connectionOptions
  rw [h]

/-- The identity headers of the request the proxy hands to the transport: nothing when
the `Connection` header of the request lists the header, otherwise what the request
holds. -/
theorem outboundRequest_index (url : URL) (req : Request) (k : String)
    (hk : (hopHeaders.any fun a => decide (CanonicalMIMEHeaderKey a = k)) = false)
    (hf : k ≠ "X-Forwarded-For") (hu : k ≠ "User-Agent") (hr : k ≠ "X-Request-Id") :
    (outboundRequest url req).Header.index k =
      if connectionLists req.Header k = true then none else req.Header.index k := by
  have hc : (Director url req).Header.index "Connection" = req.Header.index "Connection" := by
    rw [Director_index, if_neg (by decide), if_neg (by decide)]
  have hd : (Director url req).Header.index k = req.Header.index k := by
    rw [Director_index, if_neg hr, if_neg hu]
  show (outboundHeader req.RemoteAddr req.Header (Director url req).Header).index k = _
  rw [index_outboundHeader _ _ _ k hk hf hu, connectionLists_congr _ _ k hc, hd]

/-- What the chain after the Token Verifier hands to the transport: nothing, or the
request of the context as the reverse proxy sends it. -/
theorem tail_new_sent (env : Env) (inst : Route) (target : String) (c : Context)
    (h : c.aborted = false) :
    ∃ new, (runChain [RequestID env, Logging, CORS, RateLimiterManual env inst,
        setupProxy env target] c).gw.sent = c.gw.sent ++ new ∧
      ∀ r ∈ new, r = outboundRequest (env.urlParse target) c.Request := by
  have hgw : (c.withRequestID env).withCORS.gw = c.gw := by
    rw [withCORS_gw, withRequestID_gw]
  by_cases hm : c.Request.Method = "OPTIONS"
  · obtain ⟨r, hr⟩ := tail_preflight env inst target c h hm
    refine ⟨[], ?_, by simp⟩
    rw [hr, logInfo_gw_sent, AbortWithStatus_gw, withCORS_gw, withRequestID_gw]
    simp
  · obtain ⟨r, hr⟩ := tail_eq env inst target c h hm
    cases hl : (env.limiterNew ⟨Minute, 100⟩).Get (c.gw.stores inst) env.now env.ClientIP with
    | error e =>
      refine ⟨[], ?_, by simp⟩
      rw [hr, limiter_proxy_error env inst target _ e (by rw [hgw]; exact hl),
        logInfo_gw_sent, AbortWithStatusJSON_gw, hgw]
      simp
    | ok p =>
      obtain ⟨result, store⟩ := p
      cases hre : result.Reached with
      | true =>
        refine ⟨[], ?_, by simp⟩
        rw [hr, limiter_proxy_limited env inst target _ result store (by rw [hgw]; exact hl) hre,
          logInfo_gw_sent, AbortWithStatusJSON_gw, withStore_gw_sent, hgw]
        simp
      | false =>
        have hab : (c.withRequestID env).withCORS.aborted = false := by
          rw [withCORS_aborted, withRequestID_aborted, h]
        have hreq : (c.withRequestID env).withCORS.Request = c.Request := by
          rw [withCORS_Request, withRequestID_Request]
        obtain ⟨next, hn⟩ := limiter_proxy_passed env inst target _ result store hab
          (by rw [hgw]; exact hl) hre
        refine ⟨if IsPrint (upgradeType (Director (env.urlParse target) c.Request).Header) then
          [outboundRequest (env.urlParse target) c.Request] else [], ?_, ?_⟩
        · rw [hr, hn, logInfo_gw_sent, setupProxy_sent, withStore_gw_sent, withStore_Request,
            hgw, hreq]
        · intro r hrn
          split at hrn
          · exact List.mem_singleton.1 hrn
          · exact absurd hrn (List.not_mem_nil r)

/-- The reverse proxy on sample login requests: the headers the `Connection` header
lists and the hop-by-hop headers do not go to the backend and the peer is appended to
`X-Forwarded-For`; the headers of an upgrade are put back; a request that asks for an
upgrade to a protocol whose name is not printable is answered 502 and nothing goes to
the backend. -/
theorem reverse_proxy_samples :
    ((ServeHTTP (demoEnv 0) .login demoGateway (demoRequest "POST" "/api/v1/auth/login"
        [("Connection", ["keep-alive, X-Trace"]), ("Keep-Alive", ["timeout=5"]),
         ("X-Trace", ["1"]), ("X-Forwarded-For", ["192.0.2.7"])])).gw.sent.map
      fun r => r.Header.entries) =
      [[("X-Forwarded-For", ["192.0.2.7, 10.0.0.1"]), ("X-Request-Id", [""]),
        ("User-Agent", [""])]] ∧
    ((ServeHTTP (demoEnv 0) .login demoGateway (demoRequest "POST" "/api/v1/auth/login"
        [("Connection", ["Upgrade"]), ("Upgrade", ["websocket"])])).gw.sent.map
      fun r => r.Header.entries) =
      [[("X-Request-Id", [""]), ("User-Agent", [""]), ("Connection", ["Upgrade"]),
        ("Upgrade", ["websocket"]), ("X-Forwarded-For", ["10.0.0.1"])]] ∧
    (ServeHTTP (demoEnv 0) .login demoGateway (demoRequest "POST" "/api/v1/auth/login"
        [("Connection", ["Upgrade"]), ("Upgrade", ["wébsocket"])])).status = 502 ∧
    (ServeHTTP (demoEnv 0) .login demoGateway (demoRequest "POST" "/api/v1/auth/login"
        [("Connection", ["Upgrade"]), ("Upgrade", ["wébsocket"])])).gw.sent = [] := by
  refine ⟨by decide, by decide, by decide, by decide⟩

/-- C2, as the code has it. On the admin and orders routes, for a request whose
bearer token verifies, every request the reverse proxy hands to the backend carries
as `X-User-Id` nothing but the string of the token's `id` claim when that string is
not empty, and as `X-User-Roles` nothing but the token's roles joined by commas when
there is one at least, whatever values the client supplied for these headers; the
header is there unless the `Connection` header of the client lists it, in which case
the proxy removes it as hop-by-hop. On the login route, which has no Token Verifier,
both headers reach the backend as the client sent them, unless the `Connection`
header lists them. -/
theorem identity_headers_from_token (env : Env) :
    (∀ route auth token, route ≠ Route.login →
      auth ≠ "" → HasPrefix auth "Bearer " = true →
      jwtParse env.jwt env.now (TrimPrefix auth "Bearer ") (keyFunc env.cfg) = .ok token →
      ∀ gw req, req.Header.Get "Authorization" = auth →
        ∃ new, (ServeHTTP env route gw req).gw.sent = gw.sent ++ new ∧
          ∀ r ∈ new,
            (userIDOf token.Claims ≠ "" →
              r.Header.index "X-User-Id" =
                if connectionLists req.Header "X-User-Id" = true then none
                else some [userIDOf token.Claims]) ∧
            (rolesOf token.Claims ≠ [] →
              r.Header.index "X-User-Roles" =
                if connectionLists req.Header "X-User-Roles" = true then none
                else some [Join (rolesOf token.Claims) ","])) ∧
    (∀ gw req,
      ∃ new, (ServeHTTP env .login gw req).gw.sent = gw.sent ++ new ∧
        ∀ r ∈ new,
          r.Header.index "X-User-Id" =
            (if connectionLists req.Header "X-User-Id" = true then none
              else req.Header.index "X-User-Id") ∧
          r.Header.index "X-User-Roles" =
            (if connectionLists req.Header "X-User-Roles" = true then none
              else req.Header.index "X-User-Roles")) := by
  constructor
  · intro route auth token hr h1 h2 h3 gw req hreq
    subst hreq
    rw [ServeHTTP_protected env route gw req token hr h1 h2 h3]
    obtain ⟨new, hnew, hall⟩ := tail_new_sent env route (targetOf env.cfg route)
      (withClaims (newContext gw req) token.Claims) (by simp [newContext])
    have hc : (withClaims (newContext gw req) token.Claims).Request.Header.index "Connection" =
        req.Header.index "Connection" := by
      rw [withClaims_index, if_neg (fun h => absurd h.1 (by decide)),
        if_neg (fun h => absurd h.1 (by decide))]
      rfl
    refine ⟨new, ?_, ?_⟩
    · rw [hnew, withClaims_gw_sent]; rfl
    · intro r hrn
      rw [hall r hrn]
      constructor
      · intro hu
        have hx : (withClaims (newContext gw req) token.Claims).Request.Header.index "X-User-Id" =
            some [userIDOf token.Claims] := by
          rw [withClaims_index, if_neg (fun h => absurd h.1 (by decide)), if_pos ⟨rfl, hu⟩]
        rw [outboundRequest_index _ _ _ (by decide) (by decide) (by decide) (by decide),
          connectionLists_congr _ _ _ hc, hx]
      · intro hro
        have hx : (withClaims (newContext gw req) token.Claims).Request.Header.index
            "X-User-Roles" = some [Join (rolesOf token.Claims) ","] := by
          rw [withClaims_index, if_pos ⟨rfl, hro⟩]
        rw [outboundRequest_index _ _ _ (by decide) (by decide) (by decide) (by decide),
          connectionLists_congr _ _ _ hc, hx]
  · intro gw req
    rw [ServeHTTP_login]
    obtain ⟨new, hnew, hall⟩ := tail_new_sent env .login (targetOf env.cfg .login)
      (newContext gw req) rfl
    refine ⟨new, hnew, ?_⟩
    intro r hrn
    rw [hall r hrn]
    constructor
    · rw [outboundRequest_index _ _ _ (by decide) (by decide) (by decide) (by decide)]; rfl
    · rw [outboundRequest_index _ _ _ (by decide) (by decide) (by decide) (by decide)]; rfl

/-- The token `t-admin` with client headers that claim another identity: one request
goes to the backend, with the identity of the token. -/
theorem identity_headers_from_token_witness :
    ((ServeHTTP (demoEnv 0) .orders demoGateway
        (ordersRequest "t-admin" [("X-User-Id", ["1"]), ("X-User-Roles", ["superadmin"])])
        ).gw.sent.map fun r => (r.Header.index "X-User-Id", r.Header.index "X-User-Roles")) =
      [(some ["42"], some ["admin"])] ∧
    ∃ new, (ServeHTTP (demoEnv 0) .orders demoGateway
        (ordersRequest "t-admin" [("X-User-Id", ["1"]), ("X-User-Roles", ["superadmin"])])
        ).gw.sent = demoGateway.sent ++ new ∧
      ∀ r ∈ new,
        (userIDOf [("id", .num (float64OfNat 42)), ("roles", .arr [.str "admin"])] ≠ "" →
          r.Header.index "X-User-Id" =
            if connectionLists (ordersRequest "t-admin"
                [("X-User-Id", ["1"]), ("X-User-Roles", ["superadmin"])]).Header "X-User-Id" = true
            then none
            else some [userIDOf [("id", .num (float64OfNat 42)), ("roles", .arr [.str "admin"])]]) ∧
        (rolesOf [("id", .num (float64OfNat 42)), ("roles", .arr [.str "admin"])] ≠ [] →
          r.Header.index "X-User-Roles" =
            if connectionLists (ordersRequest "t-admin"
                [("X-User-Id", ["1"]), ("X-User-Roles", ["superadmin"])]).Header "X-User-Roles" = true
            then none
            else some [Join (rolesOf [("id", .num (float64OfNat 42)), ("roles", .arr [.str "admin"])])
              ","]) :=
  ⟨by decide,
   (identity_headers_from_token (demoEnv 0)).1 .orders "Bearer t-admin"
    ⟨"HS256", true, [("id", .num (float64OfNat 42)), ("roles", .arr [.str "admin"])]⟩
    (by decide) (by decide) (by decide) rfl demoGateway
    (ordersRequest "t-admin" [("X-User-Id", ["1"]), ("X-User-Roles", ["superadmin"])])
    (by decide)⟩

/-- C2, counterexample. Values the client sends for `X-User-ID` and `X-User-Roles`
reach the backend. On the login route both do: two requests that differ only in the
client's `X-User-ID` yield different outbound identity headers. On the orders route
the client's `X-User-Roles` does, beside the verified id, when the verified token
`t-noroles` has no role, and the client's `X-User-ID` does when the verified token
`t-anon` has no `id` claim. And the identity of the verified token `t-admin` does
not reach the backend when the `Connection` header of the client lists the two
headers. -/
theorem client_identity_reaches_backend :
    ((ServeHTTP (demoEnv 0) .login demoGateway
      (demoRequest "POST" "/api/v1/auth/login"
        [("X-User-Id", ["1"]), ("X-User-Roles", ["admin"])])).gw.sent.map
      fun r => (r.Header.Get "X-User-ID", r.Header.Get "X-User-Roles")) = [("1", "admin")] ∧
    ((ServeHTTP (demoEnv 0) .login demoGateway
      (demoRequest "POST" "/api/v1/auth/login"
        [("X-User-Id", ["2"]), ("X-User-Roles", ["admin"])])).gw.sent.map
      fun r => (r.Header.Get "X-User-ID", r.Header.Get "X-User-Roles")) = [("2", "admin")] ∧
    ((ServeHTTP (demoEnv 0) .orders demoGateway
      (ordersRequest "t-noroles" [("X-User-Roles", ["admin"])])).gw.sent.map
      fun r => (r.Header.Get "X-User-ID", r.Header.Get "X-User-Roles")) = [("7", "admin")] ∧
    ((ServeHTTP anonEnv .orders demoGateway
      (ordersRequest "t-anon" [("X-User-Id", ["1"])])).gw.sent.map
      fun r => (r.Header.Get "X-User-ID", r.Header.Get "X-User-Roles")) = [("1", "engineer")] ∧
    ((ServeHTTP (demoEnv 0) .orders demoGateway
      (ordersRequest "t-admin" [("Connection", ["X-User-Id, X-User-Roles"])])).gw.sent.map
      fun r => (r.Header.index "X-User-Id", r.Header.index "X-User-Roles")) = [(none, none)] := by
  refine ⟨?_, ?_, ?_, ?_, ?_⟩ <;> decide

/-! ## The rate limiter over a sequence of requests -/

/-- The memory store on a missing or expired counter: the count restarts at one. -/
theorem Increment_fresh (store : Store) (now : Int) (key : String) (d : Int)
    (h : mapGet key store = none ∨
      ∃ c, mapGet key store = some c ∧ (c.expiration = 0 ∨ c.expiration ≤ now)) :
    Increment store now key 1 d = (⟨1, now + d⟩, mapPut key ⟨1, now + d⟩ store) := by
  unfold Increment
  rcases h with h | ⟨c, h, hc⟩
  · rw [h]
  · rw [h]
    have : c.expiration = 0 ∨ now ≥ c.expiration := hc
    simp only [this, if_true]

/-- The memory store on a live counter: the count goes up by one, the expiration stays. -/
theorem Increment_live (store : Store) (now : Int) (key : String) (d v e : Int)
    (h : mapGet key store = some ⟨v, e⟩) (he : e ≠ 0) (hnow : now < e) :
    Increment store now key 1 d = (⟨v + 1, e⟩, mapPut key ⟨v + 1, e⟩ store) := by
  unfold Increment
  rw [h]
  have : ¬ (e = 0 ∨ now ≥ e) := by
    intro h'
    rcases h' with h' | h'
    · exact he h'
    · exact absurd hnow (not_lt.2 h')
  simp only [this, if_false]

/-- A request that gets as far as the rate limiter, with the memory store: the counter
of its client is incremented in the store of its route; up to the limit the request is
handed to the proxy, beyond it the answer is 429. -/
theorem serve_admitted (env : Env) (route : Route) (gw : Gateway) (req : Request)
    (hmem : env.limiterNew = memoryLimiter) (hadm : Admitted env route req) :
    (ServeHTTP env route gw req).gw.stores = Function.update gw.stores route
      (Increment (gw.stores route) env.now ("limiter" ++ ":" ++ env.ClientIP) 1 Minute).2 ∧
    ((Increment (gw.stores route) env.now ("limiter" ++ ":" ++ env.ClientIP) 1 Minute).1.value
        ≤ 100 →
      (ServeHTTP env route gw req).aborted = false ∧
      ∃ fwd, (ServeHTTP env route gw req).gw.forwarded = gw.forwarded ++ [fwd]) ∧
    (100 < (Increment (gw.stores route) env.now ("limiter" ++ ":" ++ env.ClientIP) 1
        Minute).1.value →
      (ServeHTTP env route gw req).status = 429 ∧
      (ServeHTTP env route gw req).body =
        .json (errorEnvelope "rate_limit_exceeded" "Too many requests") ∧
      (ServeHTTP env route gw req).aborted = true ∧
      (ServeHTTP env route gw req).gw.forwarded = gw.forwarded) := by
  obtain ⟨hm, hauth⟩ := hadm
  have hc0 : ∃ c0 : Context, c0.aborted = false ∧ c0.Request.Method ≠ "OPTIONS" ∧
      c0.gw.stores = gw.stores ∧ c0.gw.forwarded = gw.forwarded ∧
      ServeHTTP env route gw req = runChain [RequestID env, Logging, CORS,
        RateLimiterManual env route, setupProxy env (targetOf env.cfg route)] c0 := by
    by_cases hr : route = .login
    · subst hr
      exact ⟨newContext gw req, rfl, hm, rfl, rfl, ServeHTTP_login env gw req⟩
    · rcases hauth with hl | ⟨token, h1, h2, h3⟩
      · exact absurd hl hr
      · refine ⟨withClaims (newContext gw req) token.Claims, ?_, ?_, ?_, ?_,
          ServeHTTP_protected env route gw req token hr h1 h2 h3⟩
        · rw [withClaims_aborted]; rfl
        · rw [withClaims_Method]; exact hm
        · rw [withClaims_gw_stores]; rfl
        · rw [withClaims_gw_forwarded]; rfl
  obtain ⟨c0, ha, hm0, hst, hfw, hrun⟩ := hc0
  have hl : (env.limiterNew ⟨Minute, 100⟩).Get (c0.gw.stores route) env.now env.ClientIP =
      .ok (GetContextFromState ⟨Minute, 100⟩
        (Increment (gw.stores route) env.now ("limiter" ++ ":" ++ env.ClientIP) 1
          Minute).1.expiration
        (Increment (gw.stores route) env.now ("limiter" ++ ":" ++ env.ClientIP) 1
          Minute).1.value,
        (Increment (gw.stores route) env.now ("limiter" ++ ":" ++ env.ClientIP) 1 Minute).2) := by
    rw [hmem, hst]
    rfl
  rw [hrun]
  by_cases hv : (Increment (gw.stores route) env.now ("limiter" ++ ":" ++ env.ClientIP) 1
      Minute).1.value ≤ 100
  · have hreach : (GetContextFromState ⟨Minute, 100⟩
        (Increment (gw.stores route) env.now ("limiter" ++ ":" ++ env.ClientIP) 1
          Minute).1.expiration
        (Increment (gw.stores route) env.now ("limiter" ++ ":" ++ env.ClientIP) 1
          Minute).1.value).Reached = false := by
      unfold GetContextFromState
      rw [if_pos hv]
    obtain ⟨p1, p2, p3⟩ := tail_proxied env route (targetOf env.cfg route) c0 _ _ ha hm0 hl hreach
    refine ⟨?_, ?_, ?_⟩
    · rw [p2, hst]
    · intro _
      exact ⟨p1, ⟨_, by rw [p3, hfw]⟩⟩
    · intro h100
      exact absurd hv (not_le.2 h100)
  · have hreach : (GetContextFromState ⟨Minute, 100⟩
        (Increment (gw.stores route) env.now ("limiter" ++ ":" ++ env.ClientIP) 1
          Minute).1.expiration
        (Increment (gw.stores route) env.now ("limiter" ++ ":" ++ env.ClientIP) 1
          Minute).1.value).Reached = true := by
      unfold GetContextFromState
      rw [if_neg hv]
    obtain ⟨p1, p2, p3, p4, p5⟩ :=
      tail_limited env route (targetOf env.cfg route) c0 _ _ ha hm0 hl hreach
    refine ⟨?_, ?_, ?_⟩
    · rw [p4, hst]
    · intro h100
      exact absurd h100 hv
    · intro _
      exact ⟨p1, p2, p3, by rw [p5, hfw]⟩

/-- One more request of the client on the route, inside the window: the count goes up
by one; the request is handed to the proxy when fewer than 100 were counted before it
and is answered 429 otherwise. -/
theorem bucket_step (env : Env) (route : Route) (gw : Gateway) (req : Request)
    (key : String) (t0 : Int) (n : Nat)
    (h0 : 0 ≤ t0) (hmem : env.limiterNew = memoryLimiter) (hadm : Admitted env route req)
    (hkey : env.ClientIP = key) (hlo : t0 ≤ env.now) (hhi : env.now < t0 + Minute)
    (hb : BucketCount gw route key t0 n) :
    BucketCount (ServeHTTP env route gw req).gw route key t0 (n + 1) ∧
    (n < 100 →
      (ServeHTTP env route gw req).aborted = false ∧
      ∃ fwd, (ServeHTTP env route gw req).gw.forwarded = gw.forwarded ++ [fwd]) ∧
    (100 ≤ n →
      (ServeHTTP env route gw req).status = 429 ∧
      (ServeHTTP env route gw req).body =
        .json (errorEnvelope "rate_limit_exceeded" "Too many requests") ∧
      (ServeHTTP env route gw req).aborted = true ∧
      (ServeHTTP env route gw req).gw.forwarded = gw.forwarded) := by
  obtain ⟨hst, hpass, hlim⟩ := serve_admitted env route gw req hmem hadm
  rw [hkey] at hst hpass hlim
  have hminute : (0 : Int) < Minute := by unfold Minute; norm_num
  rcases hb with ⟨hn, hfresh⟩ | ⟨hn, e, hbk, he⟩
  · subst hn
    have hinc := Increment_fresh (gw.stores route) env.now ("limiter" ++ ":" ++ key) Minute
      (by
        rcases hfresh with h | ⟨c, h, hc⟩
        · exact Or.inl h
        · refine Or.inr ⟨c, h, ?_⟩
          rcases hc with hc | hc
          · exact Or.inl hc
          · exact Or.inr (le_trans hc hlo))
    rw [hinc] at hst hpass hlim
    refine ⟨Or.inr ⟨by decide, env.now + Minute, ?_, by linarith⟩, ?_, ?_⟩
    · unfold bucket
      rw [hst, Function.update_same, mapGet_mapPut, if_pos rfl]
      rfl
    · intro _
      exact hpass (by norm_num)
    · intro h
      exact absurd h (by decide)
  · have hbk' : mapGet ("limiter" ++ ":" ++ key) (gw.stores route) = some ⟨(n : Int), e⟩ := hbk
    have hinc := Increment_live (gw.stores route) env.now ("limiter" ++ ":" ++ key) Minute
      (n : Int) e hbk' (by intro h; rw [h] at he; linarith) (by linarith)
    rw [hinc] at hst hpass hlim
    refine ⟨Or.inr ⟨Nat.succ_pos n, e, ?_, he⟩, ?_, ?_⟩
    · unfold bucket
      rw [hst, Function.update_same, mapGet_mapPut, if_pos rfl]
      simp
    · intro h
      exact hpass (by simp only; omega)
    · intro h
      exact hlim (by simp only; omega)

/-- A request on another route leaves the bucket of the route alone. -/
theorem bucket_other_route (env : Env) (route other : Route) (gw : Gateway) (req : Request)
    (key : String) (t0 : Int) (n : Nat)
    (hmem : env.limiterNew = memoryLimiter) (hadm : Admitted env other req)
    (hne : other ≠ route) (hb : BucketCount gw route key t0 n) :
    BucketCount (ServeHTTP env other gw req).gw route key t0 n := by
  obtain ⟨hst, _, _⟩ := serve_admitted env other gw req hmem hadm
  have hsame : bucket (ServeHTTP env other gw req).gw route key = bucket gw route key := by
    unfold bucket
    rw [hst, Function.update_noteq (fun h => hne h.symm)]
  unfold BucketCount at hb ⊢
  rw [hsame]
  exact hb

/-- After a list of requests of one client inside one window, whatever their routes,
the bucket of a route has counted the requests made on that route. -/
theorem bucket_after (route : Route) (key : String) (t0 : Int) (h0 : 0 ≤ t0)
    (xs : List (Env × Route × Request)) :
    ∀ (gw : Gateway) (n : Nat),
      (∀ x ∈ xs, x.1.limiterNew = memoryLimiter ∧ x.1.ClientIP = key ∧ t0 ≤ x.1.now ∧
        x.1.now < t0 + Minute ∧ Admitted x.1 x.2.1 x.2.2) →
      BucketCount gw route key t0 n →
      BucketCount (gatewayAfter gw xs) route key t0
        (n + (xs.filter fun x => x.2.1 = route).length) := by
  induction xs with
  | nil =>
    intro gw n _ hb
    simpa [gatewayAfter] using hb
  | cons x rest ih =>
    intro gw n hall hb
    obtain ⟨hmem, hkey, hlo, hhi, hadm⟩ := hall x (List.mem_cons_self _ _)
    have hrest : ∀ y ∈ rest, y.1.limiterNew = memoryLimiter ∧ y.1.ClientIP = key ∧
        t0 ≤ y.1.now ∧ y.1.now < t0 + Minute ∧ Admitted y.1 y.2.1 y.2.2 :=
      fun y hy => hall y (List.mem_cons_of_mem _ hy)
    have hfold : gatewayAfter gw (x :: rest) =
        gatewayAfter (ServeHTTP x.1 x.2.1 gw x.2.2).gw rest := rfl
    rw [hfold]
    by_cases hr : x.2.1 = route
    · have hstep := (bucket_step x.1 route gw x.2.2 key t0 n h0 hmem (hr ▸ hadm) hkey hlo hhi
        hb).1
      have := ih (ServeHTTP x.1 x.2.1 gw x.2.2).gw (n + 1) hrest (by rw [hr]; exact hstep)
      have hcount : n + ((x :: rest).filter fun x => x.2.1 = route).length =
          n + 1 + (rest.filter fun x => x.2.1 = route).length := by
        simp [List.filter_cons, hr]; omega
      rw [hcount]
      exact this
    · have hstep := bucket_other_route x.1 route x.2.1 gw x.2.2 key t0 n hmem hadm hr hb
      have := ih (ServeHTTP x.1 x.2.1 gw x.2.2).gw n hrest hstep
      have hcount : n + ((x :: rest).filter fun x => x.2.1 = route).length =
          n + (rest.filter fun x => x.2.1 = route).length := by
        simp [List.filter_cons, hr]
      rw [hcount]
      exact this

/-- The requests of one client on one route inside one window, served in turn from a
state in which `n` were counted: request `i` is handed to the proxy while `n + i` is
below 100 and is answered 429 from then on. -/
theorem serveAll_one_route (route : Route) (key : String) (t0 : Int) (h0 : 0 ≤ t0)
    (xs : List (Env × Route × Request)) :
    ∀ (gw : Gateway) (n : Nat),
      (∀ x ∈ xs, x.2.1 = route ∧ x.1.limiterNew = memoryLimiter ∧ x.1.ClientIP = key ∧
        t0 ≤ x.1.now ∧ x.1.now < t0 + Minute ∧ Admitted x.1 x.2.1 x.2.2) →
      BucketCount gw route key t0 n →
      ∀ (i : Nat) (c : Context), (serveAll gw xs)[i]? = some c →
        (n + i < 100 →
          c.aborted = false ∧ c.gw.forwarded.length = gw.forwarded.length + (i + 1)) ∧
        (100 ≤ n + i →
          c.status = 429 ∧
          c.body = .json (errorEnvelope "rate_limit_exceeded" "Too many requests") ∧
          c.aborted = true ∧ c.gw.forwarded.length = gw.forwarded.length + (100 - n)) := by
  induction xs with
  | nil =>
    intro gw n _ _ i c hc
    simp [serveAll] at hc
  | cons x rest ih =>
    intro gw n hall hb i c hc
    obtain ⟨hr, hmem, hkey, hlo, hhi, hadm⟩ := hall x (List.mem_cons_self _ _)
    have hrest : ∀ y ∈ rest, y.2.1 = route ∧ y.1.limiterNew = memoryLimiter ∧
        y.1.ClientIP = key ∧ t0 ≤ y.1.now ∧ y.1.now < t0 + Minute ∧ Admitted y.1 y.2.1 y.2.2 :=
      fun y hy => hall y (List.mem_cons_of_mem _ hy)
    have hunf : serveAll gw (x :: rest) =
        ServeHTTP x.1 x.2.1 gw x.2.2 :: serveAll (ServeHTTP x.1 x.2.1 gw x.2.2).gw rest := rfl
    rw [hunf] at hc
    rw [hr] at hc
    obtain ⟨hnext, hpass, hlim⟩ :=
      bucket_step x.1 route gw x.2.2 key t0 n h0 hmem (hr ▸ hadm) hkey hlo hhi hb
    cases i with
    | zero =>
      simp only [List.getElem?_cons_zero, Option.some.injEq] at hc
      subst hc
      constructor
      · intro hlt
        obtain ⟨ha, fwd, hf⟩ := hpass (by omega)
        exact ⟨ha, by rw [hf]; simp⟩
      · intro hge
        obtain ⟨h1, h2, h3, h4⟩ := hlim (by omega)
        refine ⟨h1, h2, h3, ?_⟩
        rw [h4]; omega
    | succ j =>
      simp only [List.getElem?_cons_succ] at hc
      obtain ⟨ihpass, ihlim⟩ := ih (ServeHTTP x.1 route gw x.2.2).gw (n + 1) hrest hnext j c hc
      constructor
      · intro hlt
        obtain ⟨ha, hlen⟩ := ihpass (by omega)
        obtain ⟨_, fwd, hf⟩ := hpass (by omega)
        refine ⟨ha, ?_⟩
        rw [hlen, hf]; simp; omega
      · intro hge
        obtain ⟨h1, h2, h3, hlen⟩ := ihlim (by omega)
        refine ⟨h1, h2, h3, ?_⟩
        rw [hlen]
        by_cases hn : n < 100
        · obtain ⟨_, fwd, hf⟩ := hpass hn
          rw [hf]; simp; omega
        · obtain ⟨_, _, _, hf⟩ := hlim (by omega)
          rw [hf]; omega

/-- The gateway answers every request of a list. -/
theorem serveAll_length (xs : List (Env × Route × Request)) :
    ∀ gw : Gateway, (serveAll gw xs).length = xs.length := by
  induction xs with
  | nil => intro gw; rfl
  | cons x rest ih =>
    intro gw
    obtain ⟨env, route, req⟩ := x
    simp [serveAll, ih]

/-- C6. For one rate-limited route and one client key, within a single one-minute
window that starts with no live bucket for the client: of 101 requests that get as far
as the rate limiter, served in turn, each of the first 100 is passed on and handed to
the proxy (one more request forwarded each time), and the 101st is answered 429 with
the body `{success: false, error: {code: "rate_limit_exceeded", message: "Too many
requests"}}`, the chain aborted and nothing forwarded. -/
theorem first_hundred_then_429 (route : Route) (key : String) (t0 : Int) (gw : Gateway)
    (xs : List (Env × Route × Request))
    (h0 : 0 ≤ t0) (hlen : xs.length = 101) (hfresh : bucket gw route key = none)
    (hall : ∀ x ∈ xs, x.2.1 = route ∧ x.1.limiterNew = memoryLimiter ∧ x.1.ClientIP = key ∧
      t0 ≤ x.1.now ∧ x.1.now < t0 + Minute ∧ Admitted x.1 x.2.1 x.2.2) :
    (serveAll gw xs).length = 101 ∧
    (∀ (i : Nat) (c : Context), i < 100 → (serveAll gw xs)[i]? = some c →
      c.aborted = false ∧ c.gw.forwarded.length = gw.forwarded.length + (i + 1)) ∧
    (∀ c : Context, (serveAll gw xs)[100]? = some c →
      c.status = 429 ∧
      c.body = .json (.obj [("success", .bool false),
        ("error", .obj [("code", .str "rate_limit_exceeded"),
          ("message", .str "Too many requests")])]) ∧
      c.aborted = true ∧ c.gw.forwarded.length = gw.forwarded.length + 100) := by
  have hb : BucketCount gw route key t0 0 := Or.inl ⟨rfl, Or.inl hfresh⟩
  refine ⟨by rw [serveAll_length, hlen], ?_, ?_⟩
  · intro i c hi hc
    exact (serveAll_one_route route key t0 h0 xs gw 0 hall hb i c hc).1 (by omega)
  · intro c hc
    exact (serveAll_one_route route key t0 h0 xs gw 0 hall hb 100 c hc).2 (by omega)

/-- The sample client sends 101 login requests at the same instant. -/
theorem first_hundred_then_429_witness :
    (serveAll demoGateway (loginBurst 101)).length = 101 ∧
    (∀ (i : Nat) (c : Context), i < 100 → (serveAll demoGateway (loginBurst 101))[i]? = some c →
      c.aborted = false ∧ c.gw.forwarded.length = demoGateway.forwarded.length + (i + 1)) ∧
    (∀ c : Context, (serveAll demoGateway (loginBurst 101))[100]? = some c →
      c.status = 429 ∧
      c.body = .json (.obj [("success", .bool false),
        ("error", .obj [("code", .str "rate_limit_exceeded"),
          ("message", .str "Too many requests")])]) ∧
      c.aborted = true ∧ c.gw.forwarded.length = demoGateway.forwarded.length + 100) :=
  first_hundred_then_429 .login "10.0.0.1" 0 demoGateway (loginBurst 101) (by decide)
    (by simp [loginBurst]) rfl
    (fun x hx => by
      have hx' : x = (demoEnv 0, Route.login, loginRequest) := List.eq_of_mem_replicate hx
      subst hx'
      exact ⟨rfl, rfl, rfl, by decide, by decide, by decide, Or.inl rfl⟩)

/-- C7, as the code has it. Each route has its own limiter store, so a bucket belongs
to a route and a client: after any requests of the client inside one window, on
whatever routes, that got as far as the rate limiter, a further request on a route is
handed to the proxy when fewer than 100 of the earlier ones were on that same route,
and is answered 429 when 100 or more were. -/
theorem bucket_per_route_and_client (route : Route) (key : String) (t0 : Int) (gw : Gateway)
    (xs : List (Env × Route × Request)) (env : Env) (req : Request)
    (h0 : 0 ≤ t0) (hfresh : bucket gw route key = none)
    (hall : ∀ x ∈ xs, x.1.limiterNew = memoryLimiter ∧ x.1.ClientIP = key ∧ t0 ≤ x.1.now ∧
      x.1.now < t0 + Minute ∧ Admitted x.1 x.2.1 x.2.2)
    (hmem : env.limiterNew = memoryLimiter) (hkey : env.ClientIP = key)
    (hlo : t0 ≤ env.now) (hhi : env.now < t0 + Minute) (hadm : Admitted env route req) :
    ((xs.filter fun x => x.2.1 = route).length < 100 →
      (ServeHTTP env route (gatewayAfter gw xs) req).aborted = false ∧
      ∃ fwd, (ServeHTTP env route (gatewayAfter gw xs) req).gw.forwarded =
        (gatewayAfter gw xs).forwarded ++ [fwd]) ∧
    (100 ≤ (xs.filter fun x => x.2.1 = route).length →
      (ServeHTTP env route (gatewayAfter gw xs) req).status = 429 ∧
      (ServeHTTP env route (gatewayAfter gw xs) req).aborted = true ∧
      (ServeHTTP env route (gatewayAfter gw xs) req).gw.forwarded =
        (gatewayAfter gw xs).forwarded) := by
  have hb : BucketCount gw route key t0 0 := Or.inl ⟨rfl, Or.inl hfresh⟩
  have hafter := bucket_after route key t0 h0 xs gw 0 hall hb
  rw [Nat.zero_add] at hafter
  obtain ⟨_, hpass, hlim⟩ := bucket_step env route (gatewayAfter gw xs) req key t0 _ h0 hmem
    hadm hkey hlo hhi hafter
  refine ⟨hpass, fun h => ?_⟩
  obtain ⟨h1, _, h3, h4⟩ := hlim h
  exact ⟨h1, h3, h4⟩

/-- After 100 login requests of the sample client, its next login request is
answered 429. -/
theorem bucket_per_route_and_client_witness :
    100 ≤ ((loginBurst 100).filter fun x => x.2.1 = Route.login).length ∧
    (ServeHTTP (demoEnv 0) .login (gatewayAfter demoGateway (loginBurst 100))
      loginRequest).status = 429 :=
  ⟨by simp [loginBurst],
   ((bucket_per_route_and_client .login "10.0.0.1" 0 demoGateway (loginBurst 100) (demoEnv 0)
    loginRequest (by decide) rfl
    (fun x hx => by
      have hx' : x = (demoEnv 0, Route.login, loginRequest) := List.eq_of_mem_replicate hx
      subst hx'
      exact ⟨rfl, rfl, by decide, by decide, by decide, Or.inl rfl⟩)
    rfl rfl (by decide) (by decide) ⟨by decide, Or.inl rfl⟩).2 (by simp [loginBurst])).1⟩

/-- C7, counterexample. The sample client makes 100 login requests and then, in the
same window, a request on the orders route: this 101st request is not rejected, it is
handed to the orders proxy and answered 200. -/
theorem other_route_not_counted :
    (loginBurst 100).length = 100 ∧
    (ServeHTTP (demoEnv 0) .orders (gatewayAfter demoGateway (loginBurst 100))
      (ordersRequest "t-admin" [])).status = 200 ∧
    (ServeHTTP (demoEnv 0) .orders (gatewayAfter demoGateway (loginBurst 100))
      (ordersRequest "t-admin" [])).aborted = false ∧
    (ServeHTTP (demoEnv 0) .orders (gatewayAfter demoGateway (loginBurst 100))
      (ordersRequest "t-admin" [])).gw.forwarded.length = 101 := by
  refine ⟨by decide!, by decide!, by decide!, by decide!⟩

/-! ## The correlation identifier and the log -/

/-- The context `RequestID` hands on, by the identifier it assigns. -/
theorem withRequestID_eq (c : Context) (env : Env) :
    c.withRequestID env =
      (c.Set "X-Request-ID" (requestIDFor env c.Request)).Header "X-Request-ID"
        (requestIDFor env c.Request) := rfl

@[simp] theorem withRequestID_Keys (c : Context) (env : Env) :
    (c.withRequestID env).Keys = ("X-Request-ID", requestIDFor env c.Request) :: c.Keys := by
  rw [withRequestID_eq, Header_Keys, Set_Keys]

/-- The identifier read back from the context after `RequestID`. -/
theorem withRequestID_GetString (c : Context) (env : Env) :
    (c.withRequestID env).GetString "X-Request-ID" = requestIDFor env c.Request := by
  unfold Context.GetString
  rw [withRequestID_Keys]
  simp [mapGet]

/-- `RequestID` returns the identifier in the `X-Request-Id` response header, when it
is not empty. -/
theorem withRequestID_respHeader (c : Context) (env : Env)
    (h : requestIDFor env c.Request ≠ "") :
    (c.withRequestID env).respHeader.index "X-Request-Id" =
      some [requestIDFor env c.Request] := by
  rw [withRequestID_eq]
  unfold Context.Header
  rw [if_neg h, setWriterHeader_respHeader, index_Set, canon_request_id, if_pos rfl]

/-- The chain after `RequestID` and `Logging`, on a context that is not aborted,
leaves the request, the keys and the log as they are. -/
theorem core_frame (env : Env) (inst : Route) (target : String) (c : Context)
    (h : c.aborted = false) :
    (runChain [CORS, RateLimiterManual env inst, setupProxy env target] c).Request = c.Request ∧
    (runChain [CORS, RateLimiterManual env inst, setupProxy env target] c).Keys = c.Keys ∧
    (runChain [CORS, RateLimiterManual env inst, setupProxy env target] c).gw.log = c.gw.log := by
  rw [runChain, CORS_eq]
  by_cases hm : c.Request.Method = "OPTIONS"
  · rw [if_pos hm]
    exact ⟨rfl, rfl, rfl⟩
  · rw [if_neg hm, if_neg (by rw [withCORS_aborted, h]; decide), runChain, RateLimiterManual_eq]
    cases hl : (env.limiterNew ⟨Minute, 100⟩).Get (c.withCORS.gw.stores inst) env.now
        env.ClientIP with
    | error e => exact ⟨rfl, rfl, rfl⟩
    | ok p =>
      obtain ⟨result, store⟩ := p
      simp only
      cases hr : result.Reached with
      | true =>
        simp only [if_true]
        exact ⟨rfl, rfl, rfl⟩
      | false =>
        simp only [Bool.false_eq_true, if_false]
        rw [if_neg (by rw [withStore_aborted, withCORS_aborted, h]; decide), runChain]
        exact ⟨(setupProxy_frame env target _ _).2.2.2.trans rfl,
          (setupProxy_Keys env target _ _).trans rfl,
          (setupProxy_frame env target _ _).2.2.1.trans rfl⟩

/-- The chain after the Token Verifier, on a context that is not aborted: `Logging`
writes one record with the method, the path, the resulting status and the identifier
`RequestID` assigned. -/
theorem tail_logged (env : Env) (inst : Route) (target : String) (c : Context)
    (h : c.aborted = false) :
    runChain [RequestID env, Logging, CORS, RateLimiterManual env inst,
        setupProxy env target] c =
      (runChain [CORS, RateLimiterManual env inst, setupProxy env target]
        (c.withRequestID env)).logInfo
        (.request c.Request.Method c.Request.URL.Path
          (runChain [CORS, RateLimiterManual env inst, setupProxy env target]
            (c.withRequestID env)).status
          (requestIDFor env c.Request)) := by
  have h1 : (c.withRequestID env).aborted = false := by rw [withRequestID_aborted, h]
  obtain ⟨f1, f2, _⟩ := core_frame env inst target (c.withRequestID env) h1
  rw [runChain, RequestID_eq, if_neg (by rw [h1]; decide), runChain, Logging_eq,
    if_neg (by rw [h1]; decide)]
  have hg : (runChain [CORS, RateLimiterManual env inst, setupProxy env target]
      (c.withRequestID env)).GetString "X-Request-ID" = requestIDFor env c.Request := by
    unfold Context.GetString
    rw [f2]
    exact withRequestID_GetString c env
  rw [hg, f1, withRequestID_Request]

/-- The log, the status and the identifier after the chain that follows the Token
Verifier. -/
theorem tail_log (env : Env) (inst : Route) (target : String) (c : Context)
    (h : c.aborted = false) :
    (runChain [RequestID env, Logging, CORS, RateLimiterManual env inst,
        setupProxy env target] c).gw.log =
      c.gw.log ++ [.request c.Request.Method c.Request.URL.Path
        (runChain [RequestID env, Logging, CORS, RateLimiterManual env inst,
          setupProxy env target] c).status (requestIDFor env c.Request)] ∧
    (runChain [RequestID env, Logging, CORS, RateLimiterManual env inst,
        setupProxy env target] c).GetString "X-Request-ID" = requestIDFor env c.Request := by
  have h1 : (c.withRequestID env).aborted = false := by rw [withRequestID_aborted, h]
  obtain ⟨_, f2, f3⟩ := core_frame env inst target (c.withRequestID env) h1
  rw [tail_logged env inst target c h]
  constructor
  · rw [logInfo_gw_log, logInfo_status, f3, withRequestID_gw]
  · unfold Context.GetString
    rw [logInfo_Keys, f2]
    exact withRequestID_GetString c env

/-- The headers `JWTAuth` sets leave every other header as `Header.Get` reads it. -/
theorem withClaims_Get_request_id (c : Context) (claims : MapClaims) :
    (withClaims c claims).Request.Header.Get "X-Request-ID" =
      c.Request.Header.Get "X-Request-ID" := by
  unfold Header.Get
  rw [canon_request_id, withClaims_index, if_neg (fun h => absurd h.1 (by decide)),
    if_neg (fun h => absurd h.1 (by decide))]

/-- The identifier `RequestID` assigns does not depend on the identity headers. -/
theorem requestIDFor_withClaims (env : Env) (c : Context) (claims : MapClaims) :
    requestIDFor env (withClaims c claims).Request = requestIDFor env c.Request := by
  unfold requestIDFor
  rw [withClaims_Get_request_id]

@[simp] theorem withClaims_Path (c : Context) (claims : MapClaims) :
    (withClaims c claims).Request.URL.Path = c.Request.URL.Path := by
  unfold withClaims; simp only; split <;> split <;> rfl

@[simp] theorem withClaims_gw_log (c : Context) (claims : MapClaims) :
    (withClaims c claims).gw.log =
      c.gw.log ++ [.authenticated (userIDOf claims) (rolesOf claims) c.Request.URL.Path] := by
  unfold withClaims; simp only; split <;> split <;> rfl

/-- Every request that reaches a reverse proxy leaves its Director with, as
`X-Request-Id`, the value of the client's `X-Request-ID` header, the empty string when
there was none. -/
theorem forwarded_request_id (env : Env) (route : Route) (gw : Gateway) (req : Request)
    (hv : route = .login ∨ ∃ token, req.Header.Get "Authorization" ≠ "" ∧
      HasPrefix (req.Header.Get "Authorization") "Bearer " = true ∧
      jwtParse env.jwt env.now (TrimPrefix (req.Header.Get "Authorization") "Bearer ")
        (keyFunc env.cfg) = .ok token) :
    ∃ new, (ServeHTTP env route gw req).gw.forwarded = gw.forwarded ++ new ∧
      ∀ r ∈ new, r.Header.index "X-Request-Id" = some [req.Header.Get "X-Request-ID"] := by
  by_cases hr : route = .login
  · subst hr
    rw [ServeHTTP_login]
    obtain ⟨new, hnew, hall⟩ := tail_new_forwarded env .login (targetOf env.cfg .login)
      (newContext gw req) rfl
    refine ⟨new, hnew, fun r hrn => ?_⟩
    rw [hall r hrn, Director_index, if_pos rfl]
    rfl
  · rcases hv with hl | ⟨token, h1, h2, h3⟩
    · exact absurd hl hr
    · rw [ServeHTTP_protected env route gw req token hr h1 h2 h3]
      obtain ⟨new, hnew, hall⟩ := tail_new_forwarded env route (targetOf env.cfg route)
        (withClaims (newContext gw req) token.Claims) (by simp [newContext])
      refine ⟨new, ?_, fun r hrn => ?_⟩
      · rw [hnew, withClaims_gw_forwarded]; rfl
      · rw [hall r hrn, Director_index, if_pos rfl, withClaims_Get_request_id]
        rfl

/-- C11, at the failing input. A login request without an `X-Request-ID` header, at
the instant 0: `RequestID` assigns `req-0`, returns it in the `X-Request-Id` response
header and `Logging` writes it to the log, but the request handed to the users backend
carries an empty `X-Request-Id`. A request that brings its own identifier `abc` is
forwarded with it. -/
theorem generated_request_id_not_forwarded :
    requestIDFor (demoEnv 0) loginRequest = "req-0" ∧
    (ServeHTTP (demoEnv 0) .login demoGateway loginRequest).respHeader.index "X-Request-Id" =
      some ["req-0"] ∧
    (ServeHTTP (demoEnv 0) .login demoGateway loginRequest).gw.log =
      [.request "POST" "/api/v1/auth/login" 200 "req-0"] ∧
    ((ServeHTTP (demoEnv 0) .login demoGateway loginRequest).gw.forwarded.map
      fun r => r.Header.index "X-Request-Id") = [some [""]] ∧
    ((ServeHTTP (demoEnv 0) .login demoGateway
      (demoRequest "POST" "/api/v1/auth/login" [("X-Request-Id", ["abc"])])).gw.forwarded.map
      fun r => r.Header.index "X-Request-Id") = [some ["abc"]] := by
  refine ⟨by decide, by decide, by decide, by decide, by decide⟩

/-! ## The proxy ErrorHandler -/

/-- C12. For every upstream error the proxy ErrorHandler answers with status 502 and
the body `Service unavailable`, and the whole context it leaves is the same for any
two errors; so is the answer of the proxy handler in two environments that differ
only in the error their transport returns. -/
theorem ErrorHandler_generic (c : Context) (err1 err2 : String) :
    (ErrorHandler c err1).status = 502 ∧
    (ErrorHandler c err1).body = .text "Service unavailable" ∧
    ErrorHandler c err1 = ErrorHandler c err2 ∧
    ∀ (env : Env) (target : String) (next : Context → Context),
      setupProxy { env with transport := fun _ => .error err1 } target next c =
        setupProxy { env with transport := fun _ => .error err2 } target next c ∧
      (setupProxy { env with transport := fun _ => .error err1 } target next c).status = 502 ∧
      (setupProxy { env with transport := fun _ => .error err1 } target next c).body =
        .text "Service unavailable" :=
  ⟨rfl, rfl, rfl, fun env target next => by
    rw [setupProxy_transport_error { env with transport := fun _ => .error err1 } target next c
        err1 (fun _ => rfl),
      setupProxy_transport_error { env with transport := fun _ => .error err2 } target next c
        err2 (fun _ => rfl)]
    split <;> exact ⟨rfl, rfl, rfl⟩⟩

/-! ## Preflight requests -/

/-- The three response headers `CORS` sets. -/
theorem withCORS_respHeader (c : Context) :
    c.withCORS.respHeader.index "Access-Control-Allow-Origin" = some ["*"] ∧
    c.withCORS.respHeader.index "Access-Control-Allow-Methods" =
      some ["GET, POST, PUT, DELETE"] ∧
    c.withCORS.respHeader.index "Access-Control-Allow-Headers" =
      some ["Authorization, X-Request-ID"] := by
  have k1 : CanonicalMIMEHeaderKey "Access-Control-Allow-Origin" =
      "Access-Control-Allow-Origin" := by decide
  have k2 : CanonicalMIMEHeaderKey "Access-Control-Allow-Methods" =
      "Access-Control-Allow-Methods" := by decide
  have k3 : CanonicalMIMEHeaderKey "Access-Control-Allow-Headers" =
      "Access-Control-Allow-Headers" := by decide
  unfold Context.withCORS
  refine ⟨?_, ?_, ?_⟩
  · rw [setWriterHeader_respHeader, index_Set, k3, if_neg (by decide),
      setWriterHeader_respHeader, index_Set, k2, if_neg (by decide),
      setWriterHeader_respHeader, index_Set, k1, if_pos rfl]
  · rw [setWriterHeader_respHeader, index_Set, k3, if_neg (by decide),
      setWriterHeader_respHeader, index_Set, k2, if_pos rfl]
  · rw [setWriterHeader_respHeader, index_Set, k3, if_pos rfl]

/-- C13, as the code has it. On the admin and orders routes an OPTIONS request whose
bearer token verifies is answered 204 by `CORS` with the three
`Access-Control-Allow-*` headers set; it is not counted by the rate limiter (no store
changes) and nothing is handed to the proxy. An OPTIONS request whose Authorization
header is empty or has no bearer prefix, or whose token does not parse, is rejected by
the Token Verifier with 401 like any other request, before `CORS` runs. -/
theorem preflight_after_token (env : Env) (route : Route) (gw : Gateway) (req : Request)
    (hr : route ≠ .login) (hm : req.Method = "OPTIONS") :
    (∀ token, req.Header.Get "Authorization" ≠ "" →
      HasPrefix (req.Header.Get "Authorization") "Bearer " = true →
      jwtParse env.jwt env.now (TrimPrefix (req.Header.Get "Authorization") "Bearer ")
        (keyFunc env.cfg) = .ok token →
      (ServeHTTP env route gw req).status = 204 ∧
      (ServeHTTP env route gw req).aborted = true ∧
      (ServeHTTP env route gw req).respHeader.index "Access-Control-Allow-Origin" =
        some ["*"] ∧
      (ServeHTTP env route gw req).respHeader.index "Access-Control-Allow-Methods" =
        some ["GET, POST, PUT, DELETE"] ∧
      (ServeHTTP env route gw req).respHeader.index "Access-Control-Allow-Headers" =
        some ["Authorization, X-Request-ID"] ∧
      (ServeHTTP env route gw req).gw.stores = gw.stores ∧
      (ServeHTTP env route gw req).gw.forwarded = gw.forwarded) ∧
    ((req.Header.Get "Authorization" = "" ∨
      HasPrefix (req.Header.Get "Authorization") "Bearer " = false ∨
      ∃ e, jwtParse env.jwt env.now (TrimPrefix (req.Header.Get "Authorization") "Bearer ")
        (keyFunc env.cfg) = .error e) →
      (ServeHTTP env route gw req).status = 401 ∧
      (ServeHTTP env route gw req).aborted = true ∧
      (ServeHTTP env route gw req).respHeader = ⟨[]⟩) := by
  constructor
  · intro token h1 h2 h3
    rw [ServeHTTP_protected env route gw req token hr h1 h2 h3]
    obtain ⟨r, hrun⟩ := tail_preflight env route (targetOf env.cfg route)
      (withClaims (newContext gw req) token.Claims) (by simp [newContext])
      (by rw [withClaims_Method]; exact hm)
    rw [hrun]
    obtain ⟨c1, c2, c3⟩ := withCORS_respHeader
      ((withClaims (newContext gw req) token.Claims).withRequestID env)
    refine ⟨rfl, rfl, c1, c2, c3, ?_, ?_⟩
    · rw [logInfo_gw_stores, AbortWithStatus_gw, withCORS_gw, withRequestID_gw,
        withClaims_gw_stores]
      rfl
    · rw [logInfo_gw_forwarded, AbortWithStatus_gw, withCORS_gw, withRequestID_gw,
        withClaims_gw_forwarded]
      rfl
  · intro h
    obtain ⟨m, hmsg⟩ := JWTAuth_of_fail env (newContext gw req) h
    have hrun : ServeHTTP env route gw req =
        { (newContext gw req) with status := 401, body := .json (errorEnvelope "unauthorized" m),
                                   aborted := true } := by
      cases route with
      | login => exact absurd rfl hr
      | admin => simp only [ServeHTTP, Setup, runChain]; exact hmsg _
      | orders => simp only [ServeHTTP, Setup, runChain]; exact hmsg _
    rw [hrun]
    exact ⟨rfl, rfl, rfl⟩

/-- An OPTIONS request on the orders route with the token `t-admin`. -/
theorem preflight_after_token_witness :
    (ServeHTTP (demoEnv 0) .orders demoGateway
      (demoRequest "OPTIONS" "/api/v1/orders/5" [("Authorization", ["Bearer t-admin"])])
      ).status = 204 ∧
    (ServeHTTP (demoEnv 0) .orders demoGateway
      (demoRequest "OPTIONS" "/api/v1/orders/5" [("Authorization", ["Bearer t-admin"])])
      ).gw.forwarded = demoGateway.forwarded :=
  have h := (preflight_after_token (demoEnv 0) .orders demoGateway
    (demoRequest "OPTIONS" "/api/v1/orders/5" [("Authorization", ["Bearer t-admin"])])
    (by decide) rfl).1
    ⟨"HS256", true, [("id", .num (float64OfNat 42)), ("roles", .arr [.str "admin"])]⟩
    (by decide) (by decide) rfl
  ⟨h.1, h.2.2.2.2.2.2⟩

/-- C13, counterexample. An OPTIONS request to the orders route without an
Authorization header is rejected by the Token Verifier: the answer is 401, not 204,
and carries no `Access-Control-Allow-Origin` header. -/
theorem preflight_without_token_rejected :
    (ServeHTTP (demoEnv 0) .orders demoGateway
      (demoRequest "OPTIONS" "/api/v1/orders/5" [])).status = 401 ∧
    (ServeHTTP (demoEnv 0) .orders demoGateway
      (demoRequest "OPTIONS" "/api/v1/orders/5" [])).respHeader.index
        "Access-Control-Allow-Origin" = none := by
  constructor <;> decide

/-! ## Correlation identifiers and log records per route -/

/-- C14, as the code has it. On the login route `RequestID` is the first stage; on the
admin and orders routes the Token Verifier runs before it. Every login request, and
every admin or orders request whose token verifies, is assigned a correlation
identifier (the client's `X-Request-ID`, or `req-` and the time), and `Logging` writes
exactly one record, with the method, the path, the resulting status and that
identifier, whatever the outcome; on the admin and orders routes the record of
`JWTAuth` (user, roles, path) precedes it. A request the Token Verifier rejects with
401 gets no identifier and no log record. -/
theorem one_request_record (env : Env) (gw : Gateway) (req : Request) :
    ((ServeHTTP env .login gw req).gw.log =
        gw.log ++ [.request req.Method req.URL.Path (ServeHTTP env .login gw req).status
          (requestIDFor env req)] ∧
      (ServeHTTP env .login gw req).GetString "X-Request-ID" = requestIDFor env req) ∧
    (∀ route token, route ≠ Route.login →
      req.Header.Get "Authorization" ≠ "" →
      HasPrefix (req.Header.Get "Authorization") "Bearer " = true →
      jwtParse env.jwt env.now (TrimPrefix (req.Header.Get "Authorization") "Bearer ")
        (keyFunc env.cfg) = .ok token →
      (ServeHTTP env route gw req).gw.log =
        gw.log ++ [.authenticated (userIDOf token.Claims) (rolesOf token.Claims) req.URL.Path,
          .request req.Method req.URL.Path (ServeHTTP env route gw req).status
            (requestIDFor env req)] ∧
      (ServeHTTP env route gw req).GetString "X-Request-ID" = requestIDFor env req) ∧
    (∀ route, route ≠ Route.login →
      (req.Header.Get "Authorization" = "" ∨
        HasPrefix (req.Header.Get "Authorization") "Bearer " = false ∨
        ∃ e, jwtParse env.jwt env.now (TrimPrefix (req.Header.Get "Authorization") "Bearer ")
          (keyFunc env.cfg) = .error e) →
      (ServeHTTP env route gw req).status = 401 ∧
      (ServeHTTP env route gw req).gw.log = gw.log ∧
      (ServeHTTP env route gw req).Keys = [] ∧
      (ServeHTTP env route gw req).respHeader = ⟨[]⟩) := by
  refine ⟨?_, ?_, ?_⟩
  · rw [ServeHTTP_login]
    exact tail_log env .login (targetOf env.cfg .login) (newContext gw req) rfl
  · intro route token hr h1 h2 h3
    rw [ServeHTTP_protected env route gw req token hr h1 h2 h3]
    obtain ⟨l1, l2⟩ := tail_log env route (targetOf env.cfg route)
      (withClaims (newContext gw req) token.Claims) (by simp [newContext])
    rw [requestIDFor_withClaims, withClaims_Method, withClaims_Path, withClaims_gw_log] at l1
    rw [requestIDFor_withClaims] at l2
    refine ⟨?_, l2⟩
    rw [l1, List.append_assoc]
    rfl
  · intro route hr h
    obtain ⟨m, hmsg⟩ := JWTAuth_of_fail env (newContext gw req) h
    have hrun : ServeHTTP env route gw req =
        { (newContext gw req) with status := 401, body := .json (errorEnvelope "unauthorized" m),
                                   aborted := true } := by
      cases route with
      | login => exact absurd rfl hr
      | admin => simp only [ServeHTTP, Setup, runChain]; exact hmsg _
      | orders => simp only [ServeHTTP, Setup, runChain]; exact hmsg _
    rw [hrun]
    exact ⟨rfl, rfl, rfl, rfl⟩

/-- The token `t-admin` on the orders route, and a request without a token. -/
theorem one_request_record_witness :
    (ServeHTTP (demoEnv 0) .orders demoGateway (ordersRequest "t-admin" [])).gw.log =
      demoGateway.log ++ [.authenticated
          (userIDOf [("id", .num (float64OfNat 42)), ("roles", .arr [.str "admin"])])
          (rolesOf [("id", .num (float64OfNat 42)), ("roles", .arr [.str "admin"])])
          (ordersRequest "t-admin" []).URL.Path,
        .request (ordersRequest "t-admin" []).Method (ordersRequest "t-admin" []).URL.Path
          (ServeHTTP (demoEnv 0) .orders demoGateway (ordersRequest "t-admin" [])).status
          (requestIDFor (demoEnv 0) (ordersRequest "t-admin" []))] ∧
    (ServeHTTP (demoEnv 0) .orders demoGateway
      (demoRequest "GET" "/api/v1/orders/5" [])).gw.log = demoGateway.log :=
  ⟨((one_request_record (demoEnv 0) demoGateway (ordersRequest "t-admin" [])).2.1 .orders
      ⟨"HS256", true, [("id", .num (float64OfNat 42)), ("roles", .arr [.str "admin"])]⟩
      (by decide) (by decide) (by decide) rfl).1,
   ((one_request_record (demoEnv 0) demoGateway (demoRequest "GET" "/api/v1/orders/5" [])).2.2
      .orders (by decide) (Or.inl (by decide))).2.1⟩

/-- C14, counterexample. A request to the orders route without a token is answered
401 by the Token Verifier, the first stage of the chain: no correlation identifier is
assigned or returned and no log record is written. -/
theorem rejected_request_not_logged :
    (ServeHTTP (demoEnv 0) .orders demoGateway
      (demoRequest "GET" "/api/v1/orders/5" [])).status = 401 ∧
    (ServeHTTP (demoEnv 0) .orders demoGateway
      (demoRequest "GET" "/api/v1/orders/5" [])).gw.log = [] ∧
    (ServeHTTP (demoEnv 0) .orders demoGateway
      (demoRequest "GET" "/api/v1/orders/5" [])).GetString "X-Request-ID" = "" ∧
    (ServeHTTP (demoEnv 0) .orders demoGateway
      (demoRequest "GET" "/api/v1/orders/5" [])).respHeader.index "X-Request-Id" = none := by
  refine ⟨by decide, by decide, by decide, by decide⟩

/-! ## Generated identifiers -/

/-- Go string concatenation with the same left part is injective. -/
theorem append_left_cancel (p a b : String) (h : p ++ a = p ++ b) : a = b := by
  have hd : (p ++ a).data = (p ++ b).data := congrArg String.data h
  rw [String.data_append, String.data_append] at hd
  have := List.append_cancel_left hd
  exact String.ext this

/-- C15, as the code has it. For two requests without an `X-Request-ID` header the
identifiers `RequestID` generates are `req-` followed by the arrival time in the
layout `20060102150405`, which has the resolution of a second: they are equal exactly
when the two formatted times are equal, so two requests that arrive within the same
second get the same identifier, and requests whose formatted arrival times differ get
different ones. -/
theorem generated_ids_by_second (env1 env2 : Env) (req1 req2 : Request)
    (h1 : req1.Header.Get "X-Request-ID" = "") (h2 : req2.Header.Get "X-Request-ID" = "") :
    requestIDFor env1 req1 = "req-" ++ env1.timeFormat (env1.now / 1000000000) ∧
    (requestIDFor env1 req1 = requestIDFor env2 req2 ↔
      env1.timeFormat (env1.now / 1000000000) = env2.timeFormat (env2.now / 1000000000)) ∧
    (env1.timeFormat = env2.timeFormat → env1.now / 1000000000 = env2.now / 1000000000 →
      requestIDFor env1 req1 = requestIDFor env2 req2) := by
  have e1 : requestIDFor env1 req1 = "req-" ++ env1.timeFormat (env1.now / 1000000000) := by
    unfold requestIDFor
    simp only [h1, if_true]
  have e2 : requestIDFor env2 req2 = "req-" ++ env2.timeFormat (env2.now / 1000000000) := by
    unfold requestIDFor
    simp only [h2, if_true]
  refine ⟨e1, ?_, ?_⟩
  · rw [e1, e2]
    constructor
    · exact append_left_cancel _ _ _
    · intro h; rw [h]
  · intro hf hs
    rw [e1, e2, hf, hs]

/-- Two login requests at the instants 0 and 1.5 s. -/
theorem generated_ids_by_second_witness :
    requestIDFor (demoEnv 0) loginRequest = "req-" ++ (demoEnv 0).timeFormat
      ((demoEnv 0).now / 1000000000) ∧
    (requestIDFor (demoEnv 0) loginRequest = requestIDFor (demoEnv 1500000000) loginRequest ↔
      (demoEnv 0).timeFormat ((demoEnv 0).now / 1000000000) =
        (demoEnv 1500000000).timeFormat ((demoEnv 1500000000).now / 1000000000)) :=
  ⟨(generated_ids_by_second (demoEnv 0) (demoEnv 1500000000) loginRequest loginRequest
      (by decide) (by decide)).1,
   (generated_ids_by_second (demoEnv 0) (demoEnv 1500000000) loginRequest loginRequest
      (by decide) (by decide)).2.1⟩

/-- C15, counterexample. Two distinct requests without an `X-Request-ID` header, a
login request at the instant 0 and an orders request half a second later, are both
assigned the identifier `req-0`. -/
theorem same_second_same_id :
    loginRequest ≠ ordersRequest "t-admin" [] ∧
    (ServeHTTP (demoEnv 0) .login demoGateway loginRequest).GetString "X-Request-ID" =
      "req-0" ∧
    (ServeHTTP (demoEnv 500000000) .orders demoGateway
      (ordersRequest "t-admin" [])).GetString "X-Request-ID" = "req-0" := by
  refine ⟨by decide, by decide, by decide⟩

/-! ## The route table -/

/-- A string with a prefix is the prefix followed by something. -/
theorem HasPrefix_data (s p : String) (h : HasPrefix s p = true) :
    ∃ rest, s = ⟨p.data ++ rest⟩ := by
  unfold HasPrefix at h
  obtain ⟨rest, hrest⟩ := List.isPrefixOf_iff_prefix.1 h
  exact ⟨rest, String.ext hrest.symm⟩

/-- A path under `/api/v1/orders/` is neither the login path nor under
`/api/v1/admin/`. -/
theorem orders_path_apart (path : String) (h : HasPrefix path "/api/v1/orders/" = true) :
    path ≠ "/api/v1/auth/login" ∧ HasPrefix path "/api/v1/admin/" = false := by
  obtain ⟨rest, rfl⟩ := HasPrefix_data path _ h
  constructor
  · intro he
    have h9 : ("/api/v1/orders/".data ++ rest).take 9 = "/api/v1/o".data := rfl
    have := congrArg (fun s : String => s.data.take 9) he
    simp only [h9] at this
    revert this
    decide
  · rfl

/-- A path under `/api/v1/admin/` is neither the login path nor under
`/api/v1/orders/`. -/
theorem admin_path_apart (path : String) (h : HasPrefix path "/api/v1/admin/" = true) :
    path ≠ "/api/v1/auth/login" ∧ HasPrefix path "/api/v1/orders/" = false := by
  obtain ⟨rest, rfl⟩ := HasPrefix_data path _ h
  constructor
  · intro he
    have h10 : ("/api/v1/admin/".data ++ rest).take 10 = "/api/v1/ad".data := rfl
    have := congrArg (fun s : String => s.data.take 10) he
    simp only [h10] at this
    revert this
    decide
  · rfl

/-- C16. In the route table built by `Setup`, every path under `/api/v1/orders/`, on
each method that `Any` registers, leads to the orders chain, whose only proxy has the
target `OrdersServiceURL`, and on no method to a chain of the users proxy; every path
under `/api/v1/admin/` and `POST /api/v1/auth/login` lead to chains whose only proxy
has the target `UsersServiceURL`; the orders and admin chains contain `JWTAuth` and
the login chain does not, and all three contain the rate limiter; the handler chains
of `Setup` are these stages. -/
theorem Setup_route_table (cfg : Config) :
    (∀ method path, HasPrefix path "/api/v1/orders/" = true →
      (method ∈ anyMethods → routeOf method path = some (.pipeline .orders)) ∧
      routeOf method path ≠ some (.pipeline .admin) ∧
      routeOf method path ≠ some (.pipeline .login)) ∧
    (∀ method path, HasPrefix path "/api/v1/admin/" = true →
      (method ∈ anyMethods → routeOf method path = some (.pipeline .admin)) ∧
      routeOf method path ≠ some (.pipeline .orders)) ∧
    routeOf "POST" "/api/v1/auth/login" = some (.pipeline .login) ∧
    (∀ target, Stage.proxy target ∈ stagesOf cfg .orders ↔ target = cfg.OrdersServiceURL) ∧
    (∀ target, Stage.proxy target ∈ stagesOf cfg .admin ↔ target = cfg.UsersServiceURL) ∧
    (∀ target, Stage.proxy target ∈ stagesOf cfg .login ↔ target = cfg.UsersServiceURL) ∧
    Stage.JWTAuth ∈ stagesOf cfg .orders ∧ Stage.JWTAuth ∈ stagesOf cfg .admin ∧
    Stage.JWTAuth ∉ stagesOf cfg .login ∧
    (∀ route, Stage.RateLimiterManual route ∈ stagesOf cfg route) ∧
    (∀ (env : Env) route, Setup env route = (stagesOf env.cfg route).map (Stage.handler env)) := by
  refine ⟨?_, ?_, ?_, ?_, ?_, ?_, ?_, ?_, ?_, ?_, ?_⟩
  · intro method path h
    obtain ⟨h1, h2⟩ := orders_path_apart path h
    have hl : ¬ (method ∈ ["POST"] ∧ (Pattern.static "/api/v1/auth/login").matches path = true) := by
      intro hc
      exact h1 (by simpa [Pattern.matches] using hc.2)
    have ha : ¬ (method ∈ anyMethods ∧ (Pattern.catchAll "/api/v1/admin/").matches path = true) := by
      intro hc
      have : HasPrefix path "/api/v1/admin/" = true := hc.2
      rw [h2] at this
      cases this
    have ho : (Pattern.catchAll "/api/v1/orders/").matches path = true := h
    unfold routeOf routeTable
    rw [findRoute, if_neg hl, findRoute, if_neg ha, findRoute]
    by_cases hmeth : method ∈ anyMethods
    · rw [if_pos ⟨hmeth, ho⟩]
      exact ⟨fun _ => rfl, by simp, by simp⟩
    · rw [if_neg (fun hc => hmeth hc.1)]
      refine ⟨fun hc => absurd hc hmeth, ?_, ?_⟩
      · intro hc
        simp only [findRoute] at hc
        split at hc
        · cases hc
        · split at hc
          · cases hc
          · split at hc
            · cases hc
            · cases hc
      · intro hc
        simp only [findRoute] at hc
        split at hc
        · cases hc
        · split at hc
          · cases hc
          · split at hc
            · cases hc
            · cases hc
  · intro method path h
    obtain ⟨h1, h2⟩ := admin_path_apart path h
    have hl : ¬ (method ∈ ["POST"] ∧ (Pattern.static "/api/v1/auth/login").matches path = true) := by
      intro hc
      exact h1 (by simpa [Pattern.matches] using hc.2)
    have had : (Pattern.catchAll "/api/v1/admin/").matches path = true := h
    have ho : ¬ (method ∈ anyMethods ∧ (Pattern.catchAll "/api/v1/orders/").matches path = true) := by
      intro hc
      have : HasPrefix path "/api/v1/orders/" = true := hc.2
      rw [h2] at this
      cases this
    unfold routeOf routeTable
    rw [findRoute, if_neg hl, findRoute]
    by_cases hmeth : method ∈ anyMethods
    · rw [if_pos ⟨hmeth, had⟩]
      exact ⟨fun _ => rfl, by simp⟩
    · rw [if_neg (fun hc => hmeth hc.1), findRoute, if_neg ho]
      refine ⟨fun hc => absurd hc hmeth, ?_⟩
      intro hc
      simp only [findRoute] at hc
      split at hc
      · cases hc
      · split at hc
        · cases hc
        · split at hc
          · cases hc
          · cases hc
  · decide
  · intro target; simp [stagesOf]
  · intro target; simp [stagesOf]
  · intro target; simp [stagesOf]
  · simp [stagesOf]
  · simp [stagesOf]
  · simp [stagesOf]
  · intro route
    cases route <;> simp [stagesOf]
  · intro env route
    cases route <;> rfl

/-- Requests to the orders and admin prefixes and to the login path. -/
theorem Setup_route_table_witness :
    routeOf "GET" "/api/v1/orders/42" = some (.pipeline .orders) ∧
    routeOf "DELETE" "/api/v1/admin/users/7" = some (.pipeline .admin) :=
  ⟨((Setup_route_table demoConfig).1 "GET" "/api/v1/orders/42" (by decide)).1 (by decide),
   ((Setup_route_table demoConfig).2.1 "DELETE" "/api/v1/admin/users/7" (by decide)).1
     (by decide)⟩

/-! ## swagger.go: the reference rewriting walk -/

theorem replaceChars_nil (old new : List Char) (skip : Nat) :
    replaceChars old new skip [] = [] := by
  cases skip <;> rfl

/-- A text without the first character of `new` that starts the output of the
replacement starts the input as well. -/
theorem isPrefixOf_of_replaceChars (old new : List Char) (h : Char) (nt : List Char)
    (hnew : new = h :: nt) (cs : List Char) :
    ∀ p : List Char, h ∉ p → p.isPrefixOf (replaceChars old new 0 cs) = true →
      p.isPrefixOf cs = true := by
  induction cs with
  | nil =>
    intro p _ hp
    rw [replaceChars_nil] at hp
    exact hp
  | cons c cs ih =>
    intro p hmem hp
    cases p with
    | nil => rfl
    | cons a p =>
      have ha : h ≠ a := fun e => hmem (e ▸ List.mem_cons_self _ _)
      have hp' : h ∉ p := fun e => hmem (List.mem_cons_of_mem _ e)
      by_cases hm : old.isPrefixOf (c :: cs) = true
      · rw [replaceChars, if_pos hm, hnew] at hp
        simp only [List.cons_append, List.isPrefixOf, Bool.and_eq_true, beq_iff_eq] at hp
        exact absurd hp.1.symm ha
      · rw [replaceChars, if_neg hm] at hp
        simp only [List.isPrefixOf, Bool.and_eq_true, beq_iff_eq] at hp ⊢
        exact ⟨hp.1, ih p hp' hp.2⟩

theorem containsChars_cons_ne (c : Char) (cs : List Char) (hc : c ≠ '#') :
    containsChars "#/definitions/".data (c :: cs) =
      containsChars "#/definitions/".data cs := by
  have hold : "#/definitions/".data =
      '#' :: "/definitions/".data := rfl
  rw [containsChars, hold]
  have : ('#' :: "/definitions/".data).isPrefixOf (c :: cs) = false := by
    simp only [List.isPrefixOf, Bool.and_eq_false_imp, beq_iff_eq]
    intro e
    exact absurd e.symm hc
  rw [this, Bool.false_or]

/-- No occurrence of the legacy prefix is left by the replacement. -/
theorem containsChars_replaceChars (cs : List Char) : ∀ skip : Nat,
    containsChars "#/definitions/".data
      (replaceChars "#/definitions/".data "#/components/schemas/".data skip cs) = false := by
  induction cs with
  | nil =>
    intro skip
    rw [replaceChars_nil]
    rfl
  | cons c cs ih =>
    intro skip
    cases skip with
    | succ n =>
      rw [replaceChars]
      exact ih n
    | zero =>
      by_cases hm : ("#/definitions/".data).isPrefixOf (c :: cs) = true
      · rw [replaceChars, if_pos hm]
        have hnew : "#/components/schemas/".data =
            ['#', '/', 'c', 'o', 'm', 'p', 'o', 'n', 'e', 'n', 't', 's', '/',
              's', 'c', 'h', 'e', 'm', 'a', 's', '/'] := rfl
        rw [hnew]
        simp only [List.cons_append, List.nil_append]
        have h0 : ∀ rest : List Char,
            containsChars "#/definitions/".data ('#' :: '/' :: 'c' :: rest) =
              containsChars "#/definitions/".data ('/' :: 'c' :: rest) := by
          intro rest
          have hold : "#/definitions/".data =
              '#' :: '/' :: 'd' :: "efinitions/".data := rfl
          rw [containsChars]
          have : ("#/definitions/".data).isPrefixOf ('#' :: '/' :: 'c' :: rest) = false := by
            rw [hold]
            simp only [List.isPrefixOf, Bool.and_eq_false_imp, beq_iff_eq]
            intro _ _ e
            exact absurd e (by decide)
          rw [this, Bool.false_or]
        rw [h0]
        repeat rw [containsChars_cons_ne _ _ (by decide)]
        exact ih _
      · rw [replaceChars, if_neg hm, containsChars, ih 0, Bool.or_false]
        have hold : "#/definitions/".data = '#' :: "/definitions/".data := rfl
        cases hp : ("#/definitions/".data).isPrefixOf
            (c :: replaceChars "#/definitions/".data "#/components/schemas/".data 0 cs) with
        | false => rfl
        | true =>
          exfalso
          apply hm
          rw [hold] at hp ⊢
          simp only [List.isPrefixOf, Bool.and_eq_true, beq_iff_eq] at hp ⊢
          refine ⟨hp.1, ?_⟩
          exact isPrefixOf_of_replaceChars _ _ '#' "/components/schemas/".data rfl cs
            "/definitions/".data (by decide) hp.2

theorem Contains_Replace (s : String) :
    Contains (Replace s "#/definitions/" "#/components/schemas/") "#/definitions/" = false :=
  containsChars_replaceChars s.data 0

theorem rewriteRef_of_not_str (val : GoVal) (h : ∀ s, val ≠ .str s) : rewriteRef val = val := by
  cases val <;> first | rfl | exact absurd rfl (h _)

theorem stringOf_rewriteRef (val : GoVal) :
    stringOf (rewriteRef val) =
      (stringOf val).map fun s => Replace s "#/definitions/" "#/components/schemas/" := by
  cases val <;> rfl

mutual
theorem outerRefStrings_updateRefs : ∀ t : GoVal,
    outerRefStrings (updateRefs t) =
      (outerRefStrings t).map fun s => Replace s "#/definitions/" "#/components/schemas/"
  | .obj v => by
    rw [updateRefs, outerRefStrings, outerRefStrings]
    exact outerRefStringsEntries_updateRefs v
  | .arr v => by
    rw [updateRefs, outerRefStrings, outerRefStrings]
    exact outerRefStringsItems_updateRefs v
  | .null => rfl
  | .bool _ => rfl
  | .num _ => rfl
  | .str _ => rfl
  | .strs _ => rfl
theorem outerRefStringsEntries_updateRefs : ∀ v : List (String × GoVal),
    outerRefStringsEntries (updateRefsEntries v) =
      (outerRefStringsEntries v).map fun s => Replace s "#/definitions/" "#/components/schemas/"
  | [] => rfl
  | (key, val) :: rest => by
    rw [updateRefsEntries, outerRefStringsEntries, outerRefStringsEntries, List.map_append,
      ← outerRefStringsEntries_updateRefs rest]
    by_cases h : key = "$ref"
    · simp only [if_pos h]
      rw [stringOf_rewriteRef]
    · simp only [if_neg h]
      rw [outerRefStrings_updateRefs val]
theorem outerRefStringsItems_updateRefs : ∀ v : List GoVal,
    outerRefStringsItems (updateRefsItems v) =
      (outerRefStringsItems v).map fun s => Replace s "#/definitions/" "#/components/schemas/"
  | [] => rfl
  | item :: rest => by
    rw [updateRefsItems, outerRefStringsItems, outerRefStringsItems, List.map_append,
      outerRefStrings_updateRefs item, outerRefStringsItems_updateRefs rest]
end

/-- C17 (as amended): for every finite tree, after `updateRefs` the strings stored
under a `$ref` key that does not lie inside the value of another `$ref` key are, in
order, the original strings with each occurrence of `#/definitions/` replaced by
`#/components/schemas/`, and none of them contains `#/definitions/` any more. -/
theorem updateRefs_rewrites_outer_refs (t : GoVal) :
    outerRefStrings (updateRefs t) =
        (outerRefStrings t).map
          (fun s => Replace s "#/definitions/" "#/components/schemas/") ∧
      ∀ s, s ∈ outerRefStrings (updateRefs t) → Contains s "#/definitions/" = false := by
  refine ⟨outerRefStrings_updateRefs t, ?_⟩
  intro s hs
  rw [outerRefStrings_updateRefs t, List.mem_map] at hs
  obtain ⟨s0, _, rfl⟩ := hs
  exact Contains_Replace s0

/-- C17 (as amended) on a schema map: the three references are rewritten, the
rewritten reference to `User` is among them and holds no legacy prefix. -/
theorem updateRefs_rewrites_outer_refs_witness :
    outerRefStrings demoSchemas =
        ["#/definitions/User", "#/definitions/Item", "#/definitions/Base"] ∧
      outerRefStrings (updateRefs demoSchemas) =
        ["#/components/schemas/User", "#/components/schemas/Item",
          "#/components/schemas/Base"] ∧
      Contains "#/components/schemas/User" "#/definitions/" = false :=
  ⟨by decide, by decide,
    (updateRefs_rewrites_outer_refs demoSchemas).2 "#/components/schemas/User" (by decide)⟩

/-- C17 as stated fails: in a schema with a property named `$ref` the walk stops at
that key, so the reference below it is a string stored under a `$ref` key that
`updateRefs` leaves with the legacy prefix. -/
theorem nested_ref_not_rewritten :
    refStrings nestedRefDoc = ["#/definitions/Order"] ∧
      refStrings (updateRefs nestedRefDoc) = ["#/definitions/Order"] ∧
      Replace "#/definitions/Order" "#/definitions/" "#/components/schemas/" =
        "#/components/schemas/Order" ∧
      Contains "#/definitions/Order" "#/definitions/" = true ∧
      ¬ (refStrings (updateRefs nestedRefDoc) =
          (refStrings nestedRefDoc).map
            (fun s => Replace s "#/definitions/" "#/components/schemas/") ∧
        ∀ s, s ∈ refStrings (updateRefs nestedRefDoc) →
          Contains s "#/definitions/" = false) := by
  refine ⟨by decide, by decide, by decide, by decide, ?_⟩
  intro h
  exact absurd h.1 (by decide)

theorem blankRef_rewriteRef (val : GoVal) : blankRef (blankRefs (rewriteRef val)) =
    blankRef (blankRefs val) := by
  cases val <;> rfl

mutual
theorem blankRefs_updateRefs : ∀ t : GoVal, blankRefs (updateRefs t) = blankRefs t
  | .obj v => by
    rw [updateRefs, blankRefs, blankRefs, blankRefsEntries_updateRefs v]
  | .arr v => by
    rw [updateRefs, blankRefs, blankRefs, blankRefsItems_updateRefs v]
  | .null => rfl
  | .bool _ => rfl
  | .num _ => rfl
  | .str _ => rfl
  | .strs _ => rfl
theorem blankRefsEntries_updateRefs : ∀ v : List (String × GoVal),
    blankRefsEntries (updateRefsEntries v) = blankRefsEntries v
  | [] => rfl
  | (key, val) :: rest => by
    rw [updateRefsEntries, blankRefsEntries, blankRefsEntries,
      blankRefsEntries_updateRefs rest]
    by_cases h : key = "$ref"
    · simp only [if_pos h]
      rw [blankRef_rewriteRef]
    · simp only [if_neg h]
      rw [blankRefs_updateRefs val]
theorem blankRefsItems_updateRefs : ∀ v : List GoVal,
    blankRefsItems (updateRefsItems v) = blankRefsItems v
  | [] => rfl
  | item :: rest => by
    rw [updateRefsItems, blankRefsItems, blankRefsItems, blankRefs_updateRefs item,
      blankRefsItems_updateRefs rest]
end

theorem keysOf_updateRefsEntries (v : List (String × GoVal)) :
    keysOf (updateRefsEntries v) = keysOf v := by
  induction v with
  | nil => rfl
  | cons kv rest ih =>
    obtain ⟨key, val⟩ := kv
    rw [updateRefsEntries]
    simp only [keysOf, List.map_cons] at ih ⊢
    rw [ih]

theorem length_updateRefsItems (v : List GoVal) :
    (updateRefsItems v).length = v.length := by
  induction v with
  | nil => rfl
  | cons item rest ih => rw [updateRefsItems, List.length_cons, List.length_cons, ih]

theorem mapGet_updateRefsEntries_str (key s : String) (hkey : key ≠ "$ref")
    (v : List (String × GoVal)) (h : mapGet key v = some (.str s)) :
    mapGet key (updateRefsEntries v) = some (.str s) := by
  induction v with
  | nil => exact absurd h (by simp [mapGet])
  | cons kv rest ih =>
    obtain ⟨k, val⟩ := kv
    rw [updateRefsEntries, mapGet]
    rw [mapGet] at h
    by_cases hk : k = key
    · rw [if_pos hk] at h ⊢
      have hval : val = .str s := Option.some.inj h
      rw [if_neg (hk ▸ hkey), hval]
      rfl
    · rw [if_neg hk] at h ⊢
      exact ih h

/-- C18: `updateRefs` returns on every finite tree and rewrites only the reference
field.  The tree it leaves equals the original up to the contents of the strings
stored under `$ref` keys; a map keeps its keys in their order, and a string under a
key other than `$ref` stays as it is, whatever it contains; a slice keeps its
length; every other value is returned as it is. -/
theorem updateRefs_changes_only_reference_strings (t : GoVal) :
    blankRefs (updateRefs t) = blankRefs t ∧
      (∀ v, t = .obj v → ∃ w, updateRefs t = .obj w ∧ keysOf w = keysOf v ∧
        ∀ key s, key ≠ "$ref" → mapGet key v = some (.str s) →
          mapGet key w = some (.str s)) ∧
      (∀ v, t = .arr v → ∃ w, updateRefs t = .arr w ∧ w.length = v.length) ∧
      ((∀ v, t ≠ .obj v) → (∀ v, t ≠ .arr v) → updateRefs t = t) := by
  refine ⟨blankRefs_updateRefs t, ?_, ?_, ?_⟩
  · intro v hv
    refine ⟨updateRefsEntries v, by rw [hv, updateRefs], keysOf_updateRefsEntries v, ?_⟩
    intro key s hkey h
    exact mapGet_updateRefsEntries_str key s hkey v h
  · intro v hv
    exact ⟨updateRefsItems v, by rw [hv, updateRefs], length_updateRefsItems v⟩
  · intro hobj harr
    cases t with
    | obj v => exact absurd rfl (hobj v)
    | arr v => exact absurd rfl (harr v)
    | null => rfl
    | bool _ => rfl
    | num _ => rfl
    | str _ => rfl
    | strs _ => rfl

/-- C18 on a schema map: the description that mentions `#/definitions/Order` and the
string `#/definitions/` in a slice are unchanged, the tree differs from the original
only in its reference strings. -/
theorem updateRefs_changes_only_reference_strings_witness :
    blankRefs (updateRefs demoSchemas) = blankRefs demoSchemas ∧
      updateRefs (.obj [("description", .str "listed under #/definitions/Order"),
          ("$ref", .str "#/definitions/User")]) =
        .obj [("description", .str "listed under #/definitions/Order"),
          ("$ref", .str "#/components/schemas/User")] ∧
      updateRefs (.arr [.str "#/definitions/"]) = .arr [.str "#/definitions/"] ∧
      updateRefs (.str "#/definitions/") = .str "#/definitions/" :=
  ⟨(updateRefs_changes_only_reference_strings demoSchemas).1, rfl, rfl,
    (updateRefs_changes_only_reference_strings (.str "#/definitions/")).2.2.2
      (fun _ h => GoVal.noConfusion h) (fun _ h => GoVal.noConfusion h)⟩

/-! ## swagger.go: merging and stripping -/

theorem mem_keysOf_mapPut (key k : String) (v : GoVal) (m : GoMap) :
    k ∈ keysOf (mapPut key v m) ↔ k = key ∨ k ∈ keysOf m := by
  induction m with
  | nil => simp [mapPut, keysOf]
  | cons kv rest ih =>
    obtain ⟨k1, w⟩ := kv
    rw [mapPut]
    by_cases h : k1 = key
    · rw [if_pos h]
      simp only [keysOf, List.map_cons, List.mem_cons]
      rw [h]
      tauto
    · rw [if_neg h]
      simp only [keysOf, List.map_cons, List.mem_cons] at ih ⊢
      rw [ih]
      tauto

theorem IsMap_mapPut (key : String) (v : GoVal) (m : GoMap) (h : IsMap m) :
    IsMap (mapPut key v m) := by
  induction m with
  | nil => simp [mapPut, IsMap, keysOf]
  | cons kv rest ih =>
    obtain ⟨k1, w⟩ := kv
    have hrest : IsMap rest := (List.nodup_cons.mp h).2
    have hk1 : k1 ∉ keysOf rest := (List.nodup_cons.mp h).1
    rw [mapPut]
    by_cases hk : k1 = key
    · rw [if_pos hk]
      exact List.nodup_cons.mpr ⟨hk ▸ hk1, hrest⟩
    · rw [if_neg hk]
      refine List.nodup_cons.mpr ⟨?_, ih hrest⟩
      intro hmem
      rcases (mem_keysOf_mapPut key k1 v rest).mp hmem with h1 | h1
      · exact hk h1
      · exact hk1 h1

theorem mapGet_eq_none_of_not_mem {β : Type} (k : String) (m : List (String × β))
    (h : k ∉ m.map Prod.fst) : mapGet k m = none := by
  induction m with
  | nil => rfl
  | cons kv rest ih =>
    obtain ⟨k1, w⟩ := kv
    simp only [List.map_cons, List.mem_cons, not_or] at h
    rw [mapGet, if_neg (fun e => h.1 e.symm)]
    exact ih h.2

theorem mem_keysOf_putAll (m : GoMap) : ∀ (merged : GoMap) (k : String),
    k ∈ keysOf (putAll merged m) ↔ k ∈ keysOf merged ∨ k ∈ keysOf m := by
  induction m with
  | nil =>
    intro merged k
    simp [putAll, keysOf]
  | cons kv rest ih =>
    intro merged k
    have step : putAll merged (kv :: rest) = putAll (mapPut kv.1 kv.2 merged) rest := rfl
    rw [step, ih, mem_keysOf_mapPut]
    simp only [keysOf, List.map_cons, List.mem_cons]
    tauto

theorem IsMap_putAll (m : GoMap) : ∀ merged : GoMap, IsMap merged →
    IsMap (putAll merged m) := by
  induction m with
  | nil =>
    intro merged h
    exact h
  | cons kv rest ih =>
    intro merged h
    have step : putAll merged (kv :: rest) = putAll (mapPut kv.1 kv.2 merged) rest := rfl
    rw [step]
    exact ih _ (IsMap_mapPut _ _ _ h)

theorem mapGet_putAll (m : GoMap) : ∀ (merged : GoMap) (k : String), IsMap m →
    mapGet k (putAll merged m) = if k ∈ keysOf m then mapGet k m else mapGet k merged := by
  induction m with
  | nil =>
    intro merged k _
    simp [putAll, keysOf]
  | cons kv rest ih =>
    intro merged k h
    obtain ⟨k1, w⟩ := kv
    have hrest : IsMap rest := (List.nodup_cons.mp h).2
    have hk1 : k1 ∉ keysOf rest := (List.nodup_cons.mp h).1
    have step : putAll merged ((k1, w) :: rest) = putAll (mapPut k1 w merged) rest := rfl
    rw [step, ih _ k hrest, mapGet_mapPut, mapGet]
    by_cases hk : k = k1
    · have hnot : k ∉ keysOf rest := hk ▸ hk1
      rw [if_neg hnot, if_pos hk, if_pos hk.symm, if_pos]
      simp [keysOf, hk]
    · have hk' : ¬ k1 = k := fun e => hk e.symm
      rw [if_neg hk, if_neg hk']
      by_cases hmem : k ∈ keysOf rest
      · rw [if_pos hmem, if_pos]
        simp only [keysOf, List.map_cons, List.mem_cons]
        exact Or.inr hmem
      · rw [if_neg hmem, if_neg]
        simp only [keysOf, List.map_cons, List.mem_cons, not_or]
        exact ⟨hk, hmem⟩

theorem mergePaths_eq (a b : GoVal) :
    mergePaths a b = putAll (putAll [] (entriesOf a)) (entriesOf b) := by
  cases a <;> cases b <;> rfl

theorem mergeSchemas_eq (a b : GoVal) :
    mergeSchemas a b = putAll (putAll [] (entriesOf a)) (entriesOf b) := by
  cases a <;> cases b <;> rfl

/-- C19: for all maps `a` (first upstream) and `b` (second upstream), each key once,
`mergePaths a b` and `mergeSchemas a b` return the same map; its keys are those of
`a` and those of `b`, each once, and its value at `k` is `b[k]` when `k` is a key of
`b` and `a[k]` otherwise.  An argument that is not a map contributes no keys. -/
theorem merge_last_source_wins (a b : GoVal) (ha : IsMap (entriesOf a))
    (hb : IsMap (entriesOf b)) :
    mergeSchemas a b = mergePaths a b ∧
      IsMap (mergePaths a b) ∧
      (∀ k, k ∈ keysOf (mergePaths a b) ↔
        k ∈ keysOf (entriesOf a) ∨ k ∈ keysOf (entriesOf b)) ∧
      (∀ k, mapGet k (mergePaths a b) =
        if k ∈ keysOf (entriesOf b) then mapGet k (entriesOf b)
        else mapGet k (entriesOf a)) ∧
      ((∀ m, a ≠ .obj m) → ∀ k, k ∈ keysOf (mergePaths a b) ↔ k ∈ keysOf (entriesOf b)) ∧
      ((∀ m, b ≠ .obj m) → ∀ k, k ∈ keysOf (mergePaths a b) ↔ k ∈ keysOf (entriesOf a)) := by
  have hempty : IsMap ([] : GoMap) := List.nodup_nil
  have hget : ∀ k, mapGet k (putAll [] (entriesOf a)) = mapGet k (entriesOf a) := by
    intro k
    rw [mapGet_putAll _ _ _ ha]
    by_cases hk : k ∈ keysOf (entriesOf a)
    · rw [if_pos hk]
    · rw [if_neg hk, mapGet_eq_none_of_not_mem k _ hk]
      rfl
  have hkeys : ∀ k, k ∈ keysOf (mergePaths a b) ↔
      k ∈ keysOf (entriesOf a) ∨ k ∈ keysOf (entriesOf b) := by
    intro k
    rw [mergePaths_eq, mem_keysOf_putAll, mem_keysOf_putAll]
    simp [keysOf]
  refine ⟨by rw [mergeSchemas_eq, mergePaths_eq], ?_, hkeys, ?_, ?_, ?_⟩
  · rw [mergePaths_eq]
    exact IsMap_putAll _ _ (IsMap_putAll _ _ hempty)
  · intro k
    rw [mergePaths_eq, mapGet_putAll _ _ _ hb, hget]
  · intro hna k
    rw [hkeys]
    have : entriesOf a = [] := by
      cases a <;> first | rfl | exact absurd rfl (hna _)
    rw [this]
    simp [keysOf]
  · intro hnb k
    rw [hkeys]
    have : entriesOf b = [] := by
      cases b <;> first | rfl | exact absurd rfl (hnb _)
    rw [this]
    simp [keysOf]

/-- C19 on the paths of the two services: the merged map has the users paths, then
the paths only the orders service has; the shared `/health` holds the orders entry;
a document without a paths map contributes nothing. -/
theorem merge_last_source_wins_witness :
    IsMap (entriesOf usersPaths) ∧ IsMap (entriesOf ordersPaths) ∧
      keysOf (mergePaths usersPaths ordersPaths) =
        ["/v1/users/me", "/health", "x-note", "/v1/orders"] ∧
      mapGet "/health" (mergePaths usersPaths ordersPaths) =
        some (.obj [("get", .obj [("summary", .str "Orders health")])]) ∧
      mapGet "/health" (mergePaths usersPaths ordersPaths) =
        (if "/health" ∈ keysOf (entriesOf ordersPaths)
          then mapGet "/health" (entriesOf ordersPaths)
          else mapGet "/health" (entriesOf usersPaths)) ∧
      keysOf (mergeSchemas .null ordersPaths) = ["/v1/orders", "/health"] :=
  ⟨by decide, by decide, by decide, rfl,
    (merge_last_source_wins usersPaths ordersPaths (by decide) (by decide)).2.2.2.1 "/health",
    by decide⟩

theorem mapGet_map_snd (f : GoVal → GoVal) (k : String) (m : GoMap) :
    mapGet k (m.map fun kv => (kv.1, f kv.2)) = (mapGet k m).map f := by
  induction m with
  | nil => rfl
  | cons kv rest ih =>
    obtain ⟨k1, w⟩ := kv
    rw [List.map_cons, mapGet, mapGet]
    by_cases h : k1 = k
    · rw [if_pos h, if_pos h]
      rfl
    · rw [if_neg h, if_neg h, ih]

theorem keysOf_map_snd (f : GoVal → GoVal) (m : GoMap) :
    keysOf (m.map fun kv => (kv.1, f kv.2)) = keysOf m := by
  simp [keysOf, List.map_map, Function.comp_def]

theorem mapGet_mapDelete (key k : String) (m : GoMap) :
    mapGet k (mapDelete key m) = if k = key then none else mapGet k m := by
  induction m with
  | nil =>
    simp [mapDelete, mapGet]
  | cons kv rest ih =>
    obtain ⟨k1, w⟩ := kv
    unfold mapDelete at ih ⊢
    by_cases h1 : k1 = key
    · rw [List.filter_cons_of_neg (by simpa using h1), ih, mapGet]
      by_cases hk : k = key
      · rw [if_pos hk, if_pos hk]
      · rw [if_neg hk, if_neg hk, if_neg (fun e : k1 = k => hk (e.symm.trans h1))]
    · rw [List.filter_cons_of_pos (by simpa using h1), mapGet, mapGet, ih]
      by_cases hk : k1 = k
      · rw [if_pos hk, if_pos hk, if_neg (fun e : k = key => h1 (hk.trans e))]
      · rw [if_neg hk, if_neg hk]

theorem keysOf_mapDelete (key : String) (m : GoMap) :
    keysOf (mapDelete key m) = (keysOf m).filter fun k => k ≠ key := by
  induction m with
  | nil => rfl
  | cons kv rest ih =>
    obtain ⟨k1, w⟩ := kv
    unfold mapDelete keysOf at ih ⊢
    by_cases h1 : k1 = key
    · rw [List.filter_cons_of_neg (by simpa using h1), List.map_cons,
        List.filter_cons_of_neg (by simpa using h1), ih]
    · rw [List.filter_cons_of_pos (by simpa using h1), List.map_cons, List.map_cons,
        List.filter_cons_of_pos (by simpa using h1), ih]

theorem stripDetails_of_not_obj (details : GoVal) (h : ∀ d, details ≠ .obj d) :
    stripDetails details = details := by
  cases details <;> first | rfl | exact absurd rfl (h _)

theorem stripOps_of_not_obj (ops : GoVal) (h : ∀ methods, ops ≠ .obj methods) :
    stripOps ops = ops := by
  cases ops <;> first | rfl | exact absurd rfl (h _)

/-- C20: for every paths map, `removeLocalSecurity` returns a map with the same path
keys; a path item that is a map keeps its method keys, and each of its operations
that is a map comes back without a `security` key, its other keys in their order
and with their values; path items and operations that are not maps are returned as
they are. -/
theorem removeLocalSecurity_strips_security (pm : GoMap) :
    keysOf (removeLocalSecurity (.obj pm)) = keysOf pm ∧
      ∀ path ops, mapGet path pm = some ops →
        ((∀ methods, ops ≠ .obj methods) →
          mapGet path (removeLocalSecurity (.obj pm)) = some ops) ∧
        ∀ methods, ops = .obj methods →
          ∃ stripped, mapGet path (removeLocalSecurity (.obj pm)) = some (.obj stripped) ∧
            keysOf stripped = keysOf methods ∧
            ∀ method details, mapGet method methods = some details →
              ((∀ d, details ≠ .obj d) → mapGet method stripped = some details) ∧
              ∀ d, details = .obj d →
                ∃ e, mapGet method stripped = some (.obj e) ∧
                  "security" ∉ keysOf e ∧ mapGet "security" e = none ∧
                  keysOf e = (keysOf d).filter (fun k => k ≠ "security") ∧
                  ∀ k, k ≠ "security" → mapGet k e = mapGet k d := by
  have hout : removeLocalSecurity (.obj pm) = pm.map fun po => (po.1, stripOps po.2) := rfl
  refine ⟨by rw [hout, keysOf_map_snd], ?_⟩
  intro path ops hops
  have hget : mapGet path (removeLocalSecurity (.obj pm)) = some (stripOps ops) := by
    rw [hout, mapGet_map_snd, hops]
    rfl
  refine ⟨fun h => by rw [hget, stripOps_of_not_obj ops h], ?_⟩
  intro methods hm
  have hstrip : stripOps ops = .obj (methods.map fun md => (md.1, stripDetails md.2)) := by
    rw [hm]
    rfl
  refine ⟨_, by rw [hget, hstrip], keysOf_map_snd _ _, ?_⟩
  intro method details hd
  have hget2 : mapGet method (methods.map fun md => (md.1, stripDetails md.2)) =
      some (stripDetails details) := by
    rw [mapGet_map_snd, hd]
    rfl
  refine ⟨fun h => by rw [hget2, stripDetails_of_not_obj details h], ?_⟩
  intro d hdd
  have hsd : stripDetails details = .obj (mapDelete "security" d) := by
    rw [hdd]
    rfl
  refine ⟨_, by rw [hget2, hsd], ?_, ?_, keysOf_mapDelete _ _, ?_⟩
  · rw [keysOf_mapDelete]
    simp
  · rw [mapGet_mapDelete, if_pos rfl]
  · intro k hk
    rw [mapGet_mapDelete, if_neg hk]

/-- C20 on the users paths: the profile path keeps its three keys, its `get`
operation comes back without `security` and with its summary and responses, and the
path entry that is a string is unchanged. -/
theorem removeLocalSecurity_strips_security_witness :
    keysOf (removeLocalSecurity usersPaths) = ["/v1/users/me", "/health", "x-note"] ∧
      mapGet "/v1/users/me" (removeLocalSecurity usersPaths) =
        some (.obj [
          ("get", .obj [("summary", .str "Profile"),
            ("responses", .obj [("200", .obj [("description", .str "OK")])])]),
          ("put", .obj [("summary", .str "Update profile")]),
          ("parameters", .arr [])]) ∧
      mapGet "x-note" (removeLocalSecurity usersPaths) = some (.str "users") :=
  ⟨(removeLocalSecurity_strips_security (entriesOf usersPaths)).1, rfl,
    ((removeLocalSecurity_strips_security (entriesOf usersPaths)).2 "x-note"
      (.str "users") rfl).1 (fun _ h => GoVal.noConfusion h)⟩

/-! ## swagger.go: the handler -/

/-- When the fetch of the users document fails, the answer of `SwaggerHandler` is 500
and its body holds the text of the error. -/
theorem SwaggerHandler_users_error (cfg : Config) (net : HttpClient) (err : String)
    (next : Context → Context) (c : Context)
    (h : fetchSwagger net (cfg.UsersServiceURL ++ "/swagger/doc.json") = .error err) :
    SwaggerHandler cfg net next c =
      c.JSON 500 (.obj [("error", .str ("Failed to fetch users swagger: " ++ err))]) := by
  unfold SwaggerHandler
  rw [h]

/-- When the users document is fetched and the fetch of the orders document fails,
the answer of `SwaggerHandler` is 500 and its body holds the text of the error. -/
theorem SwaggerHandler_orders_error (cfg : Config) (net : HttpClient) (err : String)
    (usersSwagger : GoMap) (next : Context → Context) (c : Context)
    (hu : fetchSwagger net (cfg.UsersServiceURL ++ "/swagger/doc.json") = .ok usersSwagger)
    (h : fetchSwagger net (cfg.OrdersServiceURL ++ "/swagger/doc.json") = .error err) :
    SwaggerHandler cfg net next c =
      c.JSON 500 (.obj [("error", .str ("Failed to fetch orders swagger: " ++ err))]) := by
  unfold SwaggerHandler
  rw [hu]
  simp only
  rw [h]

/-- C21, at the failing input `GET /swagger-docs/doc.json`, the path on which `Setup`
registers the handler. With the users service refusing the connection the
aggregation fails with status 500 and no merged document, but the body shown to the
client is the text of the transport error, with the internal address of the users
service and the address dialled; with a timeout instead the body is a different one;
with an upstream answering 503 the body holds that status. -/
theorem SwaggerHandler_leaks_fetch_error :
    routeOf "GET" "/swagger-docs/doc.json" = some .swaggerDoc ∧
    (SwaggerHandler demoConfig demoNetRefused id (newContext demoGateway
        (demoRequest "GET" "/swagger-docs/doc.json" []))).status = 500 ∧
    (SwaggerHandler demoConfig demoNetRefused id (newContext demoGateway
        (demoRequest "GET" "/swagger-docs/doc.json" []))).body =
      .json (.obj [("error", .str ("Failed to fetch users swagger: " ++
        "Get \"" ++ demoConfig.UsersServiceURL ++ "/swagger/doc.json\": " ++
        "dial tcp 172.18.0.5:8082: connect: connection refused"))]) ∧
    Contains ("Failed to fetch users swagger: " ++
        "Get \"" ++ demoConfig.UsersServiceURL ++ "/swagger/doc.json\": " ++
        "dial tcp 172.18.0.5:8082: connect: connection refused")
      "172.18.0.5:8082: connect: connection refused" = true ∧
    Contains ("Failed to fetch users swagger: " ++
        "Get \"" ++ demoConfig.UsersServiceURL ++ "/swagger/doc.json\": " ++
        "dial tcp 172.18.0.5:8082: connect: connection refused")
      demoConfig.UsersServiceURL = true ∧
    (SwaggerHandler demoConfig demoNetTimeout id (newContext demoGateway
        (demoRequest "GET" "/swagger-docs/doc.json" []))).body =
      .json (.obj [("error", .str ("Failed to fetch users swagger: " ++
        "Get \"" ++ demoConfig.UsersServiceURL ++ "/swagger/doc.json\": " ++
        "context deadline exceeded"))]) ∧
    (SwaggerHandler demoConfig demoNetUnavailable id (newContext demoGateway
        (demoRequest "GET" "/swagger-docs/doc.json" []))).body =
      .json (.obj [("error", .str "Failed to fetch users swagger: status: 503")]) := by
  refine ⟨by decide, rfl, rfl, by decide, by decide, rfl, rfl⟩

/-! ## The role middleware of the backends -/

theorem headerRoles_eq (h : String) :
    headerRoles h = ((SplitComma h).map TrimSpace).filter (fun s => s ≠ "") := by
  unfold headerRoles
  rw [foldl_roles_split, List.nil_append]

theorem rolesFromKeys_none (c : ServiceContext) (h : mapGet "roles" c.Keys = none) :
    rolesFromKeys c = "" := by
  unfold rolesFromKeys
  rw [h]

/-- C23. `RoleMiddleware(allowed...)` on a context without roles in its keys, with
`h` the `X-User-Roles` header.  If `h` is empty the answer is 401 and the chain is
aborted, whatever the next handler is.  Otherwise, with `R` the comma-separated items
of `h`, trimmed, the empty ones dropped: the result is that of the next handler when
`R` holds the admin role, the superadmin role or a role of `allowed`; in every other
case the answer is 403 with the `forbidden` envelope and the chain is aborted,
whatever the next handler is. -/
theorem RoleMiddleware_decides (ur : Userroles) (allowed : List String) (c : ServiceContext)
    (hkeys : mapGet "roles" c.Keys = none) :
    (c.Request.Header.Get "X-User-Roles" = "" →
      ∀ next, RoleMiddleware ur allowed next c =
        { c with status := 401,
                 body := .json (errorEnvelope "unauthorized" "Missing roles header"),
                 aborted := true }) ∧
    (c.Request.Header.Get "X-User-Roles" ≠ "" →
      ((∃ r, r ∈ ((SplitComma (c.Request.Header.Get "X-User-Roles")).map TrimSpace).filter
            (fun s => s ≠ "") ∧
          (r = ur.RoleAdmin ∨ r = ur.RoleSuperadmin ∨ r ∈ allowed)) →
        ∀ next, RoleMiddleware ur allowed next c = next c) ∧
      ((¬ ∃ r, r ∈ ((SplitComma (c.Request.Header.Get "X-User-Roles")).map TrimSpace).filter
            (fun s => s ≠ "") ∧
          (r = ur.RoleAdmin ∨ r = ur.RoleSuperadmin ∨ r ∈ allowed)) →
        ∀ next, RoleMiddleware ur allowed next c =
          { c with status := 403,
                   body := .json (.obj [("success", .bool false),
                     ("error", .obj [("code", .str "forbidden"),
                       ("message", .str "forbidden")])]),
                   aborted := true })) := by
  constructor
  · intro h next
    unfold RoleMiddleware
    simp only [h, if_true, rolesFromKeys_none c hkeys]
    rfl
  · intro h
    have hR := headerRoles_eq (c.Request.Header.Get "X-User-Roles")
    constructor
    · rintro ⟨r, hr, hcase⟩ next
      unfold RoleMiddleware
      simp only [h, if_false]
      rw [hR]
      by_cases hadm : (((SplitComma (c.Request.Header.Get "X-User-Roles")).map
          TrimSpace).filter (fun s => s ≠ "")).any
            (fun r => decide (r = ur.RoleAdmin ∨ r = ur.RoleSuperadmin)) = true
      · rw [if_pos hadm]
      · rw [if_neg hadm]
        have hall : (((SplitComma (c.Request.Header.Get "X-User-Roles")).map
            TrimSpace).filter (fun s => s ≠ "")).any
              (fun userRole => allowed.any (fun a => decide (userRole = a))) = true := by
          rw [List.any_eq_true]
          refine ⟨r, hr, ?_⟩
          rcases hcase with h1 | h1 | h1
          · exact absurd (List.any_eq_true.2 ⟨r, hr, by simp [h1]⟩) hadm
          · exact absurd (List.any_eq_true.2 ⟨r, hr, by simp [h1]⟩) hadm
          · exact List.any_eq_true.2 ⟨r, h1, by simp⟩
        rw [if_pos hall]
    · intro hno next
      unfold RoleMiddleware
      simp only [h, if_false]
      rw [hR]
      have hadm : ¬ (((SplitComma (c.Request.Header.Get "X-User-Roles")).map
          TrimSpace).filter (fun s => s ≠ "")).any
            (fun r => decide (r = ur.RoleAdmin ∨ r = ur.RoleSuperadmin)) = true := by
        intro hc
        obtain ⟨r, hr, hd⟩ := List.any_eq_true.1 hc
        have := of_decide_eq_true hd
        exact hno ⟨r, hr, by tauto⟩
      have hall : ¬ (((SplitComma (c.Request.Header.Get "X-User-Roles")).map
          TrimSpace).filter (fun s => s ≠ "")).any
            (fun userRole => allowed.any (fun a => decide (userRole = a))) = true := by
        intro hc
        obtain ⟨r, hr, hd⟩ := List.any_eq_true.1 hc
        obtain ⟨a, ha, hd2⟩ := List.any_eq_true.1 hd
        have : r = a := of_decide_eq_true hd2
        exact hno ⟨r, hr, Or.inr (Or.inr (this ▸ ha))⟩
      rw [if_neg hadm, if_neg hall]
      rfl

/-- C23 on three requests to the cancel route, which allows engineers and managers:
no header, the header of a manager, and the header of an observer. -/
theorem RoleMiddleware_decides_witness :
    (∀ next, RoleMiddleware demoRoles ["engineer", "manager"] next (serviceContext []) =
      { serviceContext [] with
          status := 401,
          body := .json (errorEnvelope "unauthorized" "Missing roles header"),
          aborted := true }) ∧
    (∀ next, RoleMiddleware demoRoles ["engineer", "manager"] next
        (serviceContext [" observer , manager"]) =
      next (serviceContext [" observer , manager"])) ∧
    (RoleMiddleware demoRoles ["engineer", "manager"] id
        (serviceContext ["observer,,"])).status = 403 :=
  ⟨(RoleMiddleware_decides demoRoles ["engineer", "manager"] (serviceContext []) rfl).1
      (by decide),
   ((RoleMiddleware_decides demoRoles ["engineer", "manager"]
      (serviceContext [" observer , manager"]) rfl).2 (by decide)).1
        ⟨"manager", by decide, Or.inr (Or.inr (by decide))⟩,
   by decide⟩

/-! ## The order service -/

/-- C24. `OrderService.UpdateOrder(id)` on a stored order.  When the status is
Created, Accepted or Processed the repository's `UpdateOrder` is called with the
order in the next status (Accepted, Processed, Closed): when that save and the fetch
after it succeed, the response of the re-fetched order is returned, and an error of
either is returned as it is.  When the status is Closed or Canceled the result is
the error `order is already closed` with no response, in the state the first fetch
left, whatever the repository's `UpdateOrder` is: it is never called. -/
theorem UpdateOrder_advances {σ : Type} (repo : OrderRepositoryInterface σ) (s s1 : σ)
    (id : Nat) (order : Order) (hget : repo.GetOrderByID s id = (.ok order, s1)) :
    (∀ st next, (st, next) ∈ [(StatusCreated, StatusAccepted),
        (StatusAccepted, StatusProcessed), (StatusProcessed, StatusClosed)] →
      order.Status = st →
      (∀ s2, repo.UpdateOrder s1 { order with Status := next } = (.ok (), s2) →
        (∀ updated s3, repo.GetOrderByID s2 id = (.ok updated, s3) →
          OrderService.UpdateOrder repo s id = (.ok (toOrderResponse updated), s3)) ∧
        (∀ err s3, repo.GetOrderByID s2 id = (.error err, s3) →
          OrderService.UpdateOrder repo s id = (.error err, s3))) ∧
      (∀ err s2, repo.UpdateOrder s1 { order with Status := next } = (.error err, s2) →
        OrderService.UpdateOrder repo s id = (.error err, s2))) ∧
    (order.Status = StatusClosed ∨ order.Status = StatusCanceled →
      OrderService.UpdateOrder repo s id = (.error "order is already closed", s1) ∧
      ∀ repo2 : OrderRepositoryInterface σ, repo2.GetOrderByID = repo.GetOrderByID →
        OrderService.UpdateOrder repo2 s id = (.error "order is already closed", s1)) := by
  constructor
  · intro st next hmem hst
    have hopen : ¬ (order.Status = StatusClosed ∨ order.Status = StatusCanceled) := by
      simp only [List.mem_cons, Prod.mk.injEq, List.mem_singleton, List.not_mem_nil,
        or_false] at hmem
      rw [hst]
      rcases hmem with ⟨h1, _⟩ | ⟨h1, _⟩ | ⟨h1, _⟩ <;> rw [h1] <;> decide
    have hnext : order.NextStatus = .ok { order with Status := next } := by
      simp only [List.mem_cons, Prod.mk.injEq, List.mem_singleton, List.not_mem_nil,
        or_false] at hmem
      unfold Order.NextStatus
      rw [hst]
      rcases hmem with ⟨h1, h2⟩ | ⟨h1, h2⟩ | ⟨h1, h2⟩ <;> rw [h1, h2] <;> rfl
    refine ⟨fun s2 hsave => ⟨fun updated s3 hre => ?_, fun err s3 hre => ?_⟩,
      fun err s2 hsave => ?_⟩
    · unfold OrderService.UpdateOrder
      simp only [hget, if_neg hopen, hnext, hsave, hre]
    · unfold OrderService.UpdateOrder
      simp only [hget, if_neg hopen, hnext, hsave, hre]
    · unfold OrderService.UpdateOrder
      simp only [hget, if_neg hopen, hnext, hsave]
  · intro hclosed
    constructor
    · unfold OrderService.UpdateOrder
      simp only [hget, if_pos hclosed]
    · intro repo2 h2
      unfold OrderService.UpdateOrder
      simp only [h2, hget, if_pos hclosed]

/-- C24 on the repository in memory: the order 1, Created, is saved as Accepted and
returned so after three calls; the order 4, Closed, is refused after the first
fetch. -/
theorem UpdateOrder_advances_witness :
    OrderService.UpdateOrder memoryOrders demoOrders 1 =
      (.ok ⟨1, 100, StatusAccepted, 2000, [⟨1, "Laptop", 2⟩]⟩,
       ⟨[⟨1, 100, StatusAccepted, 2000, [⟨1, "Laptop", 2⟩]⟩, ⟨2, 100, StatusAccepted, 10, []⟩,
         ⟨3, 100, StatusProcessed, 20, []⟩, ⟨4, 100, StatusClosed, 30, []⟩,
         ⟨5, 100, StatusCanceled, 40, []⟩],
        ["GetOrderByID", "UpdateOrder", "GetOrderByID"]⟩) ∧
    OrderService.UpdateOrder memoryOrders demoOrders 4 =
      (.error "order is already closed", { demoOrders with calls := ["GetOrderByID"] }) :=
  ⟨((UpdateOrder_advances memoryOrders demoOrders { demoOrders with calls := ["GetOrderByID"] }
      1 ⟨1, 100, StatusCreated, 2000, [⟨1, "Laptop", 2⟩]⟩ rfl).1 StatusCreated StatusAccepted
        (by decide) rfl).1 _ rfl |>.1 _ _ rfl,
   ((UpdateOrder_advances memoryOrders demoOrders { demoOrders with calls := ["GetOrderByID"] }
      4 ⟨4, 100, StatusClosed, 30, []⟩ rfl).2 (Or.inl rfl)).1⟩

/-- C25. `OrderService.CancelOrder(id, userID, roles)` on a stored order.  If the
trimmed items of the roles string include the engineer role and the owner of the
order is not `userID`, the result is the error `access forbidden`.  Otherwise, if the
status is Closed or Canceled, it is the error `order cannot be canceled`.  In both
cases nothing is saved: the state is the one the fetch left and the repository's
`UpdateOrder` is never called.  Otherwise the repository's `UpdateOrder` is called
with the order in the status Canceled, and when it succeeds the response of that
order, with the status Canceled, is returned. -/
theorem CancelOrder_cases {σ : Type} (ur : Userroles) (repo : OrderRepositoryInterface σ)
    (s s1 : σ) (id userID : Nat) (rolesStr : String) (order : Order)
    (hget : repo.GetOrderByID s id = (.ok order, s1)) :
    ((ur.RoleEngineer ∈ cancelRoles rolesStr ∧ order.UserId ≠ userID) →
      ∀ repo2 : OrderRepositoryInterface σ, repo2.GetOrderByID = repo.GetOrderByID →
        OrderService.CancelOrder ur repo2 s id userID rolesStr =
          (.error "access forbidden", s1)) ∧
    (¬ (ur.RoleEngineer ∈ cancelRoles rolesStr ∧ order.UserId ≠ userID) →
      ((order.Status = StatusClosed ∨ order.Status = StatusCanceled) →
        ∀ repo2 : OrderRepositoryInterface σ, repo2.GetOrderByID = repo.GetOrderByID →
          OrderService.CancelOrder ur repo2 s id userID rolesStr =
            (.error "order cannot be canceled", s1)) ∧
      (¬ (order.Status = StatusClosed ∨ order.Status = StatusCanceled) →
        (∀ s2, repo.UpdateOrder s1 { order with Status := StatusCanceled } = (.ok (), s2) →
          OrderService.CancelOrder ur repo s id userID rolesStr =
            (.ok (toOrderResponse { order with Status := StatusCanceled }), s2) ∧
          (toOrderResponse { order with Status := StatusCanceled }).Status =
            StatusCanceled) ∧
        (∀ err s2,
          repo.UpdateOrder s1 { order with Status := StatusCanceled } = (.error err, s2) →
          OrderService.CancelOrder ur repo s id userID rolesStr = (.error err, s2)))) := by
  have hany : ∀ l : List String,
      (l.any (fun role => decide (role = ur.RoleEngineer)) = true) ↔ ur.RoleEngineer ∈ l := by
    intro l
    rw [List.any_eq_true]
    constructor
    · rintro ⟨r, hr, hd⟩
      exact (of_decide_eq_true hd) ▸ hr
    · intro h
      exact ⟨_, h, decide_eq_true rfl⟩
  constructor
  · intro hforb repo2 h2
    unfold OrderService.CancelOrder
    simp only [h2, hget]
    rw [if_pos ⟨(hany _).2 hforb.1, hforb.2⟩]
  · intro hok
    have hguard : ¬ ((cancelRoles rolesStr).any
        (fun role => decide (role = ur.RoleEngineer)) = true ∧ order.UserId ≠ userID) :=
      fun hc => hok ⟨(hany _).1 hc.1, hc.2⟩
    constructor
    · intro hclosed repo2 h2
      have hc : order.Cancel = .error "order cannot be canceled" := by
        unfold Order.Cancel
        rw [if_pos hclosed]
      unfold OrderService.CancelOrder
      simp only [h2, hget]
      rw [if_neg hguard]
      simp only [hc]
    · intro hopen
      have hc : order.Cancel = .ok { order with Status := StatusCanceled } := by
        unfold Order.Cancel
        rw [if_neg hopen]
      constructor
      · intro s2 hsave
        refine ⟨?_, rfl⟩
        unfold OrderService.CancelOrder
        simp only [hget]
        rw [if_neg hguard]
        simp only [hc, hsave]
      · intro err s2 hsave
        unfold OrderService.CancelOrder
        simp only [hget]
        rw [if_neg hguard]
        simp only [hc, hsave]

/-- C25 on the repository in memory: an engineer who is not the owner is refused, the
owner cancels the order 1, and the closed order 4 cannot be canceled. -/
theorem CancelOrder_cases_witness :
    OrderService.CancelOrder demoRoles memoryOrders demoOrders 1 999 "engineer" =
      (.error "access forbidden", { demoOrders with calls := ["GetOrderByID"] }) ∧
    OrderService.CancelOrder demoRoles memoryOrders demoOrders 4 100 "engineer" =
      (.error "order cannot be canceled", { demoOrders with calls := ["GetOrderByID"] }) ∧
    (OrderService.CancelOrder demoRoles memoryOrders demoOrders 1 100 "engineer").1 =
      .ok ⟨1, 100, StatusCanceled, 2000, [⟨1, "Laptop", 2⟩]⟩ :=
  ⟨(CancelOrder_cases demoRoles memoryOrders demoOrders
      { demoOrders with calls := ["GetOrderByID"] } 1 999 "engineer"
      ⟨1, 100, StatusCreated, 2000, [⟨1, "Laptop", 2⟩]⟩ rfl).1 ⟨by decide, by decide⟩
        memoryOrders rfl,
   ((CancelOrder_cases demoRoles memoryOrders demoOrders
      { demoOrders with calls := ["GetOrderByID"] } 4 100 "engineer"
      ⟨4, 100, StatusClosed, 30, []⟩ rfl).2 (fun h => h.2 rfl)).1 (Or.inl rfl)
        memoryOrders rfl,
   rfl⟩

/-- C26 (as amended): for every caller whose roles include the manager role and not
the engineer role, and every order whose status is neither Closed nor Canceled,
`CancelOrder` calls the repository's `UpdateOrder` with the order in the status
Canceled and, when that succeeds, returns the order with the status Canceled,
whoever owns the order. -/
theorem manager_cancels_any_order {σ : Type} (ur : Userroles)
    (repo : OrderRepositoryInterface σ) (s s1 s2 : σ) (id userID : Nat) (rolesStr : String)
    (order : Order) (hget : repo.GetOrderByID s id = (.ok order, s1))
    (_hmanager : ur.RoleManager ∈ cancelRoles rolesStr)
    (hengineer : ur.RoleEngineer ∉ cancelRoles rolesStr)
    (hopen : order.Status ≠ StatusClosed ∧ order.Status ≠ StatusCanceled)
    (hsave : repo.UpdateOrder s1 { order with Status := StatusCanceled } = (.ok (), s2)) :
    OrderService.CancelOrder ur repo s id userID rolesStr =
        (.ok (toOrderResponse { order with Status := StatusCanceled }), s2) ∧
      (toOrderResponse { order with Status := StatusCanceled }).Status = StatusCanceled := by
  have hguard : ¬ ((cancelRoles rolesStr).any
      (fun role => decide (role = ur.RoleEngineer)) = true ∧ order.UserId ≠ userID) := by
    rintro ⟨hc, _⟩
    obtain ⟨r, hr, hd⟩ := List.any_eq_true.1 hc
    exact hengineer ((of_decide_eq_true hd) ▸ hr)
  have hc : order.Cancel = .ok { order with Status := StatusCanceled } := by
    unfold Order.Cancel
    rw [if_neg (fun h => h.elim hopen.1 hopen.2)]
  refine ⟨?_, rfl⟩
  unfold OrderService.CancelOrder
  simp only [hget]
  rw [if_neg hguard]
  simp only [hc, hsave]

/-- C26 (as amended) on the repository in memory: a manager who is not the owner
cancels the order 1. -/
theorem manager_cancels_any_order_witness :
    OrderService.CancelOrder demoRoles memoryOrders demoOrders 1 999 "manager" =
      (.ok ⟨1, 100, StatusCanceled, 2000, [⟨1, "Laptop", 2⟩]⟩,
       ⟨[⟨1, 100, StatusCanceled, 2000, [⟨1, "Laptop", 2⟩]⟩, ⟨2, 100, StatusAccepted, 10, []⟩,
         ⟨3, 100, StatusProcessed, 20, []⟩, ⟨4, 100, StatusClosed, 30, []⟩,
         ⟨5, 100, StatusCanceled, 40, []⟩],
        ["GetOrderByID", "UpdateOrder"]⟩) :=
  (manager_cancels_any_order demoRoles memoryOrders demoOrders
    { demoOrders with calls := ["GetOrderByID"] } _ 1 999 "manager"
    ⟨1, 100, StatusCreated, 2000, [⟨1, "Laptop", 2⟩]⟩ rfl (by decide) (by decide)
    ⟨by decide, by decide⟩ rfl).1

/-- C26 as stated fails: a caller with the roles engineer and manager who does not
own the order 1, whose status is Created, is refused with `access forbidden`, and the
order is not saved. -/
theorem engineer_manager_refused :
    demoRoles.RoleManager ∈ cancelRoles "engineer,manager" ∧
    (memoryOrders.GetOrderByID demoOrders 1).1 =
      .ok ⟨1, 100, StatusCreated, 2000, [⟨1, "Laptop", 2⟩]⟩ ∧
    OrderService.CancelOrder demoRoles memoryOrders demoOrders 1 999 "engineer,manager" =
      (.error "access forbidden", { demoOrders with calls := ["GetOrderByID"] }) := by
  refine ⟨by decide, rfl, rfl⟩

/-! ## Paged lists -/

theorem wrapInt64_of_range (x : Int) (h1 : -(2 ^ 63) ≤ x) (h2 : x < 2 ^ 63) :
    wrapInt64 x = x := by
  unfold wrapInt64
  omega

theorem wrapInt64_sub_one (x : Int) : wrapInt64 (wrapInt64 x - 1) = wrapInt64 (x - 1) := by
  unfold wrapInt64
  omega

theorem ceil_formula (total limit : Int) (hl : 1 ≤ limit) :
    (total + limit - 1) / limit = ceilDiv total limit := by
  unfold ceilDiv
  have h := Int.emod_add_ediv (-total) limit
  have hr0 := Int.emod_nonneg (-total) (by omega : limit ≠ 0)
  have hr1 := Int.emod_lt_of_pos (-total) (by omega : 0 < limit)
  have e : total + limit - 1 = (limit - 1 - (-total) % limit) + limit * (-((-total) / limit)) := by
    have : limit * (-((-total) / limit)) = -(limit * ((-total) / limit)) := by ring
    rw [this]; omega
  rw [e, Int.add_mul_ediv_left _ _ (by omega : limit ≠ 0),
    Int.ediv_eq_zero_of_lt (by omega) (by omega)]
  simp

/-- Within the range of `int64` the page count is the ceiling of `total / limit`. -/
theorem totalPagesOf_eq_ceil (total limit : Int) (ht : 0 ≤ total) (hl : 1 ≤ limit)
    (hsum : total + limit - 1 < 2 ^ 63) :
    totalPagesOf total limit = ceilDiv total limit := by
  unfold totalPagesOf
  rw [wrapInt64_sub_one, wrapInt64_of_range _ (by omega) hsum,
    Int.tdiv_eq_ediv (by omega) (by omega), ceil_formula total limit hl]

/-- The steps of `OrderService.GetOrders`: the two checks come before any call of the
repository; otherwise there is one response per order of the repository, in order,
the total is the repository's, and the page count is the ceiling of `total / limit`
as long as `total + limit - 1` is in the range of `int64`. -/
theorem GetOrders_steps {σ : Type} (repo : OrderRepositoryInterface σ) (s : σ)
    (input : OrderListInput) :
    (input.Page < 1 → OrderService.GetOrders repo s input = (.error "invalid page number", s)) ∧
    (1 ≤ input.Page → input.Limit < 1 →
      OrderService.GetOrders repo s input = (.error "invalid limit value", s)) ∧
    (1 ≤ input.Page → 1 ≤ input.Limit → ∀ orders total s1,
      repo.GetOrders s input.Page input.Limit input.UserID input.Status =
        (.ok (orders, total), s1) →
      OrderService.GetOrders repo s input =
        (.ok ⟨orders.map toOrderResponse, total, input.Page, input.Limit,
          totalPagesOf total input.Limit⟩, s1) ∧
      (0 ≤ total → total + input.Limit - 1 < 2 ^ 63 →
        totalPagesOf total input.Limit = ceilDiv total input.Limit)) := by
  refine ⟨fun h => ?_, fun h1 h2 => ?_, fun h1 h2 orders total s1 hrepo => ⟨?_, ?_⟩⟩
  · unfold OrderService.GetOrders
    rw [if_pos h]
  · unfold OrderService.GetOrders
    rw [if_neg (by omega), if_pos h2]
  · unfold OrderService.GetOrders
    rw [if_neg (by omega), if_neg (by omega)]
    simp only [hrepo]
    rfl
  · intro ht hsum
    exact totalPagesOf_eq_ceil total input.Limit ht h2 hsum

/-- The steps of `UserService.GetUsers`, as for `GetOrders`. -/
theorem GetUsers_steps {σ : Type} (repo : UserRepositoryInterface σ) (s : σ)
    (input : UserListInput) :
    (input.Page < 1 → UserService.GetUsers repo s input = (.error "invalid page number", s)) ∧
    (1 ≤ input.Page → input.Limit < 1 →
      UserService.GetUsers repo s input = (.error "invalid limit value", s)) ∧
    (1 ≤ input.Page → 1 ≤ input.Limit → ∀ users total s1,
      repo.GetUsers s input.Page input.Limit input.EmailFilter input.RoleFilter =
        (.ok (users, total), s1) →
      UserService.GetUsers repo s input =
        (.ok ⟨users.map userResponse, total, input.Page, input.Limit,
          totalPagesOf total input.Limit⟩, s1) ∧
      (0 ≤ total → total + input.Limit - 1 < 2 ^ 63 →
        totalPagesOf total input.Limit = ceilDiv total input.Limit)) := by
  refine ⟨fun h => ?_, fun h1 h2 => ?_, fun h1 h2 users total s1 hrepo => ⟨?_, ?_⟩⟩
  · unfold UserService.GetUsers
    rw [if_pos h]
  · unfold UserService.GetUsers
    rw [if_neg (by omega), if_pos h2]
  · unfold UserService.GetUsers
    rw [if_neg (by omega), if_neg (by omega)]
    simp only [hrepo]
  · intro ht hsum
    exact totalPagesOf_eq_ceil total input.Limit ht h2 hsum

/-- C27, at the failing input.  With two stored users, page 1 and the limit
9223372036854775807 (the largest `int`), `GetUsers` returns both users and the total
2, but the sum `total + limit - 1` wraps around and `TotalPages` is -1, where the
ceiling of `2 / limit` is 1; on the five stored orders `GetOrders` returns 0 pages.
With the limit 10 the page count is 1, the ceiling. -/
theorem page_count_overflows :
    (UserService.GetUsers memoryUsers demoUsers ⟨1, 9223372036854775807, "", ""⟩).1 =
      .ok ⟨[⟨1, "a@example.com", "A", ["engineer"]⟩, ⟨2, "b@example.com", "B", ["manager"]⟩],
        2, 1, 9223372036854775807, -1⟩ ∧
    ceilDiv 2 9223372036854775807 = 1 ∧
    totalPagesOf 2 9223372036854775807 = -1 ∧
    ((OrderService.GetOrders memoryOrders demoOrders
        ⟨1, 9223372036854775807, 0, ""⟩).1.toOption.map
      fun r => (r.Orders.length, r.Total, r.TotalPages)) = some (5, 5, 0) ∧
    ceilDiv 5 9223372036854775807 = 1 ∧
    ((UserService.GetUsers memoryUsers demoUsers ⟨1, 10, "", ""⟩).1.toOption.map
      fun r => (r.Users.length, r.Total, r.TotalPages)) = some (2, 2, 1) := by
  refine ⟨rfl, by decide, by decide, by decide, by decide, by decide⟩

/-! ## The user service -/

/-- The matcher `isValidEmail` accepts exactly the texts of the form
`local@domain.tld`. -/
theorem isValidEmail_iff (email : String) : isValidEmail email = true ↔ EmailForm email := by
  constructor
  · intro h
    unfold isValidEmail at h
    simp only at h
    have hsplit := List.takeWhile_append_dropWhile isLocalChar email.data
    cases hd : email.data.dropWhile isLocalChar with
    | nil => rw [hd] at h; exact absurd h (by simp)
    | cons a rest =>
      rw [hd] at h hsplit
      by_cases ha : a = '@'
      · subst ha
        simp only at h
        have hsplit2 := List.takeWhile_append_dropWhile isLetter rest.reverse
        cases hd2 : rest.reverse.dropWhile isLetter with
        | nil => rw [hd2] at h; exact absurd h (by simp)
        | cons b dom =>
          rw [hd2] at h hsplit2
          by_cases hb : b = '.'
          · subst hb
            simp only [Bool.and_eq_true, Bool.not_eq_true', List.isEmpty_eq_false,
              List.all_eq_true, decide_eq_true_eq] at h
            obtain ⟨⟨⟨h1, h2⟩, h3⟩, h4⟩ := h
            have hrest : rest = dom.reverse ++ '.' :: (rest.reverse.takeWhile isLetter).reverse := by
              have := congrArg List.reverse hsplit2
              simp only [List.reverse_append, List.reverse_cons, List.reverse_reverse,
                List.append_assoc, List.singleton_append] at this
              exact this.symm
            refine ⟨email.data.takeWhile isLocalChar, dom.reverse,
              (rest.reverse.takeWhile isLetter).reverse, ?_, ?_, ?_, ?_, ?_, ?_, ?_⟩
            · rw [← hrest]; exact hsplit.symm
            · intro hc; rw [hc] at h1; exact absurd h1 (by simp)
            · intro c hc; exact List.mem_takeWhile_imp hc
            · intro hc
              have : dom = [] := by simpa using hc
              rw [this] at h2; exact absurd h2 (by simp)
            · intro c hc; exact h3 c (List.mem_reverse.1 hc)
            · simpa using h4
            · intro c hc; exact List.mem_takeWhile_imp (List.mem_reverse.1 hc)
          · exfalso
            revert h
            split
            · rename_i heq
              exact absurd (List.cons.inj heq).1 hb
            · simp
      · exfalso
        revert h
        split
        · rename_i heq
          exact absurd (List.cons.inj heq).1 ha
        · simp
  · rintro ⟨loc, dom, tld, hdata, hloc, hlocAll, hdom, hdomAll, htld, htldAll⟩
    unfold isValidEmail
    simp only
    have hat : ¬ isLocalChar '@' = true := by decide
    have hdot : ¬ isLetter '.' = true := by decide
    have e1 : email.data.takeWhile isLocalChar = loc := by
      rw [hdata, List.takeWhile_append_of_pos hlocAll, List.takeWhile_cons_of_neg hat,
        List.append_nil]
    have e2 : email.data.dropWhile isLocalChar = '@' :: (dom ++ '.' :: tld) := by
      rw [hdata, List.dropWhile_append_of_pos hlocAll, List.dropWhile_cons_of_neg hat]
    have hrev : (dom ++ '.' :: tld).reverse = tld.reverse ++ '.' :: dom.reverse := by
      simp
    have htr : ∀ c ∈ tld.reverse, isLetter c = true :=
      fun c hc => htldAll c (List.mem_reverse.1 hc)
    have e3 : (dom ++ '.' :: tld).reverse.takeWhile isLetter = tld.reverse := by
      rw [hrev, List.takeWhile_append_of_pos htr, List.takeWhile_cons_of_neg hdot,
        List.append_nil]
    have e4 : (dom ++ '.' :: tld).reverse.dropWhile isLetter = '.' :: dom.reverse := by
      rw [hrev, List.dropWhile_append_of_pos htr, List.dropWhile_cons_of_neg hdot]
    rw [e1, e2]
    simp only
    rw [e3, e4]
    simp only [Bool.and_eq_true, Bool.not_eq_true', List.isEmpty_eq_false,
      List.all_eq_true, decide_eq_true_eq, List.length_reverse]
    refine ⟨⟨⟨?_, ?_⟩, ?_⟩, htld⟩
    · exact hloc
    · intro hc
      exact hdom (by simpa using hc)
    · intro c hc; exact hdomAll c (List.mem_reverse.1 hc)


theorem isValidRole_iff (ur : Userroles) (role : String) :
    isValidRole ur role = true ↔
      role ∈ [ur.RoleEngineer, ur.RoleManager, ur.RoleObserver, ur.RoleAdmin,
        ur.RoleSuperadmin] := by
  unfold isValidRole
  rw [List.any_eq_true]
  constructor
  · rintro ⟨v, hv, hd⟩
    exact (of_decide_eq_true hd) ▸ hv
  · intro h
    exact ⟨role, h, decide_eq_true rfl⟩

theorem find_invalid_none (ur : Userroles) (roles : List String)
    (h : ∀ role ∈ roles, isValidRole ur role = true) :
    (rolesOrDefault ur roles).find? (fun role => !isValidRole ur role) = none := by
  rw [List.find?_eq_none]
  intro role hr
  have hv : isValidRole ur role = true := by
    unfold rolesOrDefault at hr
    split_ifs at hr with h0
    · rw [List.mem_singleton] at hr
      rw [hr, isValidRole_iff]
      exact List.mem_cons_self _ _
    · exact h role hr
  simp [hv]

/-- The checks of `UserService.RegisterUser`, with the length of the password as the
code measures it, in bytes.  `UserService.RegisterUser` rejects its input without creating
a user, checking in this order: an empty email, password or name; an email not of
the form `local@domain.tld`; a password of fewer than 8 bytes; a role outside the
five role names, the first such role being named in the error; an email the
repository already finds, in which case the repository's `CreateUser` is never
called.  Otherwise, when hashing succeeds, the repository's `CreateUser` is called
with the lower-cased email, the name and the given roles, or the engineer role alone
when none are given, and when it succeeds the identifier, email, name and roles of
the created user are returned. -/
theorem RegisterUser_checks {σ : Type} (ur : Userroles)
    (bcrypt : String → Except String String) (repo : UserRepositoryInterface σ) (s : σ)
    (input : RegisterUserInput) :
    ((input.Email = "" ∨ input.Password = "" ∨ input.Name = "") →
      UserService.RegisterUser ur bcrypt repo s input =
        (.error "email, password, and name are required", s)) ∧
    (¬ (input.Email = "" ∨ input.Password = "" ∨ input.Name = "") →
      (¬ EmailForm input.Email →
        UserService.RegisterUser ur bcrypt repo s input = (.error "invalid email format", s)) ∧
      (EmailForm input.Email →
        (len input.Password < 8 →
          UserService.RegisterUser ur bcrypt repo s input =
            (.error "password must be at least 8 characters", s)) ∧
        (8 ≤ len input.Password →
          (∀ pre role post, input.Roles = pre ++ role :: post →
            (∀ r ∈ pre, r ∈ [ur.RoleEngineer, ur.RoleManager, ur.RoleObserver, ur.RoleAdmin,
              ur.RoleSuperadmin]) →
            role ∉ [ur.RoleEngineer, ur.RoleManager, ur.RoleObserver, ur.RoleAdmin,
              ur.RoleSuperadmin] →
            UserService.RegisterUser ur bcrypt repo s input =
              (.error ("invalid role: " ++ role), s)) ∧
          ((∀ r ∈ input.Roles, r ∈ [ur.RoleEngineer, ur.RoleManager, ur.RoleObserver,
              ur.RoleAdmin, ur.RoleSuperadmin]) →
            (∀ found s1, repo.GetUserByEmail s input.Email = (.ok found, s1) →
              ∀ repo2 : UserRepositoryInterface σ,
                repo2.GetUserByEmail = repo.GetUserByEmail →
                UserService.RegisterUser ur bcrypt repo2 s input =
                  (.error "email already exists", s1)) ∧
            (∀ err s1, repo.GetUserByEmail s input.Email = (.error err, s1) →
              ∀ hashed, bcrypt (TrimSpace input.Password) = .ok hashed →
              ∀ created s2,
                repo.CreateUser s1 ⟨0, ToLower input.Email, hashed, input.Name,
                  rolesOrDefault ur input.Roles⟩ = (.ok created, s2) →
                UserService.RegisterUser ur bcrypt repo s input =
                  (.ok ⟨created.ID, created.Email, created.Name, created.Roles⟩, s2)))))) := by
  constructor
  · intro h
    unfold UserService.RegisterUser
    rw [if_pos h]
  · intro hfilled
    constructor
    · intro hform
      have hv : isValidEmail input.Email = false := by
        cases hc : isValidEmail input.Email with
        | false => rfl
        | true => exact absurd ((isValidEmail_iff _).1 hc) hform
      unfold UserService.RegisterUser
      rw [if_neg hfilled, hv, if_pos (by decide)]
    · intro hform
      have hv : isValidEmail input.Email = true := (isValidEmail_iff _).2 hform
      have hve : ¬ ((!isValidEmail input.Email) = true) := by
        rw [hv]
        decide
      constructor
      · intro hshort
        unfold UserService.RegisterUser
        rw [if_neg hfilled, if_neg hve, if_pos hshort]
      · intro hlong
        have hnl : ¬ len input.Password < 8 := by omega
        have hstart : UserService.RegisterUser ur bcrypt repo s input =
            match (rolesOrDefault ur input.Roles).find? (fun role => !isValidRole ur role) with
            | some role => (.error ("invalid role: " ++ role), s)
            | none =>
              match repo.GetUserByEmail s input.Email with
              | (.ok _, s1) => (.error "email already exists", s1)
              | (.error _, s1) =>
                match User.HashPassword bcrypt
                    { ID := 0, Email := ToLower input.Email, Password := input.Password,
                      Name := input.Name, Roles := rolesOrDefault ur input.Roles } with
                | .error err => (.error ("failed to hash password: " ++ err), s1)
                | .ok user =>
                  match repo.CreateUser s1 user with
                  | (.error err, s2) => (.error ("failed to create user: " ++ err), s2)
                  | (.ok user, s2) => (.ok (userResponse user), s2) := by
          unfold UserService.RegisterUser
          rw [if_neg hfilled, if_neg hve, if_neg hnl]
          rfl
        constructor
        · intro pre role post hroles hpre hbad
          have hne : ¬ input.Roles.length = 0 := by
            rw [hroles]
            simp
          have hfind : (rolesOrDefault ur input.Roles).find?
              (fun role => !isValidRole ur role) = some role := by
            unfold rolesOrDefault
            rw [if_neg hne, List.find?_eq_some]
            refine ⟨?_, pre, post, hroles, ?_⟩
            · have : isValidRole ur role = false := by
                cases hc : isValidRole ur role with
                | false => rfl
                | true => exact absurd ((isValidRole_iff ur role).1 hc) hbad
              rw [this]
              rfl
            · intro a ha
              rw [(isValidRole_iff ur a).2 (hpre a ha)]
              rfl
          rw [hstart, hfind]
        · intro hall
          have hfind := find_invalid_none ur input.Roles
            (fun r hr => (isValidRole_iff ur r).2 (hall r hr))
          constructor
          · intro found s1 hget repo2 h2
            have hstart2 : UserService.RegisterUser ur bcrypt repo2 s input =
                match (rolesOrDefault ur input.Roles).find?
                    (fun role => !isValidRole ur role) with
                | some role => (.error ("invalid role: " ++ role), s)
                | none =>
                  match repo2.GetUserByEmail s input.Email with
                  | (.ok _, s1) => (.error "email already exists", s1)
                  | (.error _, s1) =>
                    match User.HashPassword bcrypt
                        { ID := 0, Email := ToLower input.Email,
                          Password := input.Password, Name := input.Name,
                          Roles := rolesOrDefault ur input.Roles } with
                    | .error err => (.error ("failed to hash password: " ++ err), s1)
                    | .ok user =>
                      match repo2.CreateUser s1 user with
                      | (.error err, s2) => (.error ("failed to create user: " ++ err), s2)
                      | (.ok user, s2) => (.ok (userResponse user), s2) := by
              unfold UserService.RegisterUser
              rw [if_neg hfilled, if_neg hve, if_neg hnl]
              rfl
            rw [hstart2, hfind]
            simp only [h2, hget]
          · intro err s1 hget hashed hhash created s2 hcreate
            have hh : User.HashPassword bcrypt
                { ID := 0, Email := ToLower input.Email, Password := input.Password,
                  Name := input.Name, Roles := rolesOrDefault ur input.Roles } =
                .ok ⟨0, ToLower input.Email, hashed, input.Name,
                  rolesOrDefault ur input.Roles⟩ := by
              unfold User.HashPassword
              simp only [hhash]
            rw [hstart, hfind]
            simp only [hget, hh, hcreate]
            rfl

/-- The checks of `UserService.RegisterUser` on the repository in memory: a
registration without roles is stored with the lower-cased email and the engineer
role; the same email again is refused; a password of seven bytes is refused. -/
theorem RegisterUser_checks_witness :
    UserService.RegisterUser demoRoles demoBcrypt memoryUsers demoUsers
        ⟨"New@Example.com", "12345678", "N", []⟩ =
      (.ok ⟨3, "new@example.com", "N", ["engineer"]⟩,
       ⟨demoUsers.users ++ [⟨3, "new@example.com", "$2a$12345678", "N", ["engineer"]⟩],
        ["GetUserByEmail", "CreateUser"]⟩) ∧
    UserService.RegisterUser demoRoles demoBcrypt memoryUsers demoUsers
        ⟨"A@example.com", "12345678", "N", []⟩ =
      (.error "email already exists", { demoUsers with calls := ["GetUserByEmail"] }) ∧
    UserService.RegisterUser demoRoles demoBcrypt memoryUsers demoUsers
        ⟨"new@example.com", "1234567", "N", []⟩ =
      (.error "password must be at least 8 characters", demoUsers) :=
  ⟨((((RegisterUser_checks demoRoles demoBcrypt memoryUsers demoUsers
      ⟨"New@Example.com", "12345678", "N", []⟩).2 (by decide)).2
        ((isValidEmail_iff _).1 (by decide))).2 (by decide)).2
          (fun _ h => absurd h (List.not_mem_nil _)) |>.2 "record not found"
            { demoUsers with calls := ["GetUserByEmail"] } rfl "$2a$12345678" rfl
            ⟨3, "new@example.com", "$2a$12345678", "N", ["engineer"]⟩ _ rfl,
   ((((RegisterUser_checks demoRoles demoBcrypt memoryUsers demoUsers
      ⟨"A@example.com", "12345678", "N", []⟩).2 (by decide)).2
        ((isValidEmail_iff _).1 (by decide))).2 (by decide)).2
          (fun _ h => absurd h (List.not_mem_nil _)) |>.1
            ⟨1, "a@example.com", "$2a$hash", "A", ["engineer"]⟩ _ rfl memoryUsers rfl,
   (((RegisterUser_checks demoRoles demoBcrypt memoryUsers demoUsers
      ⟨"new@example.com", "1234567", "N", []⟩).2 (by decide)).2
        ((isValidEmail_iff _).1 (by decide))).1 (by decide)⟩

/-- C28, at the failing input. The password `ппппп` has five characters, fewer than
the 8 characters the error text of the code asks for, but ten bytes, which is what
`len(input.Password)` counts: the registration is accepted and the user is stored,
while the password `abcde`, of five characters too, is refused with `password must
be at least 8 characters`. -/
theorem short_password_accepted :
    "ппппп".length = 5 ∧ len "ппппп" = 10 ∧
    UserService.RegisterUser demoRoles demoBcrypt memoryUsers demoUsers
        ⟨"new@example.com", "ппппп", "N", []⟩ =
      (.ok ⟨3, "new@example.com", "N", ["engineer"]⟩,
       ⟨demoUsers.users ++ [⟨3, "new@example.com", "$2a$ппппп", "N", ["engineer"]⟩],
        ["GetUserByEmail", "CreateUser"]⟩) ∧
    "abcde".length = 5 ∧
    UserService.RegisterUser demoRoles demoBcrypt memoryUsers demoUsers
        ⟨"new@example.com", "abcde", "N", []⟩ =
      (.error "password must be at least 8 characters", demoUsers) := by
  refine ⟨by decide, by decide, rfl, by decide, rfl⟩

/-! ## The slice of the error text in the user handlers -/

theorem bytesOf_append (a b : String) : bytesOf (a ++ b) = bytesOf a ++ bytesOf b := by
  unfold bytesOf
  rw [String.data_append, List.map_append, List.flatten_append]

theorem len_append (a b : String) : len (a ++ b) = len a + len b := by
  unfold len
  rw [bytesOf_append, List.length_append]

/-- The errors of `RegisterUser`: the five fixed texts, or one of three fixed
beginnings followed by a detail. -/
theorem RegisterUser_errors {σ : Type} (ur : Userroles)
    (bcrypt : String → Except String String) (repo : UserRepositoryInterface σ) (s s1 : σ)
    (input : RegisterUserInput) (msg : String)
    (h : UserService.RegisterUser ur bcrypt repo s input = (.error msg, s1)) :
    msg = "email, password, and name are required" ∨ msg = "invalid email format" ∨
      msg = "password must be at least 8 characters" ∨ msg = "email already exists" ∨
      (∃ role, msg = "invalid role: " ++ role) ∨
      (∃ detail, msg = "failed to hash password: " ++ detail) ∨
      (∃ detail, msg = "failed to create user: " ++ detail) := by
  unfold UserService.RegisterUser at h
  split_ifs at h with h1 h2 h3
  · simp only [Prod.mk.injEq, Except.error.injEq] at h
    exact Or.inl h.1.symm
  · simp only [Prod.mk.injEq, Except.error.injEq] at h
    exact Or.inr (Or.inl h.1.symm)
  · simp only [Prod.mk.injEq, Except.error.injEq] at h
    exact Or.inr (Or.inr (Or.inl h.1.symm))
  · simp only at h
    split at h
    · simp only [Prod.mk.injEq, Except.error.injEq] at h
      exact Or.inr (Or.inr (Or.inr (Or.inr (Or.inl ⟨_, h.1.symm⟩))))
    · split at h
      · simp only [Prod.mk.injEq, Except.error.injEq] at h
        exact Or.inr (Or.inr (Or.inr (Or.inl h.1.symm)))
      · split at h
        · simp only [Prod.mk.injEq, Except.error.injEq] at h
          exact Or.inr (Or.inr (Or.inr (Or.inr (Or.inr (Or.inl ⟨_, h.1.symm⟩)))))
        · split at h
          · simp only [Prod.mk.injEq, Except.error.injEq] at h
            exact Or.inr (Or.inr (Or.inr (Or.inr (Or.inr (Or.inr ⟨_, h.1.symm⟩)))))
          · simp only [Prod.mk.injEq] at h
            exact absurd h.1 (by simp)
  · simp only at h
    split at h
    · simp only [Prod.mk.injEq, Except.error.injEq] at h
      exact Or.inr (Or.inr (Or.inr (Or.inr (Or.inl ⟨_, h.1.symm⟩))))
    · split at h
      · simp only [Prod.mk.injEq, Except.error.injEq] at h
        exact Or.inr (Or.inr (Or.inr (Or.inl h.1.symm)))
      · split at h
        · simp only [Prod.mk.injEq, Except.error.injEq] at h
          exact Or.inr (Or.inr (Or.inr (Or.inr (Or.inr (Or.inl ⟨_, h.1.symm⟩)))))
        · split at h
          · simp only [Prod.mk.injEq, Except.error.injEq] at h
            exact Or.inr (Or.inr (Or.inr (Or.inr (Or.inr (Or.inr ⟨_, h.1.symm⟩)))))
          · simp only [Prod.mk.injEq] at h
            exact absurd h.1 (by simp)

/-- The errors of `UpdateUser`. -/
theorem UpdateUser_errors {σ : Type} (ur : Userroles) (repo : UserRepositoryInterface σ)
    (s s1 : σ) (id : Nat) (input : EditUserInput) (msg : String)
    (h : UserService.UpdateUser ur repo s id input = (.error msg, s1)) :
    msg = "user not found" ∨ (∃ role, msg = "invalid role: " ++ role) ∨
      (∃ detail, msg = "failed to update user: " ++ detail) := by
  unfold UserService.UpdateUser at h
  split at h
  · simp only [Prod.mk.injEq, Except.error.injEq] at h
    exact Or.inl h.1.symm
  · split at h
    · simp only [Prod.mk.injEq, Except.error.injEq] at h
      exact Or.inr (Or.inl ⟨_, h.1.symm⟩)
    · split_ifs at h
      · simp only [Prod.mk.injEq] at h
        exact absurd h.1 (by simp)
      · split at h
        · simp only [Prod.mk.injEq, Except.error.injEq] at h
          exact Or.inr (Or.inr ⟨_, h.1.symm⟩)
        · simp only [Prod.mk.injEq] at h
          exact absurd h.1 (by simp)

theorem sliceTo_of_le (msg : String) (h : 12 ≤ len msg) :
    (∃ status, registerErrorStatus msg = some status) ∧
      ∃ status, updateErrorStatus msg = some status := by
  have hs : sliceTo msg 12 = some ((bytesOf msg).take 12) := by
    unfold sliceTo
    rw [if_pos h]
  constructor
  · unfold registerErrorStatus
    rw [hs]
    simp only
    split_ifs <;> exact ⟨_, rfl⟩
  · unfold updateErrorStatus
    rw [hs]
    simp only
    split_ifs <;> exact ⟨_, rfl⟩

/-- C30. The slice `err.Error()[:12]` of the handlers `RegisterUser` and `UpdateUser`
never goes out of range.  Every error text `UserService.RegisterUser` returns is one
of the four texts the handler compares first, or has at least 12 bytes, and the
handler settles on a status; every error text `UserService.UpdateUser` returns is
`user not found`, or has at least 12 bytes, and the handler settles on a status. -/
theorem error_slice_in_range {σ : Type} (ur : Userroles) (repo : UserRepositoryInterface σ)
    (s s1 : σ) (msg : String) :
    (∀ bcrypt input, UserService.RegisterUser ur bcrypt repo s input = (.error msg, s1) →
      ((msg = "email already exists" ∨ msg = "invalid email format" ∨
          msg = "password must be at least 8 characters" ∨
          msg = "email, password, and name are required") ∨ 12 ≤ len msg) ∧
      ∃ status, registerErrorStatus msg = some status) ∧
    (∀ id input, UserService.UpdateUser ur repo s id input = (.error msg, s1) →
      (msg = "user not found" ∨ 12 ≤ len msg) ∧
      ∃ status, updateErrorStatus msg = some status) := by
  have hrole : ∀ role, 12 ≤ len ("invalid role: " ++ role) := by
    intro role
    rw [len_append]
    have : len "invalid role: " = 14 := by decide
    omega
  constructor
  · intro bcrypt input h
    rcases RegisterUser_errors ur bcrypt repo s s1 input msg h with
      h | h | h | h | ⟨x, h⟩ | ⟨x, h⟩ | ⟨x, h⟩
    · exact ⟨Or.inl (Or.inr (Or.inr (Or.inr h))), ⟨400, by rw [h]; decide⟩⟩
    · exact ⟨Or.inl (Or.inr (Or.inl h)), ⟨400, by rw [h]; decide⟩⟩
    · exact ⟨Or.inl (Or.inr (Or.inr (Or.inl h))), ⟨400, by rw [h]; decide⟩⟩
    · exact ⟨Or.inl (Or.inl h), ⟨400, by rw [h]; decide⟩⟩
    · have hl : 12 ≤ len msg := h ▸ hrole x
      exact ⟨Or.inr hl, (sliceTo_of_le msg hl).1⟩
    · have hl : 12 ≤ len msg := by
        rw [h, len_append]
        have : len "failed to hash password: " = 25 := by decide
        omega
      exact ⟨Or.inr hl, (sliceTo_of_le msg hl).1⟩
    · have hl : 12 ≤ len msg := by
        rw [h, len_append]
        have : len "failed to create user: " = 23 := by decide
        omega
      exact ⟨Or.inr hl, (sliceTo_of_le msg hl).1⟩
  · intro id input h
    rcases UpdateUser_errors ur repo s s1 id input msg h with h | ⟨x, h⟩ | ⟨x, h⟩
    · exact ⟨Or.inl h, ⟨404, by rw [h]; decide⟩⟩
    · have hl : 12 ≤ len msg := h ▸ hrole x
      exact ⟨Or.inr hl, (sliceTo_of_le msg hl).2⟩
    · have hl : 12 ≤ len msg := by
        rw [h, len_append]
        have : len "failed to update user: " = 23 := by decide
        omega
      exact ⟨Or.inr hl, (sliceTo_of_le msg hl).2⟩

/-- C30 on the repository in memory: a registration with the role `root` is refused
with a text of 18 bytes that the handler answers with 400, and an update of a user
that does not exist is answered 404. -/
theorem error_slice_in_range_witness :
    UserService.RegisterUser demoRoles demoBcrypt memoryUsers demoUsers
        ⟨"new@example.com", "12345678", "N", ["root"]⟩ =
      (.error "invalid role: root", demoUsers) ∧
    (("invalid role: root" = "email already exists" ∨
        "invalid role: root" = "invalid email format" ∨
        "invalid role: root" = "password must be at least 8 characters" ∨
        "invalid role: root" = "email, password, and name are required") ∨
      12 ≤ len "invalid role: root") ∧
    registerErrorStatus "invalid role: root" = some 400 ∧
    updateErrorStatus "user not found" = some 404 :=
  ⟨rfl,
   ((error_slice_in_range demoRoles memoryUsers demoUsers demoUsers
      "invalid role: root").1 demoBcrypt ⟨"new@example.com", "12345678", "N", ["root"]⟩
      rfl).1,
   by decide, by decide⟩

/-! ## Roles from the gateway to the backends -/

theorem intercalate_go_data (sep : String) (as : List String) : ∀ acc : String,
    (String.intercalate.go acc sep as).data =
      acc.data ++ (as.map fun a => sep.data ++ a.data).flatten := by
  induction as with
  | nil =>
    intro acc
    simp [String.intercalate.go]
  | cons a as ih =>
    intro acc
    rw [String.intercalate.go, ih, String.data_append, String.data_append]
    simp [List.append_assoc]

theorem Join_cons_data (r : String) (rest : List String) :
    (Join (r :: rest) ",").data = r.data ++ (rest.map fun a => ',' :: a.data).flatten := by
  unfold Join
  rw [String.intercalate, intercalate_go_data]
  rfl

theorem splitChars_no_sep (sep : Char) (w : List Char) (h : sep ∉ w) :
    splitChars sep w = [w] := by
  induction w with
  | nil => rfl
  | cons c w ih =>
    have hc : c ≠ sep := fun e => h (e ▸ List.mem_cons_self _ _)
    have hw : sep ∉ w := fun e => h (List.mem_cons_of_mem _ e)
    rw [splitChars, if_neg hc, ih hw]

theorem splitChars_append_sep (sep : Char) (w rest : List Char) (h : sep ∉ w) :
    splitChars sep (w ++ sep :: rest) = w :: splitChars sep rest := by
  induction w with
  | nil =>
    rw [List.nil_append, splitChars, if_pos rfl]
  | cons c w ih =>
    have hc : c ≠ sep := fun e => h (e ▸ List.mem_cons_self _ _)
    have hw : sep ∉ w := fun e => h (List.mem_cons_of_mem _ e)
    rw [List.cons_append, splitChars, if_neg hc, ih hw]

theorem splitChars_join (rest : List String) : ∀ r : String,
    (∀ x ∈ r :: rest, ',' ∉ x.data) →
    splitChars ',' (r.data ++ (rest.map fun a => ',' :: a.data).flatten) =
      (r :: rest).map String.data := by
  induction rest with
  | nil =>
    intro r h
    simp only [List.map_nil, List.flatten_nil, List.append_nil, List.map_cons]
    exact splitChars_no_sep ',' r.data (h r (List.mem_cons_self _ _))
  | cons r2 rest ih =>
    intro r h
    simp only [List.map_cons, List.flatten_cons, List.cons_append]
    rw [splitChars_append_sep ',' r.data _ (h r (List.mem_cons_self _ _)),
      ih r2 (fun x hx => h x (List.mem_cons_of_mem _ hx))]
    rfl

/-- Splitting on commas undoes joining with commas, for a non-empty list of strings
without commas. -/
theorem SplitComma_Join (roles : List String) (hne : roles ≠ [])
    (h : ∀ x ∈ roles, ',' ∉ x.data) : SplitComma (Join roles ",") = roles := by
  cases roles with
  | nil => exact absurd rfl hne
  | cons r rest =>
    unfold SplitComma
    rw [Join_cons_data, splitChars_join rest r h, List.map_map]
    have : (String.mk ∘ String.data) = id := by
      funext x
      rfl
    rw [this, List.map_id]

theorem headerRoles_Join (roles : List String) (hne : roles ≠ [])
    (h : ∀ r ∈ roles, r ≠ "" ∧ ',' ∉ r.data ∧ TrimSpace r = r) :
    headerRoles (Join roles ",") = roles := by
  rw [headerRoles_eq, SplitComma_Join roles hne (fun x hx => (h x hx).2.1)]
  have hmap : roles.map TrimSpace = roles := by
    conv_rhs => rw [← List.map_id roles]
    exact List.map_congr_left (fun r hr => (h r hr).2.2)
  rw [hmap, List.filter_eq_self]
  intro r hr
  exact decide_eq_true (h r hr).1

theorem splitChars_items (sep : Char) (cs : List Char) :
    ∀ w ∈ splitChars sep cs, sep ∉ w := by
  induction cs with
  | nil =>
    intro w hw
    rw [splitChars, List.mem_singleton] at hw
    rw [hw]
    exact List.not_mem_nil _
  | cons c cs ih =>
    intro w hw
    rw [splitChars] at hw
    by_cases hc : c = sep
    · rw [if_pos hc] at hw
      rcases List.mem_cons.1 hw with h | h
      · rw [h]; exact List.not_mem_nil _
      · exact ih w h
    · rw [if_neg hc] at hw
      cases hs : splitChars sep cs with
      | nil =>
        rw [hs] at hw
        simp only [List.mem_singleton] at hw
        rw [hw]
        simp only [List.mem_singleton]
        exact fun e => hc e.symm
      | cons v vs =>
        rw [hs] at hw ih
        simp only [List.mem_cons] at hw
        rcases hw with h | h
        · rw [h]
          intro hm
          rcases List.mem_cons.1 hm with e | e
          · exact hc e.symm
          · exact ih v (List.mem_cons_self _ _) e
        · exact ih w (List.mem_cons_of_mem _ h)

theorem TrimSpace_data_sublist (s : String) : (TrimSpace s).data.Sublist s.data := by
  unfold TrimSpace
  have h1 : ((s.data.dropWhile IsSpace).reverse.dropWhile IsSpace).Sublist
      (s.data.dropWhile IsSpace).reverse := (List.dropWhile_suffix _).sublist
  have h2 := List.reverse_sublist.2 h1
  rw [List.reverse_reverse] at h2
  exact h2.trans (List.dropWhile_suffix _).sublist

theorem dropWhile_of_head_not {p : Char → Bool} (l : List Char)
    (h : ∀ c ∈ l.head?, p c = false) : l.dropWhile p = l := by
  cases l with
  | nil => rfl
  | cons a l =>
    have := h a rfl
    rw [List.dropWhile_cons_of_neg (by simp [this])]

theorem head_dropWhile_false (p : Char → Bool) (l : List Char) :
    ∀ c ∈ (l.dropWhile p).head?, p c = false := by
  induction l with
  | nil => intro c hc; cases hc
  | cons a l ih =>
    intro c hc
    by_cases ha : p a = true
    · rw [List.dropWhile_cons_of_pos ha] at hc
      exact ih c hc
    · rw [List.dropWhile_cons_of_neg ha] at hc
      simp only [List.head?_cons, Option.mem_def, Option.some.injEq] at hc
      rw [← hc]
      simpa using ha

/-- Go `strings.TrimSpace` leaves a trimmed string as it is. -/
theorem TrimSpace_idem (s : String) : TrimSpace (TrimSpace s) = TrimSpace s := by
  unfold TrimSpace
  simp only
  congr 1
  set a := s.data.dropWhile IsSpace with ha
  set b := a.reverse.dropWhile IsSpace with hb
  -- the trimmed text is `b.reverse`, a prefix of `a`
  have hpre : b.reverse <+: a := by
    have : b <:+ a.reverse := List.dropWhile_suffix _
    have := List.reverse_prefix.2 this
    rwa [List.reverse_reverse] at this
  have hhead : ∀ c ∈ b.reverse.head?, IsSpace c = false := by
    intro c hc
    obtain ⟨t, ht⟩ := hpre
    cases hbr : b.reverse with
    | nil => rw [hbr] at hc; cases hc
    | cons x xs =>
      rw [hbr] at hc ht
      simp only [List.head?_cons, Option.mem_def, Option.some.injEq] at hc
      have : a.head? = some x := by rw [← ht]; rfl
      exact head_dropWhile_false IsSpace s.data c (by rw [← ha, this, hc]; rfl)
  rw [dropWhile_of_head_not _ hhead, List.reverse_reverse,
    dropWhile_of_head_not b (head_dropWhile_false IsSpace a.reverse)]

/-- The roles `JWTAuth` takes from a claim that is a string are not empty, hold no
comma and are trimmed. -/
theorem rolesOf_str_clean (claims : MapClaims) (raw : String)
    (h : mapGet "roles" claims = some (.str raw)) :
    ∀ r ∈ rolesOf claims, r ≠ "" ∧ ',' ∉ r.data ∧ TrimSpace r = r := by
  intro r hr
  rw [rolesOf_str claims raw h, List.mem_filter, List.mem_map] at hr
  obtain ⟨⟨x, hx, rfl⟩, hne⟩ := hr
  refine ⟨of_decide_eq_true hne, ?_, TrimSpace_idem x⟩
  intro hc
  have hxm : ',' ∈ x.data := (TrimSpace_data_sublist x).subset hc
  unfold SplitComma at hx
  obtain ⟨w, hw, rfl⟩ := List.mem_map.1 hx
  exact splitChars_items ',' raw.data w hw hxm

/-- C29 (as amended).  For every valid token from which `JWTAuth` takes at least one
role, and whose roles claim is a comma-joined string, or whose roles hold no comma
and no leading or trailing white space: `JWTAuth` hands on the request with the
`X-User-Roles` header set to the roles joined by commas, the Director leaves that
header as it is, and the role list `RoleMiddleware` derives from it (split on
commas, trimmed, empty items dropped) is the role list `JWTAuth` took from the
claim. -/
theorem roles_round_trip (env : Env) (c : Context) (token : Token) (url : URL)
    (h1 : c.Request.Header.Get "Authorization" ≠ "")
    (h2 : HasPrefix (c.Request.Header.Get "Authorization") "Bearer " = true)
    (h3 : jwtParse env.jwt env.now (TrimPrefix (c.Request.Header.Get "Authorization") "Bearer ")
      (keyFunc env.cfg) = .ok token)
    (hne : rolesOf token.Claims ≠ [])
    (hclean : (∃ raw, mapGet "roles" token.Claims = some (.str raw)) ∨
      ∀ r ∈ rolesOf token.Claims, r ≠ "" ∧ ',' ∉ r.data ∧ TrimSpace r = r) :
    (∀ next, JWTAuth env next c = next (withClaims c token.Claims)) ∧
    (withClaims c token.Claims).Request.Header.Get "X-User-Roles" =
      Join (rolesOf token.Claims) "," ∧
    (Director url (withClaims c token.Claims).Request).Header.Get "X-User-Roles" =
      Join (rolesOf token.Claims) "," ∧
    headerRoles ((Director url (withClaims c token.Claims).Request).Header.Get "X-User-Roles") =
      rolesOf token.Claims := by
  have hget : (withClaims c token.Claims).Request.Header.Get "X-User-Roles" =
      Join (rolesOf token.Claims) "," := by
    unfold Header.Get
    rw [canon_user_roles, withClaims_index, if_pos ⟨rfl, hne⟩]
  have hc : ∀ r ∈ rolesOf token.Claims, r ≠ "" ∧ ',' ∉ r.data ∧ TrimSpace r = r := by
    rcases hclean with ⟨raw, hraw⟩ | h
    · exact rolesOf_str_clean token.Claims raw hraw
    · exact h
  refine ⟨fun next => JWTAuth_of_ok env next c token h1 h2 h3, hget, ?_, ?_⟩
  · rw [Director_Get, hget]
  · rw [Director_Get, hget, headerRoles_Join _ hne hc]

/-- C29 (as amended) on the token `t-csv`, whose roles claim is the string
` manager, ,engineer `: the backend reads the roles manager and engineer. -/
theorem roles_round_trip_witness :
    rolesOf [("id", .str "u7"), ("roles", .str " manager, ,engineer ")] =
      ["manager", "engineer"] ∧
    (withClaims (newContext demoGateway (ordersRequest "t-csv" []))
        [("id", .str "u7"), ("roles", .str " manager, ,engineer ")]).Request.Header.Get
      "X-User-Roles" = "manager,engineer" ∧
    headerRoles ((Director demoTarget
        (withClaims (newContext demoGateway (ordersRequest "t-csv" []))
          [("id", .str "u7"), ("roles", .str " manager, ,engineer ")]).Request).Header.Get
      "X-User-Roles") = ["manager", "engineer"] :=
  ⟨by decide,
   (roles_round_trip (demoEnv 0) (newContext demoGateway (ordersRequest "t-csv" []))
      ⟨"HS256", true, [("id", .str "u7"), ("roles", .str " manager, ,engineer ")]⟩ demoTarget
      (by decide) (by decide) rfl (by decide) (Or.inl ⟨_, rfl⟩)).2.1,
   (roles_round_trip (demoEnv 0) (newContext demoGateway (ordersRequest "t-csv" []))
      ⟨"HS256", true, [("id", .str "u7"), ("roles", .str " manager, ,engineer ")]⟩ demoTarget
      (by decide) (by decide) rfl (by decide) (Or.inl ⟨_, rfl⟩)).2.2.2⟩

/-- C29 as stated fails: the valid token `t-odd` has the roles `ops,admin` and
` manager`; `JWTAuth` takes these two roles and forwards the header
`ops,admin, manager`, from which `RoleMiddleware` derives the three roles ops, admin
and manager. -/
theorem comma_role_splits :
    oddJwt.decode "t-odd" = some ⟨"HS256", true,
      [("id", .num (float64OfNat 7)), ("roles", .arr [.str "ops,admin", .str " manager"])]⟩ ∧
    rolesOf [("id", .num (float64OfNat 7)),
      ("roles", .arr [.str "ops,admin", .str " manager"])] = ["ops,admin", " manager"] ∧
    ((ServeHTTP oddEnv .orders demoGateway (ordersRequest "t-odd" [])).gw.forwarded.map
      fun r => r.Header.Get "X-User-Roles") = ["ops,admin, manager"] ∧
    headerRoles "ops,admin, manager" = ["ops", "admin", "manager"] := by
  refine ⟨rfl, by decide, by decide, by decide⟩

/-! ## swagger.go: references of the aggregated document -/

theorem mem_outerRefStringsEntries_cons (s key : String) (val : GoVal)
    (rest : List (String × GoVal)) :
    s ∈ outerRefStringsEntries ((key, val) :: rest) ↔
      s ∈ (if key = "$ref" then stringOf val else outerRefStrings val) ∨
        s ∈ outerRefStringsEntries rest := by
  rw [outerRefStringsEntries, List.mem_append]

theorem outerRefStringsEntries_map_subset (f : GoVal → GoVal)
    (hs : ∀ v s, s ∈ stringOf (f v) → s ∈ stringOf v)
    (ho : ∀ v s, s ∈ outerRefStrings (f v) → s ∈ outerRefStrings v) (m : GoMap) :
    ∀ s, s ∈ outerRefStringsEntries (m.map fun kv => (kv.1, f kv.2)) →
      s ∈ outerRefStringsEntries m := by
  induction m with
  | nil => intro s h; exact h
  | cons kv rest ih =>
    obtain ⟨key, val⟩ := kv
    intro s h
    rw [List.map_cons, mem_outerRefStringsEntries_cons] at h
    rw [mem_outerRefStringsEntries_cons]
    rcases h with h | h
    · left
      by_cases hk : key = "$ref"
      · rw [if_pos hk] at h ⊢
        exact hs val s h
      · rw [if_neg hk] at h ⊢
        exact ho val s h
    · exact Or.inr (ih s h)

theorem outerRefStringsEntries_filter_subset (p : String × GoVal → Bool) (m : GoMap) :
    ∀ s, s ∈ outerRefStringsEntries (m.filter p) → s ∈ outerRefStringsEntries m := by
  induction m with
  | nil => intro s h; exact h
  | cons kv rest ih =>
    obtain ⟨key, val⟩ := kv
    intro s h
    rw [mem_outerRefStringsEntries_cons]
    by_cases hp : p (key, val) = true
    · rw [List.filter_cons_of_pos hp, mem_outerRefStringsEntries_cons] at h
      exact h.imp id (ih s)
    · rw [List.filter_cons_of_neg hp] at h
      exact Or.inr (ih s h)

theorem stripDetails_refs (v : GoVal) :
    (∀ s, s ∈ stringOf (stripDetails v) → s ∈ stringOf v) ∧
      ∀ s, s ∈ outerRefStrings (stripDetails v) → s ∈ outerRefStrings v := by
  cases v with
  | obj d =>
    refine ⟨fun s h => h, fun s h => ?_⟩
    have e : stripDetails (.obj d) = .obj (mapDelete "security" d) := rfl
    rw [e, outerRefStrings] at h
    rw [outerRefStrings]
    exact outerRefStringsEntries_filter_subset _ d s h
  | _ => exact ⟨fun s h => h, fun s h => h⟩

theorem stripOps_refs (v : GoVal) :
    (∀ s, s ∈ stringOf (stripOps v) → s ∈ stringOf v) ∧
      ∀ s, s ∈ outerRefStrings (stripOps v) → s ∈ outerRefStrings v := by
  cases v with
  | obj methods =>
    refine ⟨fun s h => h, fun s h => ?_⟩
    have e : stripOps (.obj methods) =
        .obj (methods.map fun md => (md.1, stripDetails md.2)) := rfl
    rw [e, outerRefStrings] at h
    rw [outerRefStrings]
    exact outerRefStringsEntries_map_subset stripDetails
      (fun v => (stripDetails_refs v).1) (fun v => (stripDetails_refs v).2) methods s h
  | _ => exact ⟨fun s h => h, fun s h => h⟩

/-- Stripping the security declarations adds no reference. -/
theorem removeLocalSecurity_refs (paths : GoVal) :
    ∀ s, s ∈ outerRefStringsEntries (removeLocalSecurity paths) → s ∈ outerRefStrings paths := by
  cases paths with
  | obj pm =>
    intro s h
    have e : removeLocalSecurity (.obj pm) = pm.map fun po => (po.1, stripOps po.2) := rfl
    rw [e] at h
    rw [outerRefStrings]
    exact outerRefStringsEntries_map_subset stripOps
      (fun v => (stripOps_refs v).1) (fun v => (stripOps_refs v).2) pm s h
  | _ => intro s h; exact absurd h (List.not_mem_nil _)

theorem outerRefStringsEntries_mapPut (key : String) (val : GoVal) (m : GoMap) :
    ∀ s, s ∈ outerRefStringsEntries (mapPut key val m) →
      s ∈ outerRefStringsEntries m ∨ s ∈ outerRefStringsEntries [(key, val)] := by
  induction m with
  | nil => intro s h; exact Or.inr h
  | cons kv rest ih =>
    obtain ⟨k, w⟩ := kv
    intro s h
    rw [mapPut] at h
    by_cases hk : k = key
    · rw [if_pos hk, mem_outerRefStringsEntries_cons] at h
      rcases h with h | h
      · right
        rw [mem_outerRefStringsEntries_cons]
        exact Or.inl h
      · left
        rw [mem_outerRefStringsEntries_cons]
        exact Or.inr h
    · rw [if_neg hk, mem_outerRefStringsEntries_cons] at h
      rw [mem_outerRefStringsEntries_cons]
      rcases h with h | h
      · exact Or.inl (Or.inl h)
      · exact (ih s h).imp Or.inr id

theorem outerRefStringsEntries_putAll (m : GoMap) : ∀ (merged : GoMap) (s : String),
    s ∈ outerRefStringsEntries (putAll merged m) →
      s ∈ outerRefStringsEntries merged ∨ s ∈ outerRefStringsEntries m := by
  induction m with
  | nil => intro merged s h; exact Or.inl h
  | cons kv rest ih =>
    obtain ⟨k, w⟩ := kv
    intro merged s h
    have step : putAll merged ((k, w) :: rest) = putAll (mapPut k w merged) rest := rfl
    rw [step] at h
    rw [mem_outerRefStringsEntries_cons]
    rcases ih _ s h with h1 | h1
    · rcases outerRefStringsEntries_mapPut k w merged s h1 with h2 | h2
      · exact Or.inl h2
      · rw [mem_outerRefStringsEntries_cons] at h2
        rcases h2 with h3 | h3
        · exact Or.inr (Or.inl h3)
        · exact absurd h3 (List.not_mem_nil _)
    · exact Or.inr (Or.inr h1)

theorem outerRefStringsEntries_entriesOf (a : GoVal) :
    ∀ s, s ∈ outerRefStringsEntries (entriesOf a) → s ∈ outerRefStrings a := by
  cases a with
  | obj m => intro s h; rw [outerRefStrings]; exact h
  | _ => intro s h; exact absurd h (List.not_mem_nil _)

/-- A reference of a merged map is a reference of one of the two maps. -/
theorem merge_refs (a b : GoVal) (s : String) :
    (s ∈ outerRefStringsEntries (mergePaths a b) →
      s ∈ outerRefStrings a ∨ s ∈ outerRefStrings b) ∧
    (s ∈ outerRefStringsEntries (mergeSchemas a b) →
      s ∈ outerRefStrings a ∨ s ∈ outerRefStrings b) := by
  have key : s ∈ outerRefStringsEntries (putAll (putAll [] (entriesOf a)) (entriesOf b)) →
      s ∈ outerRefStrings a ∨ s ∈ outerRefStrings b := by
    intro h
    rcases outerRefStringsEntries_putAll _ _ s h with h1 | h1
    · rcases outerRefStringsEntries_putAll _ _ s h1 with h2 | h2
      · exact absurd h2 (List.not_mem_nil _)
      · exact Or.inl (outerRefStringsEntries_entriesOf a s h2)
    · exact Or.inr (outerRefStringsEntries_entriesOf b s h1)
  constructor
  · rw [mergePaths_eq]; exact key
  · rw [mergeSchemas_eq]; exact key

theorem replaceChars_of_not_contains (old new : List Char) (cs : List Char)
    (h : containsChars old cs = false) : replaceChars old new 0 cs = cs := by
  induction cs with
  | nil => exact replaceChars_nil old new 0
  | cons c cs ih =>
    rw [containsChars, Bool.or_eq_false_iff] at h
    rw [replaceChars, if_neg (by rw [h.1]; decide), ih h.2]

theorem replaceChars_skip (old new : List Char) (xs ys : List Char) :
    replaceChars old new xs.length (xs ++ ys) = replaceChars old new 0 ys := by
  induction xs with
  | nil => rfl
  | cons x xs ih =>
    rw [List.length_cons, List.cons_append, replaceChars, ih]

theorem replaceChars_at_occurrence (old new : List Char) (c : Char) (ot rest : List Char)
    (hold : old = c :: ot) :
    replaceChars old new 0 (old ++ rest) = new ++ replaceChars old new 0 rest := by
  subst hold
  have hpre : (c :: ot).isPrefixOf (c :: (ot ++ rest)) = true := by
    rw [← List.cons_append]
    exact List.isPrefixOf_iff_prefix.2 (List.prefix_append _ _)
  have hlen : (c :: ot).length - 1 = ot.length := rfl
  rw [List.cons_append, replaceChars, if_pos hpre, hlen, replaceChars_skip]

theorem containsChars_new_append (rest : List Char) :
    containsChars "#/definitions/".data ("#/components/schemas/".data ++ rest) =
      containsChars "#/definitions/".data rest := by
  have hnew : "#/components/schemas/".data =
      ['#', '/', 'c', 'o', 'm', 'p', 'o', 'n', 'e', 'n', 't', 's', '/',
        's', 'c', 'h', 'e', 'm', 'a', 's', '/'] := rfl
  rw [hnew]
  simp only [List.cons_append, List.nil_append]
  have h0 : containsChars "#/definitions/".data ('#' :: '/' :: 'c' ::
      'o' :: 'm' :: 'p' :: 'o' :: 'n' :: 'e' :: 'n' :: 't' :: 's' :: '/' ::
        's' :: 'c' :: 'h' :: 'e' :: 'm' :: 'a' :: 's' :: '/' :: rest) =
      containsChars "#/definitions/".data ('/' :: 'c' ::
      'o' :: 'm' :: 'p' :: 'o' :: 'n' :: 'e' :: 'n' :: 't' :: 's' :: '/' ::
        's' :: 'c' :: 'h' :: 'e' :: 'm' :: 'a' :: 's' :: '/' :: rest) := by
    have hold : "#/definitions/".data = '#' :: '/' :: 'd' :: "efinitions/".data := rfl
    rw [containsChars]
    have : ("#/definitions/".data).isPrefixOf ('#' :: '/' :: 'c' ::
      'o' :: 'm' :: 'p' :: 'o' :: 'n' :: 'e' :: 'n' :: 't' :: 's' :: '/' ::
        's' :: 'c' :: 'h' :: 'e' :: 'm' :: 'a' :: 's' :: '/' :: rest) = false := by
      rw [hold]
      simp only [List.isPrefixOf, Bool.and_eq_false_imp, beq_iff_eq]
      intro _ _ e
      exact absurd e (by decide)
    rw [this, Bool.false_or]
  rw [h0]
  repeat rw [containsChars_cons_ne _ _ (by decide)]

/-- A reference in the legacy style to a name free of the legacy prefix is rewritten
to the unified style; a reference in the unified style to such a name is kept. -/
theorem Replace_reference (K : String) (hK : Contains K "#/definitions/" = false) :
    Replace ("#/definitions/" ++ K) "#/definitions/" "#/components/schemas/" =
        "#/components/schemas/" ++ K ∧
      Replace ("#/components/schemas/" ++ K) "#/definitions/" "#/components/schemas/" =
        "#/components/schemas/" ++ K := by
  have hKc : containsChars "#/definitions/".data K.data = false := hK
  constructor
  · apply String.ext
    show replaceChars "#/definitions/".data "#/components/schemas/".data 0
      ("#/definitions/" ++ K).data = ("#/components/schemas/" ++ K).data
    rw [String.data_append, String.data_append,
      replaceChars_at_occurrence _ _ '#' "/definitions/".data K.data rfl,
      replaceChars_of_not_contains _ _ _ hKc]
  · apply String.ext
    show replaceChars "#/definitions/".data "#/components/schemas/".data 0
      ("#/components/schemas/" ++ K).data = ("#/components/schemas/" ++ K).data
    rw [String.data_append]
    exact replaceChars_of_not_contains _ _ _ (by rw [containsChars_new_append]; exact hKc)

theorem HasPrefix_split (s p : String) (h : HasPrefix s p = true) : s = p ++ TrimPrefix s p := by
  obtain ⟨rest, hrest⟩ := HasPrefix_data s p h
  apply String.ext
  unfold TrimPrefix
  rw [if_pos h, String.data_append]
  simp only
  rw [hrest]
  simp

theorem refNames_split (pre : String) (schemas : GoVal) (ref : String)
    (h : refNames pre schemas ref = true) :
    ref = pre ++ TrimPrefix ref pre ∧ TrimPrefix ref pre ∈ keysOf (entriesOf schemas) := by
  unfold refNames at h
  rw [Bool.and_eq_true] at h
  exact ⟨HasPrefix_split ref pre h.1, of_decide_eq_true h.2⟩

theorem namesCleanSchema_split (schemas : GoVal) (ref : String)
    (h : namesCleanSchema schemas ref = true) :
    ∃ K, (ref = "#/definitions/" ++ K ∨ ref = "#/components/schemas/" ++ K) ∧
      K ∈ keysOf (entriesOf schemas) ∧ Contains K "#/definitions/" = false := by
  unfold namesCleanSchema at h
  rw [Bool.or_eq_true, Bool.and_eq_true, Bool.and_eq_true] at h
  rcases h with ⟨h1, h2⟩ | ⟨h1, h2⟩
  · obtain ⟨e, hk⟩ := refNames_split _ _ _ h1
    exact ⟨_, Or.inl e, hk, by simpa using h2⟩
  · obtain ⟨e, hk⟩ := refNames_split _ _ _ h1
    exact ⟨_, Or.inr e, hk, by simpa using h2⟩

theorem mem_keysOf_mergedSchemas (u o : GoMap) (K : String)
    (h : K ∈ keysOf (entriesOf (safeGetSchemas u)) ∨ K ∈ keysOf (entriesOf (safeGetSchemas o))) :
    K ∈ keysOf (entriesOf (mergedSchemasOf u o)) := by
  have e : entriesOf (mergedSchemasOf u o) =
      updateRefsEntries (mergeSchemas (safeGetSchemas u) (safeGetSchemas o)) := by
    unfold mergedSchemasOf
    rw [updateRefs]
    rfl
  rw [e, keysOf_updateRefsEntries, mergeSchemas_eq, mem_keysOf_putAll, mem_keysOf_putAll]
  rcases h with h | h
  · exact Or.inl (Or.inr h)
  · exact Or.inr h

/-- C22 (as amended).  For every pair of input documents in which each reference the
aggregation reaches (a string under a `$ref` key of the paths or of the schema map
`safeGetSchemas` reads, outside the value of another `$ref` key) is `#/definitions/K`
or `#/components/schemas/K` with `K` a key of that schema map and free of the text
`#/definitions/`: the paths and the schemas of the aggregated document are the
merged ones, and every such reference in them is `#/components/schemas/K` with `K` a
key of the aggregated `components.schemas`. -/
theorem aggregated_refs_resolve (usersSwagger ordersSwagger : GoMap)
    (hu : wellReferenced usersSwagger = true) (ho : wellReferenced ordersSwagger = true) :
    pathsOf (mergedSwagger usersSwagger ordersSwagger) =
        mergedPathsOf usersSwagger ordersSwagger ∧
      componentsSchemas (mergedSwagger usersSwagger ordersSwagger) =
        mergedSchemasOf usersSwagger ordersSwagger ∧
      safeGetSchemas (mergedSwagger usersSwagger ordersSwagger) =
        mergedSchemasOf usersSwagger ordersSwagger ∧
      ∀ ref, ref ∈ reachedRefs (mergedSwagger usersSwagger ordersSwagger) →
        refNames "#/components/schemas/"
            (componentsSchemas (mergedSwagger usersSwagger ordersSwagger)) ref = true ∧
          ∃ K, ref = "#/components/schemas/" ++ K ∧
            K ∈ keysOf (entriesOf
              (componentsSchemas (mergedSwagger usersSwagger ordersSwagger))) := by
  have hp : pathsOf (mergedSwagger usersSwagger ordersSwagger) =
      mergedPathsOf usersSwagger ordersSwagger := rfl
  have hc : componentsSchemas (mergedSwagger usersSwagger ordersSwagger) =
      mergedSchemasOf usersSwagger ordersSwagger := rfl
  have hs : safeGetSchemas (mergedSwagger usersSwagger ordersSwagger) =
      mergedSchemasOf usersSwagger ordersSwagger := rfl
  refine ⟨hp, hc, hs, ?_⟩
  intro ref href
  -- every reference of the result is the rewriting of a reference of an input
  have hsrc : ∃ ref0, ref = Replace ref0 "#/definitions/" "#/components/schemas/" ∧
      (ref0 ∈ reachedRefs usersSwagger ∨ ref0 ∈ reachedRefs ordersSwagger) := by
    unfold reachedRefs at href ⊢
    rw [hp, hs, List.mem_append] at href
    rcases href with h | h
    · unfold mergedPathsOf at h
      rw [outerRefStrings_updateRefs, List.mem_map] at h
      obtain ⟨ref0, h0, e⟩ := h
      refine ⟨ref0, e.symm, ?_⟩
      rw [outerRefStrings] at h0
      rcases (merge_refs _ _ ref0).1 h0 with h1 | h1
      · rw [outerRefStrings] at h1
        exact Or.inl (List.mem_append_left _ (removeLocalSecurity_refs _ ref0 h1))
      · rw [outerRefStrings] at h1
        exact Or.inr (List.mem_append_left _ (removeLocalSecurity_refs _ ref0 h1))
    · unfold mergedSchemasOf at h
      rw [outerRefStrings_updateRefs, List.mem_map] at h
      obtain ⟨ref0, h0, e⟩ := h
      refine ⟨ref0, e.symm, ?_⟩
      rw [outerRefStrings] at h0
      rcases (merge_refs _ _ ref0).2 h0 with h1 | h1
      · exact Or.inl (List.mem_append_right _ h1)
      · exact Or.inr (List.mem_append_right _ h1)
  obtain ⟨ref0, e, hsrc⟩ := hsrc
  -- which names a schema of its document
  have hname : ∃ K, (ref0 = "#/definitions/" ++ K ∨ ref0 = "#/components/schemas/" ++ K) ∧
      (K ∈ keysOf (entriesOf (safeGetSchemas usersSwagger)) ∨
        K ∈ keysOf (entriesOf (safeGetSchemas ordersSwagger))) ∧
      Contains K "#/definitions/" = false := by
    rcases hsrc with h | h
    · obtain ⟨K, h1, h2, h3⟩ := namesCleanSchema_split _ _
        ((List.all_eq_true.1 hu) ref0 h)
      exact ⟨K, h1, Or.inl h2, h3⟩
    · obtain ⟨K, h1, h2, h3⟩ := namesCleanSchema_split _ _
        ((List.all_eq_true.1 ho) ref0 h)
      exact ⟨K, h1, Or.inr h2, h3⟩
  obtain ⟨K, hform, hkey, hclean⟩ := hname
  have href : ref = "#/components/schemas/" ++ K := by
    rcases hform with h | h
    · rw [e, h, (Replace_reference K hclean).1]
    · rw [e, h, (Replace_reference K hclean).2]
  have hmem : K ∈ keysOf (entriesOf
      (componentsSchemas (mergedSwagger usersSwagger ordersSwagger))) := by
    rw [hc]
    exact mem_keysOf_mergedSchemas _ _ K hkey
  refine ⟨?_, K, href, hmem⟩
  have htrim : TrimPrefix ref "#/components/schemas/" = K := by
    rw [href]
    apply String.ext
    have hpre : HasPrefix ("#/components/schemas/" ++ K) "#/components/schemas/" = true := by
      unfold HasPrefix
      rw [String.data_append]
      exact List.isPrefixOf_iff_prefix.2 (List.prefix_append _ _)
    unfold TrimPrefix
    rw [if_pos hpre, String.data_append]
    simp
  unfold refNames
  rw [Bool.and_eq_true, htrim]
  refine ⟨?_, decide_eq_true hmem⟩
  rw [href]
  unfold HasPrefix
  rw [String.data_append]
  exact List.isPrefixOf_iff_prefix.2 (List.prefix_append _ _)

/-- C22 (as amended) on a users document in the legacy style and an orders document
in the unified style: the three references of the aggregated document are in the
unified style and name the aggregated schemas User, Role and Order. -/
theorem aggregated_refs_resolve_witness :
    reachedRefs demoUsersDoc = ["#/definitions/User", "#/definitions/Role"] ∧
    reachedRefs (mergedSwagger demoUsersDoc demoOrdersDoc) =
      ["#/components/schemas/User", "#/components/schemas/Order",
        "#/components/schemas/Role"] ∧
    keysOf (entriesOf (componentsSchemas (mergedSwagger demoUsersDoc demoOrdersDoc))) =
      ["User", "Role", "Order"] ∧
    refNames "#/components/schemas/"
      (componentsSchemas (mergedSwagger demoUsersDoc demoOrdersDoc))
      "#/components/schemas/Role" = true :=
  ⟨by decide, by decide, by decide,
   ((aggregated_refs_resolve demoUsersDoc demoOrdersDoc (by decide) (by decide)).2.2.2
      "#/components/schemas/Role" (by decide)).1⟩

/-- C22 as stated fails, on three documents in each of which every reference names a
schema defined in the same document.  A reference below a property named `$ref` is
not rewritten; a reference to a definition, in a document that also has
`components.schemas`, names a schema that is not aggregated; a reference to a schema
whose name contains `#/definitions/` is rewritten to a name that is no key. -/
theorem aggregated_refs_dangling :
    ((refStrings (.obj nestedRefSwagger)).all (definedIn nestedRefSwagger) = true ∧
      (refStrings (.obj demoOrdersDoc)).all (definedIn demoOrdersDoc) = true ∧
      refStrings (componentsSchemas (mergedSwagger nestedRefSwagger demoOrdersDoc)) =
        ["#/definitions/Order"] ∧
      refNames "#/components/schemas/"
        (componentsSchemas (mergedSwagger nestedRefSwagger demoOrdersDoc))
        "#/definitions/Order" = false) ∧
    ((refStrings (.obj twoStyleSwagger)).all (definedIn twoStyleSwagger) = true ∧
      refStrings (pathsOf (mergedSwagger twoStyleSwagger demoOrdersDoc)) =
        ["#/components/schemas/Item", "#/components/schemas/Order"] ∧
      keysOf (entriesOf (componentsSchemas (mergedSwagger twoStyleSwagger demoOrdersDoc))) =
        ["Order"] ∧
      refNames "#/components/schemas/"
        (componentsSchemas (mergedSwagger twoStyleSwagger demoOrdersDoc))
        "#/components/schemas/Item" = false) ∧
    ((refStrings (.obj oddNameSwagger)).all (definedIn oddNameSwagger) = true ∧
      refStrings (componentsSchemas (mergedSwagger oddNameSwagger demoOrdersDoc)) =
        ["#/components/schemas/a#/components/schemas/b"] ∧
      keysOf (entriesOf (componentsSchemas (mergedSwagger oddNameSwagger demoOrdersDoc))) =
        ["a#/definitions/b", "User", "Order"] ∧
      refNames "#/components/schemas/"
        (componentsSchemas (mergedSwagger oddNameSwagger demoOrdersDoc))
        "#/components/schemas/a#/components/schemas/b" = false) := by
  refine ⟨⟨by decide, by decide, by decide, by decide⟩,
    ⟨by decide, by decide, by decide, by decide⟩,
    ⟨by decide, by decide, by decide, by decide⟩⟩

end ApiGateway
